import Mathlib

/-!
# Mython lexer, runtime and syntax tree: a shallow embedding

Source files embedded here: `lexer.cpp`, `lexer.h` (namespace `parse`),
`runtime.cpp` (namespace `runtime`) and `statement.cpp` (namespace `ast`).

Conventions of the embedding.

* In the lexer a C++ `char` is a Lean `Char` and a `std::string` is a `List Char`.
  Every byte string is such a list, so a statement quantified over all
  `List Char` covers every input the program can read.  In the runtime, names
  are only compared for equality and are Lean `String`s.
* `std::istream` is the list of characters still unread.  `input.get()` at the
  end of the list yields the character `eofChar` (the `char` conversion of
  `EOF`, byte `0xFF`) and puts the stream into the failed state.
* `int` and `size_t` counters (`indents_`, `pos_new_line_`, `position`,
  `spaces`) are unbounded `Int`s: they are bounded by the length of a line,
  so they only wrap for lines of 2^31 bytes and more.  The one place where the
  width of `int` decides the result, `std::stoi`, keeps its 32-bit range check.
* Code that throws returns `Except.error`.
* In the runtime and the syntax tree, classes and class instances live in a
  memory (`runtime.World`) that holds them in two lists; a pointer to one of
  them is its index in the list, and a holder of an object is a holder of its
  index.  Dereferencing a pointer that points nowhere is the outcome
  `undefined`.
* A call of `Execute` yields its outcome together with the closure and the
  memory that it leaves (`runtime.ExecResult`).  A C++ exception is an outcome
  (`runtime.Outcome`) that every caller hands on until a handler takes it.
* Calls of `Execute` nest as deep as the program makes them.  `ast.Execute`
  takes the greatest depth allowed as its first argument and answers `no_fuel`
  beyond it.
* The value of a `Number` is an `int`.  The arithmetic nodes compute the exact
  result in `Int` and keep of it what 32 bits hold (`runtime.to_int`); the
  division of the least `int` by -1, which traps, is the outcome `undefined`.
-/

deriving instance DecidableEq for Except

namespace parse

/-- The 24 alternatives of `parse::Token` (`lexer.h`, namespace `token_type`). -/
inductive Token where
  | Number (value : Int)
  | Id (value : List Char)
  | Char (value : Char)
  | String (value : List Char)
  | Class
  | Return
  | If
  | Else
  | Def
  | Newline
  | Print
  | Indent
  | Dedent
  | And
  | Or
  | Not
  | Eq
  | NotEq
  | LessOrEq
  | GreaterOrEq
  | None
  | True
  | False
  | Eof
  deriving DecidableEq, Repr

/-- Ways in which the `Lexer` constructor fails to produce a token vector. -/
inductive LexFailure where
  /-- Thrown by `std::stoi` when the digits denote a value that is no `int`. -/
  | out_of_range
  /-- The call `std::string(buffer.begin() + 1, buffer.end() - 1)` on a one-character buffer:
  the iterator range is reversed, which the language leaves undefined. -/
  | invalid_range
  /-- The loop of `ParseString` exhausted its iteration budget: it does not end. -/
  | no_fuel
  deriving DecidableEq, Repr

/-- Function `is_alpha`: `std::isalpha` in the "C" locale. -/
def is_alpha (ch : Char) : Bool :=
  ('a' ≤ ch && ch ≤ 'z') || ('A' ≤ ch && ch ≤ 'Z')

/-- The characters of the set `"0123456789"`. -/
def is_digit_char (ch : Char) : Bool :=
  '0' ≤ ch && ch ≤ '9'

/-- Function `is_digit`: `str.find_first_not_of("0123456789") == npos`. -/
def is_digit (str : List Char) : Bool :=
  str.all is_digit_char

/-- Function `is_math_symbol`. -/
def is_math_symbol (ch : Char) : Bool :=
  ch == '+' || ch == '-' || ch == '*' || ch == '/'

/-- The decimal value of a string of digits, most significant digit first. -/
def decimal_value (str : List Char) : Nat :=
  str.foldl (fun acc ch => 10 * acc + (ch.toNat - '0'.toNat)) 0

/-- The largest `int`, `INT_MAX`. -/
def INT_MAX : Nat := 2147483647

/-- Function `std::stoi` on a non-empty string of decimal digits: the value, or
`std::out_of_range` when it exceeds `INT_MAX`. -/
def stoi (str : List Char) : Except LexFailure Int :=
  if decimal_value str ≤ INT_MAX then .ok (decimal_value str) else .error .out_of_range

/-- Method `Lexer::CreateToken`: the tokens appended to `tokens_set_` for the lexeme `buffer`. -/
def CreateToken (buffer : List Char) (tokens_set_ : List Token) : Except LexFailure (List Token) :=
  if buffer.isEmpty then
    .ok tokens_set_
  else if buffer = ['c', 'l', 'a', 's', 's'] then
    .ok (tokens_set_ ++ [Token.Class])
  else if buffer = ['d', 'e', 'f'] then
    .ok (tokens_set_ ++ [Token.Def])
  else if buffer = ['T', 'r', 'u', 'e'] then
    .ok (tokens_set_ ++ [Token.True])
  else if buffer = ['F', 'a', 'l', 's', 'e'] then
    .ok (tokens_set_ ++ [Token.False])
  else if buffer = ['N', 'o', 'n', 'e'] then
    .ok (tokens_set_ ++ [Token.None])
  else if buffer = ['i', 'f'] then
    .ok (tokens_set_ ++ [Token.If])
  else if buffer = ['e', 'l', 's', 'e'] then
    .ok (tokens_set_ ++ [Token.Else])
  else if buffer = ['a', 'n', 'd'] then
    .ok (tokens_set_ ++ [Token.And])
  else if buffer = ['o', 'r'] then
    .ok (tokens_set_ ++ [Token.Or])
  else if buffer = ['n', 'o', 't'] then
    .ok (tokens_set_ ++ [Token.Not])
  else if buffer = ['p', 'r', 'i', 'n', 't'] then
    .ok (tokens_set_ ++ [Token.Print])
  else if buffer = ['=', '='] then
    .ok (tokens_set_ ++ [Token.Eq])
  else if buffer = ['<', '='] then
    .ok (tokens_set_ ++ [Token.LessOrEq])
  else if buffer = ['>', '='] then
    .ok (tokens_set_ ++ [Token.GreaterOrEq])
  else if buffer = ['!', '='] then
    .ok (tokens_set_ ++ [Token.NotEq])
  else if buffer = ['r', 'e', 't', 'u', 'r', 'n'] then
    .ok (tokens_set_ ++ [Token.Return])
  else
    let first_symbol := buffer.headD '\x00'
    if first_symbol = '_' || is_alpha first_symbol then
      .ok (tokens_set_ ++ [Token.Id buffer])
    else if is_digit buffer then
      match stoi buffer with
      | .ok value => .ok (tokens_set_ ++ [Token.Number value])
      | .error e => .error e
    else if first_symbol = '"' || first_symbol = '\'' then
      if 2 ≤ buffer.length then
        .ok (tokens_set_ ++ [Token.String (buffer.tail.dropLast)])
      else
        .error .invalid_range
    else
      .ok (tokens_set_ ++ buffer.map Token.Char)

/-- The private data of `class Lexer` (`lexer.h`), with their initial values. -/
structure Lexer where
  tokens_set_ : List Token := []
  indents_ : Int := 0
  pos_new_line_ : Int := 0
  curr_token_ : Nat := 0
  deriving DecidableEq, Repr

/-- The `switch` over the character after a backslash, the same in the constructor and in
`ParseString`: the character pushed, if any. -/
def escape (next : Char) : Option Char :=
  if next = 'n' then some '\n'
  else if next = 't' then some '\t'
  else if next = '\\' then some '\\'
  else if next = 'r' then some '\r'
  else if next = '"' then some '"'
  else if next = '\'' then some '\''
  else none

/-- Method `Lexer::UpdatePosNewLine`. -/
def UpdatePosNewLine (self : Lexer) : Lexer :=
  { self with pos_new_line_ := self.indents_ * 2 }

/-- Method `Lexer::InsertIndent`. -/
def InsertIndent (self : Lexer) (spaces position : Int) : Bool :=
  spaces = position && position - self.pos_new_line_ > 0

/-- Method `Lexer::InsertDedent`. -/
def InsertDedent (self : Lexer) (spaces position : Int) : Bool :=
  spaces = position && self.pos_new_line_ - position > 0

/-- Appends a token: `tokens_set_.push_back(t)`. -/
def push_back (self : Lexer) (t : Token) : Lexer :=
  { self with tokens_set_ := self.tokens_set_ ++ [t] }

/-- The loop `while ((position - pos_new_line_) > 0)` of `ParseString`.  The first argument
bounds the number of iterations; `indent_loop_exit` shows that the bound passed by
`ParseString_loop` is never the reason for leaving the loop. -/
def indent_loop : Nat → Int → Lexer → Lexer
  | 0, _, self => self
  | fuel + 1, position, self =>
    if position - self.pos_new_line_ > 0 then
      indent_loop fuel position
        (UpdatePosNewLine { push_back self Token.Indent with indents_ := self.indents_ + 1 })
    else self

/-- The loop `while ((pos_new_line_ - position) > 0)` of `ParseString`; with `position = 0` it is
the loop `while (pos_new_line_ > 0)` that ends the constructor.  The first argument bounds the
number of iterations, see `dedent_loop_exit`. -/
def dedent_loop : Nat → Int → Lexer → Lexer
  | 0, _, self => self
  | fuel + 1, position, self =>
    if self.pos_new_line_ - position > 0 then
      dedent_loop fuel position
        (UpdatePosNewLine { push_back self Token.Dedent with indents_ := self.indents_ - 1 })
    else self

/-- The local variables of `ParseString`, with their initial values (`type_quote` is not
initialised in the source and is only read after it has been assigned). -/
structure ParseLocals where
  substr : List Char := []
  spaces : Int := 0
  position : Int := -1
  is_string_now : Bool := false
  type_quote : Char := '\x00'
  deriving DecidableEq, Repr

/-- Runs `CreateToken` on the lexer object. -/
def CreateTokenOn (substr : List Char) (self : Lexer) : Except LexFailure Lexer :=
  match CreateToken substr self.tokens_set_ with
  | .ok tokens => .ok { self with tokens_set_ := tokens }
  | .error e => .error e

/-- The `for` loop of `Lexer::ParseString` and the `CreateToken` call after it.  The list is
`buffer` from index `i` on: the source appends to `buffer` while it iterates, and
reads only `buffer[i]`, `buffer[i + 1]` and `buffer.size()`.  The first argument is
the iteration budget. -/
def ParseString_loop : Nat → List Char → ParseLocals → Lexer → Except LexFailure Lexer
  | 0, _, _, _ => .error .no_fuel
  | _ + 1, [], loc, self =>
    if loc.substr ≠ [] then CreateTokenOn loc.substr self else .ok self
  | fuel + 1, ch :: rest, loc, self =>
    let position := loc.position + 1
    if loc.is_string_now then
      if ch = '\\' then
        -- `buffer[i + 1]` is the terminating zero when `i + 1 = buffer.size()`
        let next_ch := rest.headD '\x00'
        ParseString_loop fuel (rest ++ (escape next_ch).toList) { loc with position := position } self
      else if ch = loc.type_quote then
        ParseString_loop fuel rest
          { loc with substr := loc.substr ++ [ch], position := position,
                     is_string_now := false, type_quote := '\x00' } self
      else
        ParseString_loop fuel rest { loc with substr := loc.substr ++ [ch], position := position } self
    else if ch = '\'' ∨ ch = '"' then
      if rest ≠ [] ∧ rest.headD '\x00' ≠ '\\' then
        ParseString_loop fuel rest
          { loc with substr := loc.substr ++ [ch], position := position,
                     is_string_now := true, type_quote := ch } self
      else
        ParseString_loop fuel rest { loc with substr := loc.substr ++ [ch], position := position } self
    else if is_math_symbol ch then
      if loc.substr ≠ [] then
        match CreateTokenOn loc.substr self with
        | .ok self1 =>
          ParseString_loop fuel rest { loc with substr := [], position := position }
            (push_back self1 (Token.Char ch))
        | .error e => .error e
      else
        ParseString_loop fuel rest { loc with position := position } (push_back self (Token.Char ch))
    else if ch = ' ' ∧ loc.substr = [] then
      ParseString_loop fuel rest { loc with spaces := loc.spaces + 1, position := position } self
    else if ch = ' ' ∧ loc.substr ≠ [] then
      match CreateTokenOn loc.substr self with
      | .ok self1 => ParseString_loop fuel rest { loc with substr := [], position := position } self1
      | .error e => .error e
    else if ch = ':' ∨ ch = '(' ∨ ch = ')' ∨ ch = ',' ∨ ch = '.' then
      if loc.substr ≠ [] then
        match CreateTokenOn loc.substr self with
        | .ok self1 =>
          ParseString_loop fuel rest { loc with substr := [], position := position }
            (push_back self1 (Token.Char ch))
        | .error e => .error e
      else
        ParseString_loop fuel rest { loc with position := position } (push_back self (Token.Char ch))
    else
      let self1 :=
        if loc.substr = [] ∧ InsertIndent self loc.spaces position then
          indent_loop ((position - 2 * self.indents_).toNat + 1) position self
        else if loc.substr = [] ∧ InsertDedent self loc.spaces position then
          dedent_loop ((2 * self.indents_ - position).toNat + 1) position self
        else self
      ParseString_loop fuel rest { loc with substr := loc.substr ++ [ch], position := position } self1

/-- Method `Lexer::ParseString`.  The budget `(n + 1)^2` for a buffer of `n` characters covers
every run of the loop that ends: by `ParseString_budget` a larger budget gives the same result,
so the failure `no_fuel` stands for a loop that appends to its buffer for ever. -/
def ParseString (buffer : List Char) (self : Lexer) : Except LexFailure Lexer :=
  ParseString_loop ((buffer.length + 1) * (buffer.length + 1)) buffer {} self

/-- The value of `char s = input.get()` at the end of the input: `EOF` converted to `char`. -/
def eofChar : Char := '\xff'

/-- The local variables of the constructor `Lexer::Lexer`. -/
structure CtorLocals where
  buffer : List Char := []
  is_string_now : Bool := false
  type_quote : Char := '\x00'
  deriving DecidableEq, Repr

mutual
/-- The loop `while (input)` of the constructor `Lexer::Lexer`, on the unread input.  It returns
the buffer and the lexer object at the exit of the loop. -/
def read_loop : List Char → CtorLocals → Lexer → Except LexFailure (List Char × Lexer)
  | [], loc, self =>
    -- `input.get()` fails: `s` is `eofChar`, which is none of the characters tested, and
    -- the loop is left after this iteration
    if loc.is_string_now then
      .ok (loc.buffer ++ [eofChar], self)
    else
      -- branch `if (!input)`: `ParseString(buffer); buffer.clear(); break;`
      match ParseString loc.buffer self with
      | .ok self1 => .ok ([], self1)
      | .error e => .error e
  | s :: rest, loc, self =>
    if loc.buffer = [] ∧ s = '\n' then
      read_loop rest loc self
    else if loc.is_string_now then
      if s = '\\' then
        match rest with
        | [] =>
          -- `next_s` is `eofChar`: nothing is pushed, the stream has failed
          .ok (loc.buffer, self)
        | next_s :: rest1 =>
          read_loop rest1 { loc with buffer := loc.buffer ++ (escape next_s).toList } self
      else if s = loc.type_quote then
        read_loop rest { buffer := loc.buffer ++ [s], is_string_now := false, type_quote := '\x00' } self
      else
        read_loop rest { loc with buffer := loc.buffer ++ [s] } self
    else if s = '\'' ∨ s = '"' then
      read_loop rest { buffer := loc.buffer ++ [s], is_string_now := true, type_quote := s } self
    else if s = '\n' then
      match ParseString loc.buffer self with
      | .ok self1 => read_loop rest { loc with buffer := [] } (push_back self1 Token.Newline)
      | .error e => .error e
    else if s = '#' then
      if loc.buffer ≠ [] then
        match ParseString loc.buffer self with
        | .ok self1 => skip_comment rest { loc with buffer := [] } (push_back self1 Token.Newline)
        | .error e => .error e
      else
        skip_comment rest loc self
    else
      read_loop rest { loc with buffer := loc.buffer ++ [s] } self
/-- The comment loop `cm = input.get(); while (input && cm != '\n') cm = input.get();` followed
by the rest of the `while (input)` loop. -/
def skip_comment : List Char → CtorLocals → Lexer → Except LexFailure (List Char × Lexer)
  | [], loc, self =>
    -- the stream has failed inside the comment: both loops are left
    .ok (loc.buffer, self)
  | cm :: rest, loc, self =>
    if cm = '\n' then read_loop rest loc self else skip_comment rest loc self
end

/-- The end of the constructor (lines 160 to 178): the last `ParseString`, the trailing
`Newline`, the `Dedent` tokens and `Eof`. -/
def finish (buffer : List Char) (self : Lexer) : Except LexFailure Lexer :=
  match (if buffer ≠ [] then ParseString buffer self else .ok self) with
  | .error e => .error e
  | .ok self1 =>
    let self2 :=
      if self1.tokens_set_ ≠ [] ∧ self1.tokens_set_.getLast? ≠ some Token.Newline then
        push_back self1 Token.Newline
      else self1
    let self3 := dedent_loop (self2.indents_.toNat + 1) 0 self2
    .ok (push_back self3 Token.Eof)

/-- The constructor `Lexer::Lexer(std::istream& input)` on the text of `input`. -/
def Lexer.Lexer (input : List Char) : Except LexFailure Lexer :=
  match read_loop input {} {} with
  | .error e => .error e
  | .ok (buffer, self) => finish buffer self

/-- The token vector the constructor builds. -/
def tokenize (input : List Char) : Except LexFailure (List Token) :=
  match Lexer.Lexer input with
  | .ok self => .ok self.tokens_set_
  | .error e => .error e

/-- Failures of the two cursor operations. -/
inductive CursorFailure where
  /-- The `std::logic_error` thrown on an empty token vector. -/
  | logic_error
  /-- The read `tokens_set_[curr_token_]` past the end of the vector. -/
  | out_of_bounds
  deriving DecidableEq, Repr

/-- Method `Lexer::CurrentToken`. -/
def CurrentToken (self : Lexer) : Except CursorFailure Token :=
  if self.tokens_set_ = [] then .error .logic_error
  else
    match self.tokens_set_[self.curr_token_]? with
    | some t => .ok t
    | none => .error .out_of_bounds

/-- Method `Lexer::NextToken`: the token returned and the lexer object after the call. -/
def NextToken (self : Lexer) : Except CursorFailure (Token × Lexer) :=
  if self.tokens_set_ = [] then .error .logic_error
  else if self.tokens_set_.length = self.curr_token_ + 1 then .ok (Token.Eof, self)
  else
    match self.tokens_set_[self.curr_token_ + 1]? with
    | some t => .ok (t, { self with curr_token_ := self.curr_token_ + 1 })
    | none => .error .out_of_bounds

/-- The lexer object after `k` calls of `NextToken`. -/
def after_calls : Nat → Lexer → Except CursorFailure Lexer
  | 0, self => .ok self
  | k + 1, self =>
    match NextToken self with
    | .ok (_, self1) => after_calls k self1
    | .error e => .error e

end parse

namespace runtime

/-- The record `runtime::Method` (`runtime.h`): the name, the names of the formal parameters
and the body.  The body is a statement of the syntax tree; `GetMethod` does not look at
it, so its type is a parameter here. -/
structure Method (Body : Type) where
  name : String
  formal_params : List String
  body : Body
  deriving DecidableEq, Repr

/-- The data of `runtime::Class`: `name_`, `methods_` and the pointer `parent_`, which is null
or points to the parent class (which has a `parent_` of its own). -/
inductive Class (Body : Type) where
  | mk (name_ : String) (methods_ : List (Method Body)) (parent_ : Option (Class Body))

/-- Field `name_`. -/
def Class.name_ {Body : Type} : Class Body → String
  | .mk n _ _ => n

/-- Field `methods_`. -/
def Class.methods_ {Body : Type} : Class Body → List (Method Body)
  | .mk _ ms _ => ms

/-- Field `parent_`. -/
def Class.parent_ {Body : Type} : Class Body → Option (Class Body)
  | .mk _ _ p => p

/-- The loop `for (const Method& method : methods) if (method.name == name) return &method;`:
the method returned, if the loop returns. -/
def find_method {Body : Type} : List (Method Body) → String → Option (Method Body)
  | [], _ => none
  | method :: methods, name => if method.name = name then some method else find_method methods name

/-- Method `Class::GetMethod`; `none` is the null pointer. -/
def Class.GetMethod {Body : Type} (self : Class Body) (name : String) : Option (Method Body) :=
  match find_method self.methods_ name with
  | some method => some method
  | none =>
    match self.parent_ with
    | some parent => find_method parent.methods_ name
    | none => none

/-- Modelled from the spec: `ObjectHolder` (`runtime.h`), a handle to a runtime value.  The spec
gives the values as the tagged union `None`, `Number(i32)`, `String(string)`, `Bool(bool)`,
`Class(class-ref)`, `ClassInstance(instance-ref)`, with classes and instances placed in arenas
keyed by index.  `None` is the empty holder; `TryAs<T>` is the match on the tag.  Owning and
sharing holders behave alike and are not told apart. -/
inductive ObjectHolder where
  | None
  | Number (value : Int)
  | String (value : String)
  | Bool (value : Bool)
  | Class (cls : Nat)
  | ClassInstance (inst : Nat)
  deriving DecidableEq, Repr

/-- Modelled from the spec: `Closure` (`runtime.h`), the mapping from variable names to
holders (`std::unordered_map<std::string, ObjectHolder>`), kept as an association list with
one entry for each key. -/
abbrev Closure := List (String × ObjectHolder)

/-- The lookup `closure.at(key)`, guarded in the source by `closure.count(key)`: `none` when
the key is absent. -/
def Closure.find (closure : Closure) (key : String) : Option ObjectHolder :=
  List.lookup key closure

/-- The assignment `closure[key] = value`: the entry of `key` is replaced, or added. -/
def Closure.assign : Closure → String → ObjectHolder → Closure
  | [], key, value => [(key, value)]
  | (k, v) :: rest, key, value =>
    if k = key then (key, value) :: rest else (k, v) :: Closure.assign rest key value

/-- The call `closure.insert({key, value})`: the entry is added unless `key` is bound. -/
def Closure.insert (closure : Closure) (key : String) (value : ObjectHolder) : Closure :=
  match closure.find key with
  | some _ => closure
  | none => closure ++ [(key, value)]

/-- Modelled from the spec: the data of `runtime::ClassInstance` (`runtime.h`): the pointer
`cls_`, here the index of the class in the arena of classes, and the closure `fields_`. -/
structure ClassInstance where
  cls_ : Nat
  fields_ : Closure
  deriving DecidableEq, Repr

/-- Modelled from the spec: `Context` (`runtime.h`) gives the output stream.  There are the
context of the driver and the `DummyContext` whose stream nobody reads. -/
inductive Context where
  | driver
  | dummy
  deriving DecidableEq, Repr

/-- The memory an execution works on: the arena of classes (never written), the arena of class
instances, and the text written so far to the output stream of the driver's context. -/
structure World (Body : Type) where
  classes : List (Class Body)
  instances : List ClassInstance
  output : String

/-- The statement `os << text` on the output stream of `context`. -/
def World.write {Body : Type} (w : World Body) (context : Context) (text : String) :
    World Body :=
  match context with
  | .driver => { w with output := w.output ++ text }
  | .dummy => w

/-- The assignment `instance->Fields()[key] = value` on the instance at index `inst`. -/
def World.set_field {Body : Type} (w : World Body) (inst : Nat) (key : String)
    (value : ObjectHolder) : World Body :=
  { w with
    instances :=
      w.instances.modify (fun self => { self with fields_ := self.fields_.assign key value })
        inst }

/-- The ways in which a call ends: with a value, or with an exception on its way up
(`std::runtime_error`, or the `return_except` that `Return::Execute` throws), or by an undefined
operation (a null pointer is dereferenced), or cut off by the budget of the model. -/
inductive Outcome (α : Type) where
  | value (v : α)
  | runtime_error (what : String)
  | return_except (info : ObjectHolder)
  | undefined
  | no_fuel
  deriving DecidableEq, Repr

/-- The outcome of `f(e)` for an expression `e` with the given outcome: `f` is applied to the
value, and an exception passes through. -/
def Outcome.map {α β : Type} (f : α → β) : Outcome α → Outcome β
  | .value v => .value (f v)
  | .runtime_error what => .runtime_error what
  | .return_except info => .return_except info
  | .undefined => .undefined
  | .no_fuel => .no_fuel

/-- What a call of `Executable::Execute(closure, context)` leaves: how it ended, the closure it
was given by reference, and the memory. -/
structure ExecResult (Body : Type) where
  outcome : Outcome ObjectHolder
  closure : Closure
  world : World Body

/-- Modelled from the spec: the virtual method `Executable::Execute` (`runtime.h`), given here by
the function that executes a body. -/
abbrev Executor (Body : Type) := Body → Closure → Context → World Body → ExecResult Body

/-- Function `IsTrue`. -/
def IsTrue (object : ObjectHolder) : Bool :=
  match object with
  | .None => false
  | .String value => !value.isEmpty
  | .Number value => value != 0
  | .Bool value => value
  | _ => false

/-- Method `ClassInstance::HasMethod`.  A `cls_` that points to no class of the arena stands for
the null pointer. -/
def ClassInstance.HasMethod {Body : Type} (w : World Body) (self : ClassInstance)
    (method : String) (argument_count : Nat) : Bool :=
  match w.classes[self.cls_]? with
  | none => false
  | some cls =>
    match cls.GetMethod method with
    | none => false
    | some searched_method => searched_method.formal_params.length = argument_count

/-- The loop `for (i = 0; i < actual_args.size(); ++i) method_closure[args[i]] = actual_args[i];`
of `ClassInstance::Call`. -/
def bind_args : List String → List ObjectHolder → Closure → Closure
  | arg :: args, actual :: actual_args, method_closure =>
    bind_args args actual_args (method_closure.assign arg actual)
  | _, _, method_closure => method_closure

/-- Method `ClassInstance::Call` on the instance at index `self`; `ObjectHolder::Share(*this)`
is the holder of that index.  The memory after the call is returned with the outcome. -/
def ClassInstance.Call {Body : Type} (exec : Executor Body) (self : Nat) (method : String)
    (actual_args : List ObjectHolder) (context : Context) (w : World Body) :
    Outcome ObjectHolder × World Body :=
  match w.instances[self]? with
  | none => (.undefined, w)
  | some this =>
    if this.HasMethod w method actual_args.length then
      match (w.classes[this.cls_]?).bind (fun cls => cls.GetMethod method) with
      | none => (.undefined, w)
      | some method_for_call =>
        let method_closure :=
          (bind_args method_for_call.formal_params actual_args []).assign "self"
            (.ClassInstance self)
        let result := exec method_for_call.body method_closure context w
        (result.outcome, result.world)
    else (.runtime_error "Incorrect call", w)

/-- The text of `os << this` for the instance at index `inst`.  The source prints the value of
the pointer, which no run fixes; a text that names the index stands for it. -/
def address_text (inst : Nat) : String :=
  "<instance " ++ toString inst ++ ">"

/-- Method `ClassInstance::Print(os, context)` on the instance at index `self`: the text that it
writes to `os`, and the memory that the call of `__str__` leaves.  `os << bool` writes `1` or
`0`. -/
def ClassInstance.Print {Body : Type} (exec : Executor Body) (self : Nat) (context : Context)
    (w : World Body) : Outcome String × World Body :=
  match w.instances[self]? with
  | none => (.undefined, w)
  | some this =>
    if this.HasMethod w "__str__" 0 then
      let str_res := ClassInstance.Call exec self "__str__" [] context w
      (str_res.1.map fun
        | .String value => value
        | .Number value => toString value
        | .Bool value => if value then "1" else "0"
        | _ => address_text self, str_res.2)
    else (.value (address_text self), w)

/-- Function `Equal`. -/
def Equal {Body : Type} (exec : Executor Body) (lhs rhs : ObjectHolder) (context : Context)
    (w : World Body) : Outcome Bool × World Body :=
  if lhs = .None ∧ rhs = .None then (.value true, w)
  else if lhs = .None ∨ rhs = .None then
    (.runtime_error "Cannot compare objects for equality", w)
  else
    match lhs, rhs with
    | .String l, .String r => (.value (l = r), w)
    | .Number l, .Number r => (.value (l = r), w)
    | .Bool l, .Bool r => (.value (l = r), w)
    | .ClassInstance lhs_instance, .ClassInstance rhs_instance =>
      match w.instances[lhs_instance]? with
      | none => (.undefined, w)
      | some this =>
        if this.HasMethod w "__eq__" 1 then
          let result :=
            ClassInstance.Call exec lhs_instance "__eq__" [.ClassInstance rhs_instance] context w
          (result.1.map IsTrue, result.2)
        else (.runtime_error "Cannot compare objects for equality", w)
    | _, _ => (.runtime_error "Cannot compare objects for equality", w)

/-- Function `Less`. -/
def Less {Body : Type} (exec : Executor Body) (lhs rhs : ObjectHolder) (context : Context)
    (w : World Body) : Outcome Bool × World Body :=
  if lhs = .None ∨ rhs = .None then (.runtime_error "Cannot compare objects for less", w)
  else
    match lhs, rhs with
    | .String l, .String r => (.value (l < r), w)
    | .Number l, .Number r => (.value (l < r), w)
    | .Bool l, .Bool r => (.value (l < r), w)
    | .ClassInstance lhs_instance, .ClassInstance rhs_instance =>
      match w.instances[lhs_instance]? with
      | none => (.undefined, w)
      | some this =>
        if this.HasMethod w "__lt__" 1 then
          let result :=
            ClassInstance.Call exec lhs_instance "__lt__" [.ClassInstance rhs_instance] context w
          (result.1.map IsTrue, result.2)
        else (.runtime_error "Cannot compare objects for less", w)
    | _, _ => (.runtime_error "Cannot compare objects for equality", w)

/-- Function `NotEqual`. -/
def NotEqual {Body : Type} (exec : Executor Body) (lhs rhs : ObjectHolder) (context : Context)
    (w : World Body) : Outcome Bool × World Body :=
  let equal := Equal exec lhs rhs context w
  (equal.1.map (!·), equal.2)

/-- Function `Greater`: `!Less(lhs, rhs, context) && !Equal(lhs, rhs, context)`, where `Equal`
is called only when `Less` has returned false. -/
def Greater {Body : Type} (exec : Executor Body) (lhs rhs : ObjectHolder) (context : Context)
    (w : World Body) : Outcome Bool × World Body :=
  match Less exec lhs rhs context w with
  | (.value true, w1) => (.value false, w1)
  | (.value false, w1) =>
    let equal := Equal exec lhs rhs context w1
    (equal.1.map (!·), equal.2)
  | failure => failure

/-- Function `LessOrEqual`. -/
def LessOrEqual {Body : Type} (exec : Executor Body) (lhs rhs : ObjectHolder)
    (context : Context) (w : World Body) : Outcome Bool × World Body :=
  let greater := Greater exec lhs rhs context w
  (greater.1.map (!·), greater.2)

/-- Function `GreaterOrEqual`. -/
def GreaterOrEqual {Body : Type} (exec : Executor Body) (lhs rhs : ObjectHolder)
    (context : Context) (w : World Body) : Outcome Bool × World Body :=
  let less := Less exec lhs rhs context w
  (less.1.map (!·), less.2)

/-- The value of type `int` (32 bits, in two-complement form) that the machine keeps of the exact
result `x` of an operation on two values of type `int`. -/
def to_int (x : Int) : Int :=
  (x + 2147483648) % 4294967296 - 2147483648

end runtime

namespace ast

open runtime

/-- Modelled from the spec: `Comparator` (`statement.h`) is the type of the function that a
`Comparison` node calls, `bool(const ObjectHolder&, const ObjectHolder&, Context&)`; its values
are the six comparators of `runtime`. -/
inductive Comparator where
  | Equal
  | NotEqual
  | Less
  | Greater
  | LessOrEqual
  | GreaterOrEqual
  deriving DecidableEq, Repr

/-- The data of a `VariableValue` node: the name given to its first constructor, or the dotted
ids given to its second one. -/
structure VariableValue where
  var_name_ : String
  dotted_ids_ : List String
  deriving DecidableEq, Repr

/-- Modelled from the spec: the node classes that `statement.h` derives from `Statement`, with
the data members that the constructors and the `Execute` methods of `statement.cpp` use.  A
`unique_ptr<Statement>` that may be null is an `Option`.  `NewInstance` owns its instance
`inst_`, here the index of that instance in the arena; `ClassDefinition` keeps the holder
`cls_`. -/
inductive Statement where
  | NumericConst (value : Int)
  | StringConst (value : String)
  | BoolConst (value : Bool)
  | None
  | VariableValue (node : VariableValue)
  | Assignment (var_ : String) (rv_ : Statement)
  | FieldAssignment (object_ : VariableValue) (field_name : String) (rv : Statement)
  | Print (argument_ : Option Statement) (args_ : List Statement)
  | MethodCall (object_ : Statement) (method_ : String) (args_ : List Statement)
  | NewInstance (inst_ : Nat) (args_ : List Statement)
  | Stringify (arg_ : Statement)
  | Add (lhs_ rhs_ : Statement)
  | Sub (lhs_ rhs_ : Statement)
  | Mult (lhs_ rhs_ : Statement)
  | Div (lhs_ rhs_ : Statement)
  | Or (lhs_ rhs_ : Statement)
  | And (lhs_ rhs_ : Statement)
  | Not (arg_ : Statement)
  | Comparison (cmp_ : Comparator) (lhs_ rhs_ : Statement)
  | Compound (commands_ : List Statement)
  | Return (statement_ : Statement)
  | MethodBody (body_ : Statement)
  | ClassDefinition (cls_ : ObjectHolder)
  | IfElse (condition_ if_body_ : Statement) (else_body_ : Option Statement)

instance : Inhabited Statement := ⟨.None⟩

/-- The call `cmp_(lhs, rhs, context)` of a `Comparison` node. -/
def Comparator.call (cmp_ : Comparator) (exec : Executor Statement) (lhs rhs : ObjectHolder)
    (context : Context) (w : World Statement) : Outcome Bool × World Statement :=
  match cmp_ with
  | .Equal => runtime.Equal exec lhs rhs context w
  | .NotEqual => runtime.NotEqual exec lhs rhs context w
  | .Less => runtime.Less exec lhs rhs context w
  | .Greater => runtime.Greater exec lhs rhs context w
  | .LessOrEqual => runtime.LessOrEqual exec lhs rhs context w
  | .GreaterOrEqual => runtime.GreaterOrEqual exec lhs rhs context w

/-- Method `Assignment::Execute`. -/
def Assignment.Execute (exec : Executor Statement) (var_ : String) (rv_ : Statement)
    (closure : Closure) (context : Context) (w : World Statement) : ExecResult Statement :=
  match exec rv_ closure context w with
  | ⟨.value rv, closure1, w1⟩ => ⟨.value rv, closure1.assign var_ rv, w1⟩
  | failure => failure

/-- The loop over `dotted_ids_` of `VariableValue::Execute`. -/
def dotted_loop (w : World Statement) :
    List String → Closure → ObjectHolder → Outcome ObjectHolder
  | [], _, result => .value result
  | id :: ids, closure_for_search, _ =>
    match closure_for_search.find id with
    | none => .runtime_error "Unable to evaluate a variable with the given name"
    | some field =>
      match field with
      | .ClassInstance field_value_ptr =>
        match w.instances[field_value_ptr]? with
        | none => .undefined
        | some instance_ => dotted_loop w ids instance_.fields_ field
      | _ => .value field

/-- Method `VariableValue::Execute`. -/
def VariableValue.Execute (self : VariableValue) (closure : Closure) (w : World Statement) :
    ExecResult Statement :=
  if !self.dotted_ids_.isEmpty then
    ⟨dotted_loop w self.dotted_ids_ closure .None, closure, w⟩
  else
    match closure.find self.var_name_ with
    | none => ⟨.runtime_error "Unable to evaluate a variable with the given name", closure, w⟩
    | some value => ⟨.value value, closure, w⟩

/-- The loop that evaluates the arguments of a call in order (`MethodCall::Execute`,
`NewInstance::Execute`); an exception ends it. -/
def execute_args (exec : Executor Statement) :
    List Statement → List ObjectHolder → Closure → Context → World Statement →
      Outcome (List ObjectHolder) × Closure × World Statement
  | [], args_holders, closure, _, w => (.value args_holders, closure, w)
  | arg :: args, args_holders, closure, context, w =>
    match exec arg closure context w with
    | ⟨.value arg_holder, closure1, w1⟩ =>
      execute_args exec args (args_holders ++ [arg_holder]) closure1 context w1
    | ⟨failure, closure1, w1⟩ => (failure.map fun _ => [], closure1, w1)

/-- Method `Print::PrintObj`: the text written to `os` and the memory left.  The method calls
itself for as long as the value is a `String` that is a key of `closure`; `budget` bounds the
number of these calls. -/
def PrintObj (exec : Executor Statement) :
    Nat → ObjectHolder → Closure → Context → World Statement →
      Outcome String × World Statement
  | 0, _, _, _, w => (.no_fuel, w)
  | budget + 1, obj, closure, context, w =>
    match obj with
    | .String rv_value =>
      match closure.find rv_value with
      | some value_obj => PrintObj exec budget value_obj closure context w
      | none => (.value rv_value, w)
    | .Number value => (.value (toString value), w)
    | .Bool value => (.value (if value then "True" else "False"), w)
    | .ClassInstance rv => ClassInstance.Print exec rv context w
    | _ => (.value "None", w)

/-- Method `Print::PrintArgument`: the argument is executed and `PrintObj` writes its value on
the output stream of `context`. -/
def PrintArgument (exec : Executor Statement) (budget : Nat) (arg : Option Statement)
    (closure : Closure) (context : Context) (w : World Statement) :
    Outcome Unit × Closure × World Statement :=
  match arg with
  | none => (.value (), closure, w)
  | some arg =>
    match exec arg closure context w with
    | ⟨.value arg_obj, closure1, w1⟩ =>
      match PrintObj exec budget arg_obj closure1 context w1 with
      | (.value text, w2) => (.value (), closure1, w2.write context text)
      | (failure, w2) => (failure.map fun _ => (), closure1, w2)
    | ⟨failure, closure1, w1⟩ => (failure.map fun _ => (), closure1, w1)

/-- Method `Print::PrintArgs`: the loop over `args_`. -/
def PrintArgs (exec : Executor Statement) (budget : Nat) :
    List Statement → Bool → Closure → Context → World Statement →
      Outcome Unit × Closure × World Statement
  | [], _, closure, _, w => (.value (), closure, w)
  | arg :: args, first_arg, closure, context, w =>
    let w0 := if first_arg then w else w.write context " "
    match PrintArgument exec budget (some arg) closure context w0 with
    | (.value _, closure1, w1) => PrintArgs exec budget args false closure1 context w1
    | failure => failure

/-- Method `Print::Execute`. -/
def Print.Execute (exec : Executor Statement) (budget : Nat) (argument_ : Option Statement)
    (args_ : List Statement) (closure : Closure) (context : Context) (w : World Statement) :
    ExecResult Statement :=
  if !args_.isEmpty then
    match PrintArgs exec budget args_ true closure context w with
    | (.value _, closure1, w1) => ⟨.value .None, closure1, w1.write context "\n"⟩
    | (failure, closure1, w1) => ⟨failure.map fun _ => .None, closure1, w1⟩
  else
    match PrintArgument exec budget argument_ closure context w with
    | (.value _, closure1, w1) => ⟨.value .None, closure1, w1.write context "\n"⟩
    | (failure, closure1, w1) => ⟨failure.map fun _ => .None, closure1, w1⟩

/-- Method `MethodCall::Execute`.  The handler `catch (...)` takes every exception of the
call. -/
def MethodCall.Execute (exec : Executor Statement) (object_ : Statement) (method_ : String)
    (args_ : List Statement) (closure : Closure) (context : Context) (w : World Statement) :
    ExecResult Statement :=
  match exec object_ closure context w with
  | ⟨.value inst_holder, closure1, w1⟩ =>
    match inst_holder with
    | .ClassInstance inst_ptr =>
      match execute_args exec args_ [] closure1 context w1 with
      | (.value args_holders, closure2, w2) =>
        match ClassInstance.Call exec inst_ptr method_ args_holders context w2 with
        | (.value result, w3) => ⟨.value result, closure2, w3⟩
        | (.runtime_error _, w3) => ⟨.value .None, closure2, w3⟩
        | (.return_except _, w3) => ⟨.value .None, closure2, w3⟩
        | (failure, w3) => ⟨failure, closure2, w3⟩
      | (failure, closure2, w2) => ⟨failure.map fun _ => .None, closure2, w2⟩
    | _ => ⟨.value .None, closure1, w1⟩
  | failure => failure

/-- Method `Stringify::ConverResultStrToObjectHolder`.  The method calls itself on the result of
`__str__` when that is a class instance; `budget` bounds the number of these calls.  The call of
`__str__` is made in a `DummyContext`, and `catch (...)` takes its exceptions. -/
def ConverResultStrToObjectHolder (exec : Executor Statement) :
    Nat → ObjectHolder → World Statement → Outcome ObjectHolder × World Statement
  | 0, _, w => (.no_fuel, w)
  | budget + 1, result_str, w =>
    match result_str with
    | .String value => (.value (.String value), w)
    | .Number value => (.value (.String (toString value)), w)
    | .Bool value => (.value (.String (if value then "True" else "False")), w)
    | .ClassInstance var =>
      match ClassInstance.Call exec var "__str__" [] .dummy w with
      | (.value result_of_str, w1) => ConverResultStrToObjectHolder exec budget result_of_str w1
      | (.runtime_error _, w1) => (.value (.String (address_text var)), w1)
      | (.return_except _, w1) => (.value (.String (address_text var)), w1)
      | failure => failure
    | _ => (.value (.String "None"), w)

/-- Method `Stringify::Execute`. -/
def Stringify.Execute (exec : Executor Statement) (budget : Nat) (arg_ : Statement)
    (closure : Closure) (context : Context) (w : World Statement) : ExecResult Statement :=
  match exec arg_ closure context w with
  | ⟨.value arg_obj, closure1, w1⟩ =>
    match arg_obj with
    | .String value => ⟨.value (.String value), closure1, w1⟩
    | .Number value => ⟨.value (.String (toString value)), closure1, w1⟩
    | .Bool value => ⟨.value (.String (if value then "True" else "False")), closure1, w1⟩
    | .ClassInstance var =>
      match ClassInstance.Call exec var "__str__" [] .dummy w1 with
      | (.value result_of_str, w2) =>
        let result := ConverResultStrToObjectHolder exec budget result_of_str w2
        ⟨result.1, closure1, result.2⟩
      | (.runtime_error _, w2) => ⟨.value (.String (address_text var)), closure1, w2⟩
      | (.return_except _, w2) => ⟨.value (.String (address_text var)), closure1, w2⟩
      | (failure, w2) => ⟨failure, closure1, w2⟩
    | _ => ⟨.value (.String "None"), closure1, w1⟩
  | failure => failure

/-- The enumeration `ValueType` (`statement.h`), with the values that `statement.cpp` names. -/
inductive ValueType where
  | String
  | Number
  | Bool
  | ClassInstance
  | None
  deriving DecidableEq, Repr

/-- Function `GetValueTypeOfObjHolder`. -/
def GetValueTypeOfObjHolder (holder : ObjectHolder) : ValueType :=
  match holder with
  | .String _ => .String
  | .Number _ => .Number
  | .Bool _ => .Bool
  | .ClassInstance _ => .ClassInstance
  | _ => .None

/-- Method `Add::Execute`.  A `TryAs` that gives a null pointer, which is then dereferenced,
is the outcome `undefined`; the test of the type before it rules that out. -/
def Add.Execute (exec : Executor Statement) (lhs_ rhs_ : Statement) (closure : Closure)
    (context : Context) (w : World Statement) : ExecResult Statement :=
  match exec lhs_ closure context w with
  | ⟨.value lhs_holder, closure1, w1⟩ =>
    match exec rhs_ closure1 context w1 with
    | ⟨.value rhs_holder, closure2, w2⟩ =>
      let lhs_type := GetValueTypeOfObjHolder lhs_holder
      let rhs_type := GetValueTypeOfObjHolder rhs_holder
      if lhs_type = .Number ∧ rhs_type = .Number then
        match lhs_holder, rhs_holder with
        | .Number lhs_value, .Number rhs_value =>
          ⟨.value (.Number (to_int (lhs_value + rhs_value))), closure2, w2⟩
        | _, _ => ⟨.undefined, closure2, w2⟩
      else if lhs_type = .String ∧ rhs_type = .String then
        match lhs_holder, rhs_holder with
        | .String lhs_value, .String rhs_value =>
          ⟨.value (.String (lhs_value ++ rhs_value)), closure2, w2⟩
        | _, _ => ⟨.undefined, closure2, w2⟩
      else if lhs_type = .ClassInstance then
        match lhs_holder with
        | .ClassInstance lhs_ptr =>
          match w2.instances[lhs_ptr]? with
          | none => ⟨.undefined, closure2, w2⟩
          | some this =>
            if this.HasMethod w2 "__add__" 1 then
              let result := ClassInstance.Call exec lhs_ptr "__add__" [rhs_holder] context w2
              ⟨result.1, closure2, result.2⟩
            else ⟨.runtime_error "lhs does not have method __add__", closure2, w2⟩
        | _ => ⟨.undefined, closure2, w2⟩
      else ⟨.runtime_error "Can't add arguments with given types", closure2, w2⟩
    | failure => failure
  | failure => failure

/-- Method `Sub::Execute`. -/
def Sub.Execute (exec : Executor Statement) (lhs_ rhs_ : Statement) (closure : Closure)
    (context : Context) (w : World Statement) : ExecResult Statement :=
  match exec lhs_ closure context w with
  | ⟨.value lhs_holder, closure1, w1⟩ =>
    match exec rhs_ closure1 context w1 with
    | ⟨.value rhs_holder, closure2, w2⟩ =>
      let lhs_type := GetValueTypeOfObjHolder lhs_holder
      let rhs_type := GetValueTypeOfObjHolder rhs_holder
      if lhs_type = .Number ∧ rhs_type = .Number then
        match lhs_holder, rhs_holder with
        | .Number lhs_value, .Number rhs_value =>
          ⟨.value (.Number (to_int (lhs_value - rhs_value))), closure2, w2⟩
        | _, _ => ⟨.undefined, closure2, w2⟩
      else ⟨.runtime_error "Can't sub given types", closure2, w2⟩
    | failure => failure
  | failure => failure

/-- Method `Mult::Execute`. -/
def Mult.Execute (exec : Executor Statement) (lhs_ rhs_ : Statement) (closure : Closure)
    (context : Context) (w : World Statement) : ExecResult Statement :=
  match exec lhs_ closure context w with
  | ⟨.value lhs_holder, closure1, w1⟩ =>
    match exec rhs_ closure1 context w1 with
    | ⟨.value rhs_holder, closure2, w2⟩ =>
      let lhs_type := GetValueTypeOfObjHolder lhs_holder
      let rhs_type := GetValueTypeOfObjHolder rhs_holder
      if lhs_type = .Number ∧ rhs_type = .Number then
        match lhs_holder, rhs_holder with
        | .Number lhs_value, .Number rhs_value =>
          ⟨.value (.Number (to_int (lhs_value * rhs_value))), closure2, w2⟩
        | _, _ => ⟨.undefined, closure2, w2⟩
      else ⟨.runtime_error "Can't multiply given types", closure2, w2⟩
    | failure => failure
  | failure => failure

/-- Method `Div::Execute`.  The operator `/` of `int` truncates toward zero.  The source guards
the divisor zero only: the quotient of the least `int` by -1 is no `int`, the division is
undefined there (the machine instruction traps), which is the outcome `undefined`. -/
def Div.Execute (exec : Executor Statement) (lhs_ rhs_ : Statement) (closure : Closure)
    (context : Context) (w : World Statement) : ExecResult Statement :=
  match exec lhs_ closure context w with
  | ⟨.value lhs_holder, closure1, w1⟩ =>
    match exec rhs_ closure1 context w1 with
    | ⟨.value rhs_holder, closure2, w2⟩ =>
      let lhs_type := GetValueTypeOfObjHolder lhs_holder
      let rhs_type := GetValueTypeOfObjHolder rhs_holder
      if lhs_type = .Number ∧ rhs_type = .Number then
        match lhs_holder, rhs_holder with
        | .Number lhs_value, .Number rhs_value =>
          if rhs_value = 0 then ⟨.runtime_error "Can't divide by 0", closure2, w2⟩
          else if lhs_value = -2147483648 ∧ rhs_value = -1 then ⟨.undefined, closure2, w2⟩
          else ⟨.value (.Number (to_int (Int.tdiv lhs_value rhs_value))), closure2, w2⟩
        | _, _ => ⟨.undefined, closure2, w2⟩
      else ⟨.runtime_error "Can't divide given types", closure2, w2⟩
    | failure => failure
  | failure => failure

/-- Method `Compound::Execute`. -/
def Compound.Execute (exec : Executor Statement) :
    List Statement → Closure → Context → World Statement → ExecResult Statement
  | [], closure, _, w => ⟨.value .None, closure, w⟩
  | command :: commands_, closure, context, w =>
    match exec command closure context w with
    | ⟨.value _, closure1, w1⟩ => Compound.Execute exec commands_ closure1 context w1
    | failure => failure

/-- Method `Return::Execute`. -/
def Return.Execute (exec : Executor Statement) (statement_ : Statement) (closure : Closure)
    (context : Context) (w : World Statement) : ExecResult Statement :=
  match exec statement_ closure context w with
  | ⟨.value info, closure1, w1⟩ => ⟨.return_except info, closure1, w1⟩
  | failure => failure

/-- Method `ClassDefinition::Execute`. -/
def ClassDefinition.Execute (cls_ : ObjectHolder) (closure : Closure) (w : World Statement) :
    ExecResult Statement :=
  match cls_ with
  | .Class cls_ptr =>
    match w.classes[cls_ptr]? with
    | none => ⟨.undefined, closure, w⟩
    | some cls => ⟨.value cls_, closure.insert cls.name_ cls_, w⟩
  | _ => ⟨.undefined, closure, w⟩

/-- Method `FieldAssignment::Execute`; `assign_var_` is the node `Assignment(field_name, rv)`
that the constructor builds. -/
def FieldAssignment.Execute (exec : Executor Statement) (object_ : VariableValue)
    (field_name : String) (rv : Statement) (closure : Closure) (context : Context)
    (w : World Statement) : ExecResult Statement :=
  match Assignment.Execute exec field_name rv closure context w with
  | ⟨.value rv, closure1, w1⟩ =>
    match object_.Execute closure1 w1 with
    | ⟨.value obj_holder, closure2, w2⟩ =>
      match obj_holder with
      | .ClassInstance instance_ =>
        if instance_ < w2.instances.length then
          ⟨.value rv, closure2, w2.set_field instance_ field_name rv⟩
        else ⟨.undefined, closure2, w2⟩
      | _ => ⟨.undefined, closure2, w2⟩
    | failure => failure
  | failure => failure

/-- Method `IfElse::Execute`. -/
def IfElse.Execute (exec : Executor Statement) (condition_ if_body_ : Statement)
    (else_body_ : Option Statement) (closure : Closure) (context : Context)
    (w : World Statement) : ExecResult Statement :=
  match exec condition_ closure context w with
  | ⟨.value condit_obj, closure1, w1⟩ =>
    if IsTrue condit_obj then exec if_body_ closure1 context w1
    else
      match else_body_ with
      | some else_body => exec else_body closure1 context w1
      | none => ⟨.value .None, closure1, w1⟩
  | failure => failure

/-- Method `Or::Execute`. -/
def Or.Execute (exec : Executor Statement) (lhs_ rhs_ : Statement) (closure : Closure)
    (context : Context) (w : World Statement) : ExecResult Statement :=
  match exec lhs_ closure context w with
  | ⟨.value lhs_holder, closure1, w1⟩ =>
    let lhs_result := IsTrue lhs_holder
    if !lhs_result then
      match exec rhs_ closure1 context w1 with
      | ⟨.value rhs_holder, closure2, w2⟩ =>
        let rhs_result := IsTrue rhs_holder
        ⟨.value (.Bool rhs_result), closure2, w2⟩
      | failure => failure
    else ⟨.value (.Bool lhs_result), closure1, w1⟩
  | failure => failure

/-- Method `And::Execute`. -/
def And.Execute (exec : Executor Statement) (lhs_ rhs_ : Statement) (closure : Closure)
    (context : Context) (w : World Statement) : ExecResult Statement :=
  match exec lhs_ closure context w with
  | ⟨.value lhs_holder, closure1, w1⟩ =>
    match exec rhs_ closure1 context w1 with
    | ⟨.value rhs_holder, closure2, w2⟩ =>
      let lhs_result := IsTrue lhs_holder
      let rhs_result := IsTrue rhs_holder
      ⟨.value (.Bool (lhs_result && rhs_result)), closure2, w2⟩
    | failure => failure
  | failure => failure

/-- Method `Not::Execute`. -/
def Not.Execute (exec : Executor Statement) (arg_ : Statement) (closure : Closure)
    (context : Context) (w : World Statement) : ExecResult Statement :=
  match exec arg_ closure context w with
  | ⟨.value arg_holder, closure1, w1⟩ => ⟨.value (.Bool (!IsTrue arg_holder)), closure1, w1⟩
  | failure => failure

/-- Method `Comparison::Execute`. -/
def Comparison.Execute (exec : Executor Statement) (cmp_ : Comparator) (lhs_ rhs_ : Statement)
    (closure : Closure) (context : Context) (w : World Statement) : ExecResult Statement :=
  match exec lhs_ closure context w with
  | ⟨.value lhs_holder, closure1, w1⟩ =>
    match exec rhs_ closure1 context w1 with
    | ⟨.value rhs_holder, closure2, w2⟩ =>
      let result := cmp_.call exec lhs_holder rhs_holder context w2
      ⟨result.1.map .Bool, closure2, result.2⟩
    | failure => failure
  | failure => failure

/-- Method `NewInstance::Execute`; the result of the call of `__init__` is dropped, an exception
of it goes up. -/
def NewInstance.Execute (exec : Executor Statement) (inst_ : Nat) (args_ : List Statement)
    (closure : Closure) (context : Context) (w : World Statement) : ExecResult Statement :=
  match w.instances[inst_]? with
  | none => ⟨.undefined, closure, w⟩
  | some this =>
    if this.HasMethod w "__init__" args_.length then
      match execute_args exec args_ [] closure context w with
      | (.value arg_holders, closure1, w1) =>
        match ClassInstance.Call exec inst_ "__init__" arg_holders context w1 with
        | (.value _, w2) => ⟨.value (.ClassInstance inst_), closure1, w2⟩
        | (failure, w2) => ⟨failure, closure1, w2⟩
      | (failure, closure1, w1) => ⟨failure.map fun _ => .None, closure1, w1⟩
    else ⟨.value (.ClassInstance inst_), closure, w⟩

/-- Method `MethodBody::Execute`. -/
def MethodBody.Execute (exec : Executor Statement) (body_ : Statement) (closure : Closure)
    (context : Context) (w : World Statement) : ExecResult Statement :=
  match exec body_ closure context w with
  | ⟨.value _, closure1, w1⟩ => ⟨.value .None, closure1, w1⟩
  | ⟨.return_except info, closure1, w1⟩ => ⟨.value info, closure1, w1⟩
  | failure => failure

/-- Modelled from the spec: the `Execute` of the nodes `NumericConst`, `StringConst` and
`BoolConst` (`statement.h`), which returns an owned holder of the literal. -/
def ValueStatement.Execute (value : ObjectHolder) (closure : Closure) (w : World Statement) :
    ExecResult Statement :=
  ⟨.value value, closure, w⟩

/-- Modelled from the spec: the `Execute` of the node `None` (`statement.h`), which returns the
empty holder. -/
def NoneConst.Execute (closure : Closure) (w : World Statement) : ExecResult Statement :=
  ⟨.value .None, closure, w⟩

/-- The virtual call `statement->Execute(closure, context)`: the `Execute` method of the class
of the node.  `fuel` bounds the depth of the calls of `Execute` inside one another; a call that
needs more ends with `no_fuel`. -/
def Execute : Nat → Executor Statement
  | 0, _, closure, _, w => ⟨.no_fuel, closure, w⟩
  | fuel + 1, statement, closure, context, w =>
    match statement with
    | .NumericConst value => ValueStatement.Execute (.Number value) closure w
    | .StringConst value => ValueStatement.Execute (.String value) closure w
    | .BoolConst value => ValueStatement.Execute (.Bool value) closure w
    | .None => NoneConst.Execute closure w
    | .VariableValue node => node.Execute closure w
    | .Assignment var_ rv_ => Assignment.Execute (Execute fuel) var_ rv_ closure context w
    | .FieldAssignment object_ field_name rv =>
      FieldAssignment.Execute (Execute fuel) object_ field_name rv closure context w
    | .Print argument_ args_ => Print.Execute (Execute fuel) fuel argument_ args_ closure context w
    | .MethodCall object_ method_ args_ =>
      MethodCall.Execute (Execute fuel) object_ method_ args_ closure context w
    | .NewInstance inst_ args_ => NewInstance.Execute (Execute fuel) inst_ args_ closure context w
    | .Stringify arg_ => Stringify.Execute (Execute fuel) fuel arg_ closure context w
    | .Add lhs_ rhs_ => Add.Execute (Execute fuel) lhs_ rhs_ closure context w
    | .Sub lhs_ rhs_ => Sub.Execute (Execute fuel) lhs_ rhs_ closure context w
    | .Mult lhs_ rhs_ => Mult.Execute (Execute fuel) lhs_ rhs_ closure context w
    | .Div lhs_ rhs_ => Div.Execute (Execute fuel) lhs_ rhs_ closure context w
    | .Or lhs_ rhs_ => Or.Execute (Execute fuel) lhs_ rhs_ closure context w
    | .And lhs_ rhs_ => And.Execute (Execute fuel) lhs_ rhs_ closure context w
    | .Not arg_ => Not.Execute (Execute fuel) arg_ closure context w
    | .Comparison cmp_ lhs_ rhs_ =>
      Comparison.Execute (Execute fuel) cmp_ lhs_ rhs_ closure context w
    | .Compound commands_ => Compound.Execute (Execute fuel) commands_ closure context w
    | .Return statement_ => Return.Execute (Execute fuel) statement_ closure context w
    | .MethodBody body_ => MethodBody.Execute (Execute fuel) body_ closure context w
    | .ClassDefinition cls_ => ClassDefinition.Execute cls_ closure w
    | .IfElse condition_ if_body_ else_body_ =>
      IfElse.Execute (Execute fuel) condition_ if_body_ else_body_ closure context w

end ast

/-! ## Predicates and sample data used in the statements -/

namespace parse

/-- Tokens that leave the indentation depth alone and do not end the stream. -/
def Token.neutral (t : Token) : Prop := t ≠ Token.Indent ∧ t ≠ Token.Dedent ∧ t ≠ Token.Eof

/-- The state invariant of the lexer object. -/
structure LexerInv (lx : Lexer) : Prop where
  nonneg : 0 ≤ lx.indents_
  pos : lx.pos_new_line_ = lx.indents_ * 2
  bal : (lx.tokens_set_.count Token.Indent : Int) - lx.tokens_set_.count Token.Dedent
          = lx.indents_
  nested : ∀ k, (lx.tokens_set_.take k).count Token.Dedent
          ≤ (lx.tokens_set_.take k).count Token.Indent
  noEof : Token.Eof ∉ lx.tokens_set_
  cursor : lx.curr_token_ = 0

/-- A result of `CreateToken` that, when it is a token vector, extends `ts` by neutral tokens. -/
def AppendsNeutral (ts : List Token) (r : Except LexFailure (List Token)) : Prop :=
  ∀ ts1, r = .ok ts1 → ∃ new, ts1 = ts ++ new ∧ ∀ t ∈ new, t.neutral

/-- A result that, when it is a lexer object, satisfies the invariant. -/
def KeepsInv (r : Except LexFailure Lexer) : Prop :=
  ∀ self1, r = .ok self1 → LexerInv self1

/-- A result of the reading loop that, when it is a state, satisfies the invariant. -/
def KeepsInvPair (r : Except LexFailure (List Char × Lexer)) : Prop :=
  ∀ b self1, r = .ok (b, self1) → LexerInv self1

/-- A character that is neither a quote nor a decimal digit.  The constructor returns on every
input made of such characters (`tokenize_plain`). -/
def plain_char (c : Char) : Prop := c ≠ '\'' ∧ c ≠ '"' ∧ is_digit_char c = false

/-- A result that is no failure. -/
def Succeeds {α : Type} (r : Except LexFailure α) : Prop := ∃ x, r = .ok x

/-- The characters that `ParseString` adds to a lexeme through its last branch: no space, no
quote, no arithmetic sign, none of `: ( ) , .`. -/
def ordinary_char (c : Char) : Prop :=
  c ≠ ' ' ∧ c ≠ '\'' ∧ c ≠ '"' ∧ is_math_symbol c = false ∧
    c ≠ ':' ∧ c ≠ '(' ∧ c ≠ ')' ∧ c ≠ ',' ∧ c ≠ '.'

/-- The number of backslashes at the head of the rest of the buffer. -/
def leading_backslashes : List Char → Nat
  | [] => 0
  | c :: cs => if c = '\\' then leading_backslashes cs + 1 else 0

/-- A bound on the number of iterations `ParseString` still makes on the rest of its
buffer, when the loop ends. -/
def iteration_rank (rest : List Char) : Nat :=
  rest.length * (rest.length + 1) + leading_backslashes rest

/-- The source of the indentation scenario of the specification. -/
def scenario_indentation : List Char :=
  "x = 1\nif x:\n  print \"a\"\nprint \"b\"\n".toList

/-- The keywords and operators that have a token of their own, as the specification lists
them. -/
def keyword_table : List (String × Token) :=
  [("class", Token.Class), ("def", Token.Def), ("True", Token.True), ("False", Token.False),
   ("None", Token.None), ("if", Token.If), ("else", Token.Else), ("and", Token.And),
   ("or", Token.Or), ("not", Token.Not), ("print", Token.Print), ("return", Token.Return),
   ("==", Token.Eq), ("!=", Token.NotEq), ("<=", Token.LessOrEq), (">=", Token.GreaterOrEq)]

/-- The token of a lexeme that is exactly a keyword or an operator. -/
def keyword_token (b : List Char) : Option Token :=
  (keyword_table.find? (fun p => p.1.toList = b)).map (fun p => p.2)

/-- The lexer object `self` behind the tokens `front`, at the depth `indents` with the line
start `pos`. -/
def behind (front : List Token) (indents pos : Int) (self : Lexer) : Lexer :=
  { self with tokens_set_ := front ++ self.tokens_set_, indents_ := indents,
              pos_new_line_ := pos }

end parse

namespace runtime

/-- The holder refers to a class instance. -/
def is_instance : ObjectHolder → Bool
  | .ClassInstance _ => true
  | _ => false

/-- Both holders are `String`s, or both are `Number`s, or both are `Bool`s. -/
def same_primitive : ObjectHolder → ObjectHolder → Bool
  | .String _, .String _ => true
  | .Number _, .Number _ => true
  | .Bool _, .Bool _ => true
  | _, _ => false

/-- The comparison ended with the value `true`. -/
def holds {Body : Type} (result : Outcome Bool × World Body) : Prop :=
  result.1 = .value true

/-- On the pair `a`, `b`, whose payloads compare as `lt` (less), `eq` (equal) and `gt` (greater)
say, all six comparators return, leave the memory as it is, and agree with that order; and
exactly one of `Less`, `Equal`, `Greater` holds. -/
def AgreeWithOrder {Body : Type} (exec : Executor Body) (context : Context) (w : World Body)
    (a b : ObjectHolder) (lt eq gt : Prop) [Decidable lt] [Decidable eq] [Decidable gt] : Prop :=
  Less exec a b context w = (.value (decide lt), w) ∧
  Equal exec a b context w = (.value (decide eq), w) ∧
  NotEqual exec a b context w = (.value (decide (¬ eq)), w) ∧
  Greater exec a b context w = (.value (decide gt), w) ∧
  LessOrEqual exec a b context w = (.value (decide (lt ∨ eq)), w) ∧
  GreaterOrEqual exec a b context w = (.value (decide (¬ lt)), w) ∧
  ((holds (Less exec a b context w) ∧ ¬ holds (Equal exec a b context w) ∧
      ¬ holds (Greater exec a b context w)) ∨
    (¬ holds (Less exec a b context w) ∧ holds (Equal exec a b context w) ∧
      ¬ holds (Greater exec a b context w)) ∨
    (¬ holds (Less exec a b context w) ∧ ¬ holds (Equal exec a b context w) ∧
      holds (Greater exec a b context w)))

end runtime

namespace ast

open runtime

/-- Sample class `V`: `__add__(other)` returns `self.x + other.x`, `__eq__(other)` returns
`True`, `__lt__(other)` returns `self.x < other.x`, and `pair(a, a)` returns `a`. -/
def sample_V : Class Statement :=
  .mk "V"
    [⟨"__add__", ["other"],
        .MethodBody (.Return (.Add (.VariableValue ⟨"", ["self", "x"]⟩)
          (.VariableValue ⟨"", ["other", "x"]⟩)))⟩,
      ⟨"__eq__", ["other"], .MethodBody (.Return (.BoolConst true))⟩,
      ⟨"__lt__", ["other"],
        .MethodBody (.Return (.Comparison .Less (.VariableValue ⟨"", ["self", "x"]⟩)
          (.VariableValue ⟨"", ["other", "x"]⟩)))⟩,
      ⟨"pair", ["a", "a"], .MethodBody (.Return (.VariableValue ⟨"a", []⟩))⟩]
    none

/-- Sample class `E`, which declares no method. -/
def sample_E : Class Statement :=
  .mk "E" [] none

/-- Sample memory: the classes `V` and `E`; two instances of `V` with the field `x` set to 2 and
to 3, and one instance of `E`. -/
def sample_world : World Statement :=
  ⟨[sample_V, sample_E],
    [⟨0, [("x", .Number 2)]⟩, ⟨0, [("x", .Number 3)]⟩, ⟨1, []⟩], ""⟩

/-- Sample closure: `a`, `b` and `e` name the three instances of the sample memory. -/
def sample_closure : Closure :=
  [("a", .ClassInstance 0), ("b", .ClassInstance 1), ("e", .ClassInstance 2)]

/-- The statements of the list are executed one after the other, each one in the closure and the
memory that the one before it left, and each returns a value: `values` are these values, in
order, and `closure1`, `w1` are what the last one leaves. -/
inductive EvaluatesTo (exec : Executor Statement) (context : Context) :
    List Statement → Closure → World Statement → List ObjectHolder → Closure →
      World Statement → Prop
  | nil (closure : Closure) (w : World Statement) : EvaluatesTo exec context [] closure w [] closure w
  | cons (statement : Statement) (statements : List Statement) (value : ObjectHolder)
      (values : List ObjectHolder) (closure closure1 closure2 : Closure)
      (w w1 w2 : World Statement)
      (head : exec statement closure context w = ⟨.value value, closure1, w1⟩)
      (tail : EvaluatesTo exec context statements closure1 w1 values closure2 w2) :
      EvaluatesTo exec context (statement :: statements) closure w (value :: values) closure2 w2

/-- The execution of the statement, with at most `fuel` calls of `Execute` inside one another,
reaches a `Return` node that lies in it under `Compound` and `IfElse` nodes only: the statements
before it in each enclosing `Compound` return a value, the condition of each enclosing `IfElse`
selects the branch it lies in, and the expression of the `Return` gives the value `info` and
leaves `closure1` and `w1`. -/
inductive Unwinds (context : Context) :
    Nat → Statement → Closure → World Statement → ObjectHolder → Closure → World Statement →
      Prop
  | ret (fuel : Nat) (statement_ : Statement) (info : ObjectHolder) (closure closure1 : Closure)
      (w w1 : World Statement)
      (value : Execute fuel statement_ closure context w = ⟨.value info, closure1, w1⟩) :
      Unwinds context (fuel + 1) (.Return statement_) closure w info closure1 w1
  | compound (fuel : Nat) (before : List Statement) (command : Statement)
      (after : List Statement) (values : List ObjectHolder) (info : ObjectHolder)
      (closure closure1 closure2 : Closure) (w w1 w2 : World Statement)
      (run : EvaluatesTo (Execute fuel) context before closure w values closure1 w1)
      (inner : Unwinds context fuel command closure1 w1 info closure2 w2) :
      Unwinds context (fuel + 1) (.Compound (before ++ command :: after)) closure w info
        closure2 w2
  | if_body (fuel : Nat) (condition_ if_body_ : Statement) (else_body_ : Option Statement)
      (condit_obj info : ObjectHolder) (closure closure1 closure2 : Closure)
      (w w1 w2 : World Statement)
      (condition : Execute fuel condition_ closure context w = ⟨.value condit_obj, closure1, w1⟩)
      (truthy : IsTrue condit_obj = true)
      (inner : Unwinds context fuel if_body_ closure1 w1 info closure2 w2) :
      Unwinds context (fuel + 1) (.IfElse condition_ if_body_ else_body_) closure w info
        closure2 w2
  | else_body (fuel : Nat) (condition_ if_body_ else_body : Statement)
      (condit_obj info : ObjectHolder) (closure closure1 closure2 : Closure)
      (w w1 w2 : World Statement)
      (condition : Execute fuel condition_ closure context w = ⟨.value condit_obj, closure1, w1⟩)
      (falsy : IsTrue condit_obj = false)
      (inner : Unwinds context fuel else_body closure1 w1 info closure2 w2) :
      Unwinds context (fuel + 1) (.IfElse condition_ if_body_ (some else_body)) closure w info
        closure2 w2

/-- Sample class `P`: `__str__()` returns `True`, `boom()` divides by zero, `get(v)` returns
`v`, and `__init__(v)` sets the field `x` to `v`. -/
def sample_P : Class Statement :=
  .mk "P"
    [⟨"__str__", [], .MethodBody (.Return (.BoolConst true))⟩,
      ⟨"boom", [], .MethodBody (.Return (.Div (.NumericConst 1) (.NumericConst 0)))⟩,
      ⟨"get", ["v"], .MethodBody (.Return (.VariableValue ⟨"v", []⟩))⟩,
      ⟨"__init__", ["v"],
        .MethodBody (.FieldAssignment ⟨"", ["self"]⟩ "x" (.VariableValue ⟨"v", []⟩))⟩]
    none

/-- Sample class `S`, whose `__str__()` returns the `String` `text`. -/
def sample_S : Class Statement :=
  .mk "S" [⟨"__str__", [], .MethodBody (.Return (.StringConst "text"))⟩] none

/-- Sample class `N`, whose `__str__()` returns the `Number` -42. -/
def sample_N : Class Statement :=
  .mk "N" [⟨"__str__", [], .MethodBody (.Return (.NumericConst (-42)))⟩] none

/-- Sample memory: the classes `P`, `S` and `N` with one instance of each, without fields. -/
def sample_memory : World Statement :=
  ⟨[sample_P, sample_S, sample_N], [⟨0, []⟩, ⟨1, []⟩, ⟨2, []⟩], ""⟩

/-- The printed form of a value: decimal for a `Number`, `True` or `False` for a `Bool`, the raw
text for a `String`, and `None` for the empty holder. -/
def printed_form : ObjectHolder → String
  | .Number value => toString value
  | .Bool value => if value then "True" else "False"
  | .String value => value
  | _ => "None"

/-- The value is a `Number`, a `Bool`, the empty holder, or a `String` that is not a key of the
closure. -/
def plain_value (closure : Closure) : ObjectHolder → Bool
  | .Number _ => true
  | .Bool _ => true
  | .None => true
  | .String value => (closure.find value).isNone
  | _ => false

/-- The evaluation of the argument from the closure and the memory `w`, whatever the output
stream holds, returns `value` and leaves the closure, the memory and the stream as they are: the
argument itself writes nothing. -/
def Quiet (exec : Executor Statement) (context : Context) (closure : Closure)
    (w : World Statement) (arg : Statement) (value : ObjectHolder) : Prop :=
  ∀ text : String, exec arg closure context { w with output := text } =
    ⟨.value value, closure, { w with output := text }⟩

/-- The texts, each one with one space before it. -/
def space_before : List String → String
  | [] => ""
  | text :: texts => " " ++ text ++ space_before texts

/-- The texts in order, separated by exactly one space. -/
def spaced : List String → String
  | [] => ""
  | text :: texts => text ++ space_before texts

/-- The name that a `VariableValue` node looks up in the closure: the first of its dotted ids,
or its single name. -/
def VariableValue.first_name (self : VariableValue) : String :=
  match self.dotted_ids_ with
  | id :: _ => id
  | [] => self.var_name_

/-- Some id of the path that is looked up is missing: the first id is not bound in the closure,
or it is bound to a class instance and, in the fields of that instance, some id of the rest of
the path that is looked up is missing. -/
inductive LooksUpMissing (w : World Statement) : Closure → List String → Prop
  | here (closure : Closure) (id : String) (ids : List String)
      (missing : closure.find id = none) : LooksUpMissing w closure (id :: ids)
  | deeper (closure : Closure) (id next : String) (ids : List String) (inst : Nat)
      (this : ClassInstance) (bound : closure.find id = some (.ClassInstance inst))
      (valid : w.instances[inst]? = some this)
      (missing : LooksUpMissing w this.fields_ (next :: ids)) :
      LooksUpMissing w closure (id :: next :: ids)

/-- Sample class `F`, whose method `make(v)` is `return P(v)`: its body holds one `NewInstance`
node, whose instance is the first one of the memory. -/
def sample_F : Class Statement :=
  .mk "F"
    [⟨"make", ["v"], .MethodBody (.Return (.NewInstance 0 [.VariableValue ⟨"v", []⟩]))⟩]
    none

/-- Sample memory of a factory: the classes `P` and `F`; the instance of `P` that the
`NewInstance` node of `make` owns, without fields, and one instance of `F`. -/
def sample_factory : World Statement :=
  ⟨[sample_P, sample_F], [⟨0, []⟩, ⟨1, []⟩], ""⟩

/-- Sample program `a = f.make(7)`, `a.y = 1`, `b = f.make(8)`, which executes the `NewInstance`
node of `make` twice. -/
def sample_twice : Statement :=
  .Compound
    [.Assignment "a" (.MethodCall (.VariableValue ⟨"f", []⟩) "make" [.NumericConst 7]),
      .FieldAssignment ⟨"", ["a"]⟩ "y" (.NumericConst 1),
      .Assignment "b" (.MethodCall (.VariableValue ⟨"f", []⟩) "make" [.NumericConst 8])]

end ast

/-! ## Theorems -/

namespace parse

theorem count_take_neutral (x : Token) (hx : x = Token.Indent ∨ x = Token.Dedent ∨ x = Token.Eof)
    (ts : List Token) (hts : ∀ t ∈ ts, t.neutral) (j : Nat) : (ts.take j).count x = 0 := by
  rw [List.count_eq_zero]
  intro hmem
  have h1 := hts x (List.mem_of_mem_take hmem)
  rcases hx with rfl | rfl | rfl
  · exact h1.1 rfl
  · exact h1.2.1 rfl
  · exact h1.2.2 rfl

theorem count_neutral (x : Token) (hx : x = Token.Indent ∨ x = Token.Dedent ∨ x = Token.Eof)
    (ts : List Token) (hts : ∀ t ∈ ts, t.neutral) : ts.count x = 0 := by
  have := count_take_neutral x hx ts hts ts.length
  simpa using this

theorem Inv_init : LexerInv {} := by
  constructor <;> simp

theorem Inv_append_neutral {self : Lexer} (h : LexerInv self) (ts : List Token)
    (hts : ∀ t ∈ ts, t.neutral) : LexerInv { self with tokens_set_ := self.tokens_set_ ++ ts } := by
  obtain ⟨h1, h2, h3, h4, h5, h6⟩ := h
  refine ⟨h1, h2, ?_, ?_, ?_, h6⟩
  · simp only [List.count_append]
    rw [count_neutral _ (Or.inl rfl) ts hts, count_neutral _ (Or.inr (Or.inl rfl)) ts hts]
    simpa using h3
  · intro k
    simp only [List.take_append_eq_append_take, List.count_append]
    rw [count_take_neutral _ (Or.inl rfl) ts hts, count_take_neutral _ (Or.inr (Or.inl rfl)) ts hts]
    simpa using h4 k
  · simp only [List.mem_append, not_or]
    exact ⟨h5, fun hm => (hts _ hm).2.2 rfl⟩

theorem Inv_push_neutral {self : Lexer} (h : LexerInv self) (t : Token) (ht : t.neutral) :
    LexerInv (push_back self t) :=
  Inv_append_neutral h [t] (by simpa using ht)

theorem Inv_indent_step {self : Lexer} (h : LexerInv self) :
    LexerInv (UpdatePosNewLine { push_back self Token.Indent with indents_ := self.indents_ + 1 }) := by
  obtain ⟨h1, h2, h3, h4, h5, h6⟩ := h
  refine ⟨?_, ?_, ?_, ?_, ?_, h6⟩
  · simp [UpdatePosNewLine, push_back]; omega
  · simp [UpdatePosNewLine, push_back]
  · simp [UpdatePosNewLine, push_back, List.count_append]; omega
  · intro k
    simp only [UpdatePosNewLine, push_back, List.take_append_eq_append_take, List.count_append]
    have : ((List.take (k - self.tokens_set_.length) [Token.Indent]).count Token.Dedent) = 0 := by
      rw [List.count_eq_zero]; intro hm
      have := List.mem_of_mem_take hm
      simp at this
    have := h4 k
    omega
  · simp [UpdatePosNewLine, push_back, h5]

theorem Inv_dedent_step {self : Lexer} (h : LexerInv self) (hpos : 0 < self.indents_) :
    LexerInv (UpdatePosNewLine { push_back self Token.Dedent with indents_ := self.indents_ - 1 }) := by
  obtain ⟨h1, h2, h3, h4, h5, h6⟩ := h
  refine ⟨?_, ?_, ?_, ?_, ?_, h6⟩
  · simp [UpdatePosNewLine, push_back]; omega
  · simp [UpdatePosNewLine, push_back]
  · simp [UpdatePosNewLine, push_back, List.count_append]; omega
  · intro k
    simp only [UpdatePosNewLine, push_back, List.take_append_eq_append_take, List.count_append]
    have h0 : ((List.take (k - self.tokens_set_.length) [Token.Dedent]).count Token.Indent) = 0 := by
      rw [List.count_eq_zero]; intro hm
      have := List.mem_of_mem_take hm
      simp at this
    have hk := h4 k
    by_cases hle : k ≤ self.tokens_set_.length
    · have : k - self.tokens_set_.length = 0 := by omega
      simpa [this] using hk
    · have hfull : List.take k self.tokens_set_ = self.tokens_set_ := List.take_of_length_le (by omega)
      have h1le : (List.take (k - self.tokens_set_.length) [Token.Dedent]).count Token.Dedent ≤ 1 := by
        calc _ ≤ (List.take (k - self.tokens_set_.length) [Token.Dedent]).length := List.count_le_length _ _
          _ ≤ 1 := by simp [List.length_take]
      rw [hfull, h0]
      omega
  · simp [UpdatePosNewLine, push_back, h5]

theorem indent_loop_inv (position : Int) : ∀ (fuel : Nat) (self : Lexer), LexerInv self →
    LexerInv (indent_loop fuel position self)
  | 0, self, h => by simpa [indent_loop] using h
  | fuel + 1, self, h => by
    unfold indent_loop
    split
    · exact indent_loop_inv position fuel _ (Inv_indent_step h)
    · exact h

theorem dedent_loop_inv (position : Int) (hp : 0 ≤ position) : ∀ (fuel : Nat) (self : Lexer),
    LexerInv self → LexerInv (dedent_loop fuel position self)
  | 0, self, h => by simpa [dedent_loop] using h
  | fuel + 1, self, h => by
    unfold dedent_loop
    split
    · rename_i hg
      have := h.pos
      exact dedent_loop_inv position hp fuel _ (Inv_dedent_step h (by omega))
    · exact h

/-- What the indentation loop does from a state with `pos_new_line_ = 2 * indents_`, with a
budget that covers the distance to `position`: it appends `n` tokens `Indent`, stops because its
condition fails, and the last iteration, if any, was needed. -/
theorem indent_loop_spec (position : Int) : ∀ (fuel : Nat) (self : Lexer),
    self.pos_new_line_ = self.indents_ * 2 → position - 2 * self.indents_ < 2 * fuel →
    ∃ n : Nat, (indent_loop fuel position self).tokens_set_
        = self.tokens_set_ ++ List.replicate n Token.Indent ∧
      (indent_loop fuel position self).indents_ = self.indents_ + n ∧
      (indent_loop fuel position self).pos_new_line_ = (self.indents_ + n) * 2 ∧
      position ≤ 2 * (self.indents_ + n) ∧ (n = 0 ∨ 2 * (self.indents_ + n - 1) < position)
  | 0, self, hpos, hf =>
    ⟨0, by simp [indent_loop], by simp [indent_loop], by simp [indent_loop, hpos], by omega,
      Or.inl rfl⟩
  | fuel + 1, self, hpos, hf => by
    unfold indent_loop
    split
    · rename_i hg
      obtain ⟨n, h1, h2, h3, h4, h5⟩ := indent_loop_spec position fuel
        (UpdatePosNewLine { push_back self Token.Indent with indents_ := self.indents_ + 1 }) rfl
        (by simp [UpdatePosNewLine, push_back]; omega)
      refine ⟨n + 1, ?_, ?_, ?_, ?_, ?_⟩
      · rw [h1]; simp [UpdatePosNewLine, push_back, List.replicate_succ]
      · rw [h2]; simp [UpdatePosNewLine, push_back]; omega
      · rw [h3]; simp [UpdatePosNewLine, push_back]; omega
      · simp [UpdatePosNewLine, push_back] at h4; push_cast; omega
      · right
        simp [UpdatePosNewLine, push_back] at h5
        rcases h5 with rfl | h5
        · push_cast; omega
        · push_cast; omega
    · rename_i hg
      exact ⟨0, by simp, by simp, by simp [hpos], by omega, Or.inl rfl⟩

/-- What the dedentation loop does from a state with `pos_new_line_ = 2 * indents_`. -/
theorem dedent_loop_spec (position : Int) : ∀ (fuel : Nat) (self : Lexer),
    self.pos_new_line_ = self.indents_ * 2 → 2 * self.indents_ - position < 2 * fuel →
    ∃ n : Nat, (dedent_loop fuel position self).tokens_set_
        = self.tokens_set_ ++ List.replicate n Token.Dedent ∧
      (dedent_loop fuel position self).indents_ = self.indents_ - n ∧
      (dedent_loop fuel position self).pos_new_line_ = (self.indents_ - n) * 2 ∧
      2 * (self.indents_ - n) ≤ position ∧ (n = 0 ∨ position < 2 * (self.indents_ - n + 1))
  | 0, self, hpos, hf =>
    ⟨0, by simp [dedent_loop], by simp [dedent_loop], by simp [dedent_loop, hpos], by omega,
      Or.inl rfl⟩
  | fuel + 1, self, hpos, hf => by
    unfold dedent_loop
    split
    · rename_i hg
      obtain ⟨n, h1, h2, h3, h4, h5⟩ := dedent_loop_spec position fuel
        (UpdatePosNewLine { push_back self Token.Dedent with indents_ := self.indents_ - 1 }) rfl
        (by simp [UpdatePosNewLine, push_back]; omega)
      refine ⟨n + 1, ?_, ?_, ?_, ?_, ?_⟩
      · rw [h1]; simp [UpdatePosNewLine, push_back, List.replicate_succ]
      · rw [h2]; simp [UpdatePosNewLine, push_back]; omega
      · rw [h3]; simp [UpdatePosNewLine, push_back]; omega
      · simp [UpdatePosNewLine, push_back] at h4; push_cast; omega
      · right
        simp [UpdatePosNewLine, push_back] at h5
        rcases h5 with rfl | h5
        · push_cast; omega
        · push_cast; omega
    · rename_i hg
      exact ⟨0, by simp, by simp, by simp [hpos], by omega, Or.inl rfl⟩

theorem AppendsNeutral_ite {ts : List Token} {c : Prop} [Decidable c]
    {a b : Except LexFailure (List Token)} (ha : AppendsNeutral ts a) (hb : AppendsNeutral ts b) :
    AppendsNeutral ts (if c then a else b) := by
  split <;> assumption

theorem AppendsNeutral_ok {ts new : List Token} (h : ∀ t ∈ new, t.neutral) :
    AppendsNeutral ts (.ok (ts ++ new)) := by
  intro ts1 h1
  injection h1 with h1
  exact ⟨new, h1.symm, h⟩

theorem AppendsNeutral_one {ts : List Token} {t : Token} (h : t.neutral) :
    AppendsNeutral ts (.ok (ts ++ [t])) :=
  AppendsNeutral_ok (by simpa using h)

theorem CreateToken_append (buffer : List Char) (ts ts1 : List Token)
    (h : CreateToken buffer ts = .ok ts1) :
    ∃ new, ts1 = ts ++ new ∧ ∀ t ∈ new, t.neutral := by
  have key : AppendsNeutral ts (CreateToken buffer ts) := by
    unfold CreateToken
    refine AppendsNeutral_ite (by simpa using @AppendsNeutral_ok ts [] (by simp)) ?_
    iterate 16 refine AppendsNeutral_ite (AppendsNeutral_one ⟨by decide, by decide, by decide⟩) ?_
    refine AppendsNeutral_ite (AppendsNeutral_one (by simp [Token.neutral])) ?_
    refine AppendsNeutral_ite ?_ (AppendsNeutral_ite (AppendsNeutral_ite ?_ ?_) ?_)
    · intro ts1 h1
      split at h1
      · injection h1 with h1
        exact ⟨_, h1.symm, by simp [Token.neutral]⟩
      · cases h1
    · exact AppendsNeutral_one (by simp [Token.neutral])
    · intro ts1 h1; cases h1
    · exact AppendsNeutral_ok (by simp [Token.neutral])
  exact key ts1 h

theorem CreateTokenOn_inv {substr : List Char} {self self1 : Lexer} (h : LexerInv self)
    (hc : CreateTokenOn substr self = .ok self1) : LexerInv self1 := by
  unfold CreateTokenOn at hc
  split at hc
  · rename_i tokens htok
    injection hc with hc; subst hc
    obtain ⟨new, rfl, hnew⟩ := CreateToken_append _ _ _ htok
    exact Inv_append_neutral h new hnew
  · cases hc

theorem KeepsInv_ok {self : Lexer} (h : LexerInv self) : KeepsInv (.ok self) := by
  intro s hs; injection hs with hs; subst hs; exact h

theorem KeepsInv_error {e : LexFailure} : KeepsInv (.error e) := by
  intro s hs; cases hs

theorem KeepsInv_CreateTokenOn {substr : List Char} {self : Lexer} (h : LexerInv self) :
    KeepsInv (CreateTokenOn substr self) :=
  fun _ hc => CreateTokenOn_inv h hc

theorem KeepsInv_bind {r : Except LexFailure Lexer} {f : Lexer → Except LexFailure Lexer}
    (hr : KeepsInv r) (hf : ∀ s, LexerInv s → KeepsInv (f s)) :
    KeepsInv (match r with | .ok s => f s | .error e => .error e) := by
  cases r with
  | ok s => exact hf s (hr s rfl)
  | error e => exact KeepsInv_error

theorem neutral_Char (ch : Char) : (Token.Char ch).neutral := by simp [Token.neutral]

theorem ParseString_loop_inv : ∀ (fuel : Nat) (rest : List Char) (loc : ParseLocals) (self : Lexer),
    LexerInv self → -1 ≤ loc.position → KeepsInv (ParseString_loop fuel rest loc self)
  | 0, _, _, _, _, _ => by unfold ParseString_loop; exact KeepsInv_error
  | _ + 1, [], loc, self, h, _ => by
    unfold ParseString_loop
    split
    · exact KeepsInv_CreateTokenOn h
    · exact KeepsInv_ok h
  | fuel + 1, ch :: rest, loc, self, h, hp => by
    have ih := ParseString_loop_inv fuel
    have hp1 : -1 ≤ loc.position + 1 := by omega
    unfold ParseString_loop
    simp only []
    split_ifs
    all_goals first
      | exact ih _ _ _ h hp1
      | exact ih _ _ _ (Inv_push_neutral h _ (neutral_Char ch)) hp1
      | exact ih _ _ _ (indent_loop_inv _ _ _ h) hp1
      | exact ih _ _ _ (dedent_loop_inv (loc.position + 1) (by omega) _ _ h) hp1
      | (split
         · rename_i s hs
           first
             | exact ih _ _ _ (CreateTokenOn_inv h hs) hp1
             | exact ih _ _ _ (Inv_push_neutral (CreateTokenOn_inv h hs) _ (neutral_Char ch)) hp1
         · exact KeepsInv_error)

theorem ParseString_inv {buffer : List Char} {self self1 : Lexer} (h : LexerInv self)
    (hp : ParseString buffer self = .ok self1) : LexerInv self1 :=
  ParseString_loop_inv _ buffer {} self h (by decide) self1 hp

theorem KeepsInvPair_ok {b : List Char} {self : Lexer} (h : LexerInv self) :
    KeepsInvPair (.ok (b, self)) := by
  intro b1 s hs; injection hs with hs; injection hs with _ hs; subst hs; exact h

theorem KeepsInvPair_error {e : LexFailure} : KeepsInvPair (.error e) := by
  intro b s hs; cases hs

theorem neutral_Newline : Token.Newline.neutral := ⟨by decide, by decide, by decide⟩

theorem read_loop_inv : ∀ (input : List Char) (loc : CtorLocals) (self : Lexer), LexerInv self →
    KeepsInvPair (read_loop input loc self) ∧ KeepsInvPair (skip_comment input loc self)
  | [], loc, self, h => by
    constructor
    · unfold read_loop
      split
      · exact KeepsInvPair_ok h
      · split
        · rename_i s hs; exact KeepsInvPair_ok (ParseString_inv h hs)
        · exact KeepsInvPair_error
    · unfold skip_comment
      exact KeepsInvPair_ok h
  | s :: rest, loc, self, h => by
    have ih := read_loop_inv rest
    constructor
    · unfold read_loop
      split_ifs
      all_goals first
        | exact (ih _ _ h).1
        | exact (ih _ _ h).2
        | (split
           · exact KeepsInvPair_ok h
           · rename_i next_s rest1
             have ih1 := read_loop_inv rest1
             exact (ih1 _ _ h).1)
        | (split
           · rename_i s1 hs
             first
               | exact (ih _ _ (Inv_push_neutral (ParseString_inv h hs) _ neutral_Newline)).1
               | exact (ih _ _ (Inv_push_neutral (ParseString_inv h hs) _ neutral_Newline)).2
           · exact KeepsInvPair_error)
    · unfold skip_comment
      split
      · exact (ih _ _ h).1
      · exact (ih _ _ h).2

theorem finish_shape {buffer : List Char} {self self1 : Lexer} (h : LexerInv self)
    (hf : finish buffer self = .ok self1) :
    self1.indents_ = 0 ∧ self1.pos_new_line_ = 0 ∧ self1.curr_token_ = 0 ∧
    ∃ (body : List Token) (k : Nat), self1.tokens_set_ = body ++ List.replicate k Token.Dedent ++ [Token.Eof] ∧
      Token.Eof ∉ body ∧
      (body = [] ∨ ∃ pre, body = pre ++ [Token.Newline]) ∧
      (k : Int) = body.count Token.Indent - body.count Token.Dedent ∧
      (∀ j, (body.take j).count Token.Dedent ≤ (body.take j).count Token.Indent) := by
  unfold finish at hf
  split at hf
  · cases hf
  · rename_i s1 hs1
    have hI1 : LexerInv s1 := by
      split at hs1
      · exact ParseString_inv h hs1
      · injection hs1 with hs1; subst hs1; exact h
    simp only at hf
    injection hf with hf
    subst hf
    -- the state before the closing `Dedent` loop
    generalize hs2 : (if s1.tokens_set_ ≠ [] ∧ s1.tokens_set_.getLast? ≠ some Token.Newline then
        push_back s1 Token.Newline else s1) = s2
    have hI2 : LexerInv s2 := by
      subst hs2
      split
      · exact Inv_push_neutral hI1 _ neutral_Newline
      · exact hI1
    have hend : s2.tokens_set_ = [] ∨ ∃ pre, s2.tokens_set_ = pre ++ [Token.Newline] := by
      subst hs2
      split
      · exact Or.inr ⟨_, rfl⟩
      · rename_i hc
        by_cases he : s1.tokens_set_ = []
        · exact Or.inl he
        · right
          have hl : s1.tokens_set_.getLast? = some Token.Newline := by
            by_contra hne; exact hc ⟨he, hne⟩
          obtain ⟨pre, hpre⟩ := List.getLast?_eq_some_iff.mp hl
          exact ⟨pre, hpre⟩
    obtain ⟨n, h1, h2, _, h3, h4⟩ := dedent_loop_spec 0 (s2.indents_.toNat + 1) s2 hI2.pos
      (by have := hI2.nonneg; omega)
    have hI3 := dedent_loop_inv 0 (le_refl 0) (s2.indents_.toNat + 1) s2 hI2
    have hn : (n : Int) = s2.indents_ := by
      have := hI3.nonneg
      rw [h2] at this
      omega
    refine ⟨?_, ?_, ?_, s2.tokens_set_, n, ?_, hI2.noEof, hend, ?_, hI2.nested⟩
    · simp [push_back, h2, hn]
    · simp [push_back, hI3.pos, h2, hn]
    · simpa [push_back] using hI3.cursor
    · simp [push_back, h1]
    · rw [hn]; exact hI2.bal.symm

theorem count_take_replicate_le (k j : Nat) :
    ((List.replicate k Token.Dedent ++ [Token.Eof]).take j).count Token.Dedent ≤ k := by
  calc ((List.replicate k Token.Dedent ++ [Token.Eof]).take j).count Token.Dedent
      ≤ (List.replicate k Token.Dedent ++ [Token.Eof]).count Token.Dedent :=
        (List.take_sublist _ _).count_le _
    _ = k := by simp [List.count_append, List.count_replicate]

theorem shape_nested (body : List Token) (k : Nat)
    (hk : (k : Int) = body.count Token.Indent - body.count Token.Dedent)
    (hn : ∀ j, (body.take j).count Token.Dedent ≤ (body.take j).count Token.Indent) (j : Nat) :
    ((body ++ List.replicate k Token.Dedent ++ [Token.Eof]).take j).count Token.Dedent
      ≤ ((body ++ List.replicate k Token.Dedent ++ [Token.Eof]).take j).count Token.Indent := by
  rw [List.append_assoc, List.take_append_eq_append_take, List.count_append, List.count_append]
  by_cases hle : j ≤ body.length
  · have : j - body.length = 0 := by omega
    simpa [this] using hn j
  · have hfull : List.take j body = body := List.take_of_length_le (by omega)
    have := count_take_replicate_le k (j - body.length)
    rw [hfull]
    omega

theorem shape_balance (body : List Token) (k : Nat)
    (hk : (k : Int) = body.count Token.Indent - body.count Token.Dedent) :
    (body ++ List.replicate k Token.Dedent ++ [Token.Eof]).count Token.Indent
      = (body ++ List.replicate k Token.Dedent ++ [Token.Eof]).count Token.Dedent := by
  simp [List.count_append, List.count_replicate]
  omega

theorem Succeeds_ite {α : Type} {c : Prop} [Decidable c] {a b : Except LexFailure α}
    (ha : Succeeds a) (hb : ¬ c → Succeeds b) : Succeeds (if c then a else b) := by
  split
  · exact ha
  · rename_i h; exact hb h

theorem CreateToken_plain (buffer : List Char) (ts : List Token)
    (h : ∀ c ∈ buffer, plain_char c) : Succeeds (CreateToken buffer ts) := by
  unfold CreateToken
  refine Succeeds_ite ⟨_, rfl⟩ (fun hne => ?_)
  iterate 16 refine Succeeds_ite ⟨_, rfl⟩ (fun _ => ?_)
  cases buffer with
  | nil => simp at hne
  | cons c cs =>
    have hc := h c (by simp)
    have hd : is_digit (c :: cs) = false := by simp [is_digit, hc.2.2]
    refine Succeeds_ite ⟨_, rfl⟩ (fun _ => ?_)
    rw [hd]
    have hq : (decide (c = '"') || decide (c = '\'')) = false := by simp [hc.1, hc.2.1]
    simp only [List.headD_cons, hq, Bool.false_eq_true, if_false]
    exact ⟨_, rfl⟩

theorem CreateTokenOn_plain (buffer : List Char) (self : Lexer)
    (h : ∀ c ∈ buffer, plain_char c) : Succeeds (CreateTokenOn buffer self) := by
  obtain ⟨ts1, h1⟩ := CreateToken_plain buffer self.tokens_set_ h
  exact ⟨{ self with tokens_set_ := ts1 }, by rw [CreateTokenOn, h1]⟩

theorem ParseString_loop_plain : ∀ (fuel : Nat) (rest : List Char) (loc : ParseLocals)
    (self : Lexer), rest.length < fuel → loc.is_string_now = false →
    (∀ c ∈ rest, plain_char c) → (∀ c ∈ loc.substr, plain_char c) →
    Succeeds (ParseString_loop fuel rest loc self)
  | 0, _, _, _, hf, _, _, _ => by omega
  | _ + 1, [], loc, self, _, _, _, hs => by
    unfold ParseString_loop
    split
    · exact CreateTokenOn_plain _ _ hs
    · exact ⟨_, rfl⟩
  | fuel + 1, ch :: rest, loc, self, hf, hm, hr, hs => by
    have ih := ParseString_loop_plain fuel rest
    have hf1 : rest.length < fuel := by simpa using hf
    have hch := hr ch (by simp)
    have hr1 : ∀ c ∈ rest, plain_char c := fun c hc => hr c (by simp [hc])
    have hs1 : ∀ c ∈ loc.substr ++ [ch], plain_char c := by
      intro c hc
      rcases List.mem_append.mp hc with hc | hc
      · exact hs c hc
      · simp at hc; subst hc; exact hch
    have hnq : ¬ (ch = '\'' ∨ ch = '"') := by
      rintro (h | h)
      · exact hch.1 h
      · exact hch.2.1 h
    obtain ⟨s1, h1⟩ := CreateTokenOn_plain loc.substr self hs
    unfold ParseString_loop
    simp only [hm, hnq, if_false, Bool.false_eq_true, h1]
    split_ifs
    all_goals first
      | exact ih _ _ hf1 rfl hr1 hs
      | exact ih _ _ hf1 rfl hr1 hs1
      | exact ih _ _ hf1 rfl hr1 (by simp)

theorem ParseString_plain (buffer : List Char) (self : Lexer) (h : ∀ c ∈ buffer, plain_char c) :
    ∃ s, ParseString buffer self = .ok s :=
  ParseString_loop_plain _ buffer {} self (by nlinarith) rfl h (by simp)

theorem read_loop_plain : ∀ (input : List Char) (loc : CtorLocals) (self : Lexer),
    loc.is_string_now = false → (∀ c ∈ input, plain_char c) → (∀ c ∈ loc.buffer, plain_char c) →
    (∃ b s, read_loop input loc self = .ok (b, s) ∧ ∀ c ∈ b, plain_char c) ∧
    (∃ b s, skip_comment input loc self = .ok (b, s) ∧ ∀ c ∈ b, plain_char c)
  | [], loc, self, hm, _, hb => by
    constructor
    · obtain ⟨s1, h1⟩ := ParseString_plain loc.buffer self hb
      unfold read_loop
      simp only [hm, Bool.false_eq_true, if_false, h1]
      exact ⟨_, _, rfl, by simp⟩
    · unfold skip_comment
      exact ⟨_, _, rfl, hb⟩
  | s :: rest, loc, self, hm, hi, hb => by
    have ih := read_loop_plain rest
    have hs := hi s (by simp)
    have hi1 : ∀ c ∈ rest, plain_char c := fun c hc => hi c (by simp [hc])
    have hb1 : ∀ c ∈ loc.buffer ++ [s], plain_char c := by
      intro c hc
      rcases List.mem_append.mp hc with hc | hc
      · exact hb c hc
      · simp at hc; subst hc; exact hs
    have hnq : ¬ (s = '\'' ∨ s = '"') := by
      rintro (h | h)
      · exact hs.1 h
      · exact hs.2.1 h
    obtain ⟨s1, h1⟩ := ParseString_plain loc.buffer self hb
    constructor
    · unfold read_loop
      simp only [hm, hnq, if_false, Bool.false_eq_true, h1]
      split_ifs
      all_goals first
        | exact (ih _ _ hm hi1 hb).1
        | exact (ih _ _ hm hi1 hb).2
        | exact (ih _ _ rfl hi1 hb1).1
        | exact (ih _ _ rfl hi1 (fun c hc => absurd hc (List.not_mem_nil c))).1
        | exact (ih _ _ rfl hi1 (fun c hc => absurd hc (List.not_mem_nil c))).2
    · unfold skip_comment
      split
      · exact (ih _ _ hm hi1 hb).1
      · exact (ih _ _ hm hi1 hb).2

theorem finish_plain (buffer : List Char) (self : Lexer) (h : ∀ c ∈ buffer, plain_char c) :
    Succeeds (finish buffer self) := by
  obtain ⟨s1, h1⟩ := ParseString_plain buffer self h
  unfold finish
  split
  · rename_i e he
    split at he
    · rw [h1] at he; cases he
    · cases he
  · exact ⟨_, rfl⟩

theorem tokenize_plain (input : List Char) (h : ∀ c ∈ input, plain_char c) :
    Succeeds (tokenize input) := by
  obtain ⟨b, s, h1, h2⟩ := (read_loop_plain input {} {} rfl h (by simp)).1
  obtain ⟨s1, h3⟩ := finish_plain b s h2
  exact ⟨s1.tokens_set_, by simp [tokenize, Lexer.Lexer, h1, h3]⟩

/-- Leading spaces of a line: each one only advances `spaces` and `position`. -/
theorem ParseString_loop_spaces : ∀ (s fuel : Nat) (tl : List Char) (loc : ParseLocals)
    (self : Lexer), loc.is_string_now = false → loc.substr = [] →
    ParseString_loop (fuel + s) (List.replicate s ' ' ++ tl) loc self =
      ParseString_loop fuel tl
        { loc with spaces := loc.spaces + s, position := loc.position + s } self
  | 0, fuel, tl, loc, self, _, _ => by simp
  | s + 1, fuel, tl, loc, self, hm, hs => by
    have ih := ParseString_loop_spaces s fuel tl
      { loc with spaces := loc.spaces + 1, position := loc.position + 1 } self hm hs
    obtain ⟨substr, spaces, position, ism, tq⟩ := loc
    simp only at hm hs ih
    subst hm hs
    rw [show fuel + (s + 1) = (fuel + s) + 1 by omega, List.replicate_succ, List.cons_append,
      ParseString_loop]
    have h1 : ¬ ((' ' : Char) = '\'' ∨ (' ' : Char) = '"') := by decide
    have h2 : is_math_symbol ' ' = false := by decide
    simp only [h1, h2, Bool.false_eq_true, if_false, and_self, if_true]
    rw [ih]
    congr 1
    simp only [ParseLocals.mk.injEq, and_true, true_and]
    constructor <;> push_cast <;> ring

/-- Once a character other than a leading space has been read, `spaces` stays behind
`position` and the rest of the line leaves the indentation alone. -/
theorem ParseString_loop_quiet : ∀ (fuel : Nat) (rest : List Char) (loc : ParseLocals)
    (self self1 : Lexer), loc.spaces ≤ loc.position →
    ParseString_loop fuel rest loc self = .ok self1 →
    ∃ more, self1.tokens_set_ = self.tokens_set_ ++ more ∧ (∀ t ∈ more, t.neutral) ∧
      self1.indents_ = self.indents_ ∧ self1.pos_new_line_ = self.pos_new_line_
  | 0, _, _, _, _, _, h => by unfold ParseString_loop at h; cases h
  | _ + 1, [], loc, self, self1, _, h => by
    unfold ParseString_loop at h
    split at h
    · unfold CreateTokenOn at h
      split at h
      · rename_i ts hts
        injection h with h; subst h
        obtain ⟨new, h1, h2⟩ := CreateToken_append _ _ _ hts
        exact ⟨new, h1, h2, rfl, rfl⟩
      · cases h
    · injection h with h; subst h
      exact ⟨[], by simp, by simp, rfl, rfl⟩
  | fuel + 1, ch :: rest, loc, self, self1, hsp, h => by
    have ih := ParseString_loop_quiet fuel
    have hne : ¬ (loc.spaces = loc.position + 1) := by omega
    have hi : InsertIndent self loc.spaces (loc.position + 1) = false := by
      simp [InsertIndent, hne]
    have hd : InsertDedent self loc.spaces (loc.position + 1) = false := by
      simp [InsertDedent, hne]
    have hct : ∀ (s1 : Lexer), CreateTokenOn loc.substr self = .ok s1 →
        ∃ new, s1.tokens_set_ = self.tokens_set_ ++ new ∧ (∀ t ∈ new, t.neutral) ∧
          s1.indents_ = self.indents_ ∧ s1.pos_new_line_ = self.pos_new_line_ := by
      intro s1 hs1
      unfold CreateTokenOn at hs1
      split at hs1
      · rename_i ts hts
        injection hs1 with hs1; subst hs1
        obtain ⟨new, h1, h2⟩ := CreateToken_append _ _ _ hts
        exact ⟨new, h1, h2, rfl, rfl⟩
      · cases hs1
    unfold ParseString_loop at h
    simp only [hi, hd, Bool.false_eq_true, and_false, if_false] at h
    split_ifs at h
    all_goals first
      | (split at h
         · rename_i s1 hs1
           obtain ⟨new, g1, g2, g3, g4⟩ := hct s1 hs1
           obtain ⟨more, h1, h2, h3, h4⟩ := ih _ _ _ _ (by simp; omega) h
           first
             | exact ⟨new ++ more, by simp [h1, g1], by
                  intro t ht
                  rcases List.mem_append.mp ht with ht | ht
                  · exact g2 t ht
                  · exact h2 t ht, by omega, by omega⟩
             | exact ⟨new ++ Token.Char ch :: more, by simp [h1, g1, push_back], by
                  intro t ht
                  rcases List.mem_append.mp ht with ht | ht
                  · exact g2 t ht
                  · rcases List.mem_cons.mp ht with rfl | ht
                    · exact neutral_Char ch
                    · exact h2 t ht, by simp [push_back] at h3; omega,
                      by simp [push_back] at h4; omega⟩
         · cases h)
      | exact ih _ _ _ _ (by simp; omega) h
      | (obtain ⟨more, h1, h2, h3, h4⟩ := ih _ _ _ _ (by simp; omega) h
         exact ⟨Token.Char ch :: more, by simp [h1, push_back], by
           intro t ht
           rcases List.mem_cons.mp ht with rfl | ht
           · exact neutral_Char ch
           · exact h2 t ht, h3, h4⟩)

/-- The state of `ParseString` right after the first character of a line that starts with `s`
spaces followed by an ordinary character. -/
theorem ParseString_first_char (s : Nat) (c : Char) (rest : List Char) (self : Lexer)
    (hc : ordinary_char c) :
    ParseString (List.replicate s ' ' ++ c :: rest) self =
      ParseString_loop ((s + rest.length + 2) * (s + rest.length + 2) - s - 1) rest
        { substr := [c], spaces := s, position := s }
        (if InsertIndent self s s then indent_loop ((s - 2 * self.indents_).toNat + 1) s self
         else if InsertDedent self s s then dedent_loop ((2 * self.indents_ - s).toNat + 1) s self
         else self) := by
  obtain ⟨h1, h2, h3, h4, h5, h6, h7, h8, h9⟩ := hc
  have hlen : (List.replicate s ' ' ++ c :: rest).length + 1 = s + rest.length + 2 := by
    simp; omega
  obtain ⟨F, hF⟩ : ∃ F, (s + rest.length + 2) * (s + rest.length + 2) = F + 1 + s :=
    ⟨(s + rest.length + 2) * (s + rest.length + 2) - s - 1, by
      have : s + 1 ≤ (s + rest.length + 2) * (s + rest.length + 2) := by nlinarith
      omega⟩
  unfold ParseString
  rw [hlen, hF, show F + 1 + s - s - 1 = F by omega,
    ParseString_loop_spaces s (F + 1) (c :: rest) {} self rfl rfl, ParseString_loop]
  have hq : ¬ (c = '\'' ∨ c = '"') := by
    rintro (h | h)
    · exact h2 h
    · exact h3 h
  have hp : ¬ (c = ':' ∨ c = '(' ∨ c = ')' ∨ c = ',' ∨ c = '.') := by
    rintro (h | h | h | h | h)
    · exact h5 h
    · exact h6 h
    · exact h7 h
    · exact h8 h
    · exact h9 h
  have e1 : ((0 : Int) + (s : Int)) = s := by simp
  have e2 : ((-1 : Int) + (s : Int) + 1) = s := by ring
  simp only [hq, hp, h1, h4, Bool.false_eq_true, if_false, false_and, true_and, e1, e2,
    List.nil_append]

theorem indentation_rule_general (s : Nat) (c : Char) (rest : List Char) (self self1 : Lexer)
    (hd : 0 ≤ self.indents_) (hpos : self.pos_new_line_ = self.indents_ * 2)
    (hc : ordinary_char c)
    (hrun : ParseString (List.replicate s ' ' ++ c :: rest) self = .ok self1) :
    ∃ more : List Token, (∀ t ∈ more, t ≠ Token.Indent ∧ t ≠ Token.Dedent) ∧
      (2 * self.indents_ < s →
        self1.tokens_set_ = self.tokens_set_ ++
          List.replicate ((s + 1) / 2 - self.indents_.toNat) Token.Indent ++ more ∧
        self1.indents_ = ((s + 1) / 2 : Nat)) ∧
      ((s : Int) < 2 * self.indents_ →
        self1.tokens_set_ = self.tokens_set_ ++
          List.replicate (self.indents_.toNat - s / 2) Token.Dedent ++ more ∧
        self1.indents_ = (s / 2 : Nat)) ∧
      ((s : Int) = 2 * self.indents_ →
        self1.tokens_set_ = self.tokens_set_ ++ more ∧ self1.indents_ = self.indents_) := by
  rw [ParseString_first_char s c rest self hc] at hrun
  obtain ⟨more, h1, h2, h3, _⟩ := ParseString_loop_quiet _ _ _ _ _ (by simp) hrun
  refine ⟨more, fun t ht => ⟨(h2 t ht).1, (h2 t ht).2.1⟩, ?_, ?_, ?_⟩
  · intro hlt
    have hi : InsertIndent self s s = true := by simp [InsertIndent, hpos]; omega
    rw [hi] at h1 h3
    simp only [if_true] at h1 h3
    obtain ⟨n, g1, g2, _, g4, g5⟩ := indent_loop_spec s ((s - 2 * self.indents_).toNat + 1) self hpos
      (by omega)
    have hn : n = (s + 1) / 2 - self.indents_.toNat := by omega
    rw [g1] at h1
    rw [g2] at h3
    subst hn
    exact ⟨h1, by omega⟩
  · intro hlt
    have hi : InsertIndent self s s = false := by simp [InsertIndent, hpos]; omega
    have hde : InsertDedent self s s = true := by simp [InsertDedent, hpos]; omega
    rw [hi, hde] at h1 h3
    simp only [if_true, Bool.false_eq_true, if_false] at h1 h3
    obtain ⟨n, g1, g2, _, g4, g5⟩ := dedent_loop_spec s ((2 * self.indents_ - s).toNat + 1) self hpos
      (by omega)
    have hn : n = self.indents_.toNat - s / 2 := by omega
    rw [g1] at h1
    rw [g2] at h3
    subst hn
    exact ⟨h1, by omega⟩
  · intro heq
    have hi : InsertIndent self s s = false := by simp [InsertIndent, hpos]; omega
    have hde : InsertDedent self s s = false := by simp [InsertDedent, hpos]; omega
    rw [hi, hde] at h1 h3
    simp only [Bool.false_eq_true, if_false] at h1 h3
    exact ⟨h1, h3⟩

theorem leading_backslashes_le : ∀ (l : List Char), leading_backslashes l ≤ l.length
  | [] => by simp [leading_backslashes]
  | c :: cs => by
    have := leading_backslashes_le cs
    unfold leading_backslashes
    split
    · simp; omega
    · simp

theorem leading_backslashes_full : ∀ (l : List Char), leading_backslashes l = l.length →
    l = List.replicate l.length '\\'
  | [], _ => rfl
  | c :: cs, h => by
    unfold leading_backslashes at h
    split at h
    · rename_i hc
      have h1 : leading_backslashes cs = cs.length := by simpa using h
      have := leading_backslashes_full cs h1
      rw [List.length_cons, List.replicate_succ, ← this, hc]
    · simp at h

theorem leading_backslashes_append : ∀ (l : List Char) (d : Char),
    leading_backslashes l < l.length → leading_backslashes (l ++ [d]) = leading_backslashes l
  | [], _, h => by simp at h
  | c :: cs, d, h => by
    rw [List.cons_append]
    unfold leading_backslashes at h ⊢
    split
    · rename_i hc
      rw [if_pos hc] at h
      rw [leading_backslashes_append cs d (by simpa using h)]
    · rfl

theorem iteration_rank_lt_sq (l : List Char) :
    iteration_rank l < (l.length + 1) * (l.length + 1) := by
  have := leading_backslashes_le l
  unfold iteration_rank
  nlinarith

theorem iteration_rank_tail (ch : Char) (tl : List Char) :
    iteration_rank tl < iteration_rank (ch :: tl) := by
  have := leading_backslashes_le tl
  unfold iteration_rank
  simp only [List.length_cons]
  nlinarith

/-- Inside a string literal, on a rest of two or more backslashes and nothing else, every
iteration appends a backslash: no budget is enough. -/
theorem ParseString_loop_stuck : ∀ (fuel k : Nat) (loc : ParseLocals) (self : Lexer),
    loc.is_string_now = true →
    ParseString_loop fuel (List.replicate (k + 2) '\\') loc self = .error .no_fuel
  | 0, _, _, _, _ => by rw [ParseString_loop]
  | fuel + 1, k, loc, self, hm => by
    have ih := ParseString_loop_stuck fuel k { loc with position := loc.position + 1 } self hm
    rw [List.replicate_succ, ParseString_loop]
    simp only [hm, if_true]
    have he : escape ((List.replicate (k + 1) '\\').headD '\x00') = some '\\' := by
      rw [List.replicate_succ]; rfl
    rw [he]
    have hl : List.replicate (k + 1) '\\' ++ (some '\\').toList = List.replicate (k + 2) '\\' := by
      rw [show (some '\\').toList = List.replicate 1 '\\' from rfl, ← List.replicate_add]
    rw [hl]
    rw [hm] at ih
    exact ih

/-- One iteration of the loop of `ParseString` inside a string literal, on a backslash. -/
theorem ParseString_loop_backslash (fuel : Nat) (tl : List Char) (loc : ParseLocals)
    (self : Lexer) (hs : loc.is_string_now = true) :
    ParseString_loop (fuel + 1) ('\\' :: tl) loc self =
      ParseString_loop fuel (tl ++ (escape (tl.headD '\x00')).toList)
        { loc with position := loc.position + 1 } self := by
  rw [ParseString_loop]
  simp only [hs, if_true]

/-- The step of `ParseString_loop_budget` inside a string literal, on a backslash. -/
theorem ParseString_loop_budget_backslash (fuel fuel1 : Nat) (tl : List Char)
    (loc : ParseLocals) (self : Lexer) (hs : loc.is_string_now = true)
    (h : iteration_rank ('\\' :: tl) < fuel + 1) (h1 : iteration_rank ('\\' :: tl) < fuel1 + 1)
    (ih : ∀ (rest : List Char) (loc : ParseLocals) (self : Lexer), iteration_rank rest < fuel →
      iteration_rank rest < fuel1 →
      ParseString_loop fuel rest loc self = ParseString_loop fuel1 rest loc self) :
    ParseString_loop (fuel + 1) ('\\' :: tl) loc self =
      ParseString_loop (fuel1 + 1) ('\\' :: tl) loc self := by
  have ht := iteration_rank_tail '\\' tl
  rw [ParseString_loop_backslash fuel tl loc self hs,
    ParseString_loop_backslash fuel1 tl loc self hs]
  cases he : escape (tl.headD '\x00') with
  | none =>
    simp only [Option.toList, List.append_nil]
    exact ih _ _ _ (by omega) (by omega)
  | some d =>
    simp only [Option.toList]
    by_cases hfull : leading_backslashes tl = tl.length
    · -- the rest is made of backslashes only
      have htl := leading_backslashes_full tl hfull
      cases hlen : tl.length with
      | zero =>
        have : tl = [] := List.length_eq_zero.mp hlen
        subst this
        simp [escape] at he
      | succ m =>
        rw [hlen] at htl
        have hd : d = '\\' := by
          rw [htl, List.replicate_succ] at he
          simp [escape] at he
          exact he.symm
        have hrest : tl ++ [d] = List.replicate (m + 2) '\\' := by
          rw [htl, hd, show ['\\'] = List.replicate 1 '\\' from rfl, ← List.replicate_add]
        rw [hrest, ParseString_loop_stuck fuel m { loc with position := loc.position + 1 } self hs,
          ParseString_loop_stuck fuel1 m { loc with position := loc.position + 1 } self hs]
    · have hlt : leading_backslashes tl < tl.length :=
        lt_of_le_of_ne (leading_backslashes_le tl) hfull
      have hrk : iteration_rank (tl ++ [d]) + 1 = iteration_rank ('\\' :: tl) := by
        unfold iteration_rank
        rw [leading_backslashes_append tl d hlt]
        simp only [List.length_append, List.length_singleton, List.length_cons,
          List.length_nil, leading_backslashes, if_true]
        ring
      exact ih _ _ _ (by omega) (by omega)

/-- The result of the loop of `ParseString` does not depend on the budget, as soon as the budget
exceeds the rank of the rest of the buffer. -/
theorem ParseString_loop_budget : ∀ (fuel fuel1 : Nat) (rest : List Char) (loc : ParseLocals)
    (self : Lexer), iteration_rank rest < fuel → iteration_rank rest < fuel1 →
    ParseString_loop fuel rest loc self = ParseString_loop fuel1 rest loc self
  | 0, _, _, _, _, h, _ => by omega
  | _ + 1, 0, _, _, _, _, h => by omega
  | _ + 1, _ + 1, [], loc, self, _, _ => by rw [ParseString_loop, ParseString_loop]
  | fuel + 1, fuel1 + 1, ch :: tl, loc, self, h, h1 => by
    have ih := ParseString_loop_budget fuel fuel1
    have ht := iteration_rank_tail ch tl
    have iht : ∀ (loc1 : ParseLocals) (self1 : Lexer),
        ParseString_loop fuel tl loc1 self1 = ParseString_loop fuel1 tl loc1 self1 :=
      fun loc1 self1 => ih tl loc1 self1 (by omega) (by omega)
    by_cases hs : loc.is_string_now = true
    · by_cases hb : ch = '\\'
      · rw [hb] at h h1 ⊢
        exact ParseString_loop_budget_backslash fuel fuel1 tl loc self hs h h1 ih
      · rw [ParseString_loop, ParseString_loop]
        simp only [hs, hb, if_true, if_false, iht]
    · rw [ParseString_loop, ParseString_loop]
      simp only [hs, Bool.false_eq_true, if_false, iht]

/-- The budget that `ParseString` gives its loop is as good as any larger one: when it is
exhausted, every budget is, and the loop of the source does not end. -/
theorem ParseString_budget (buffer : List Char) (self : Lexer) (fuel : Nat)
    (h : (buffer.length + 1) * (buffer.length + 1) ≤ fuel) :
    ParseString_loop fuel buffer {} self = ParseString buffer self := by
  have := iteration_rank_lt_sq buffer
  exact ParseString_loop_budget _ _ buffer {} self (by omega) this

/-- The `Indent` loop is always left because its condition fails, never because of the
bound that `ParseString_loop` passes. -/
theorem indent_loop_exit (position : Int) (self : Lexer) :
    ¬ (position -
      (indent_loop ((position - 2 * self.indents_).toNat + 1) position self).pos_new_line_ > 0)
    := by
  rw [indent_loop]
  split
  · obtain ⟨n, _, _, h3, h4, _⟩ := indent_loop_spec position ((position - 2 * self.indents_).toNat)
      (UpdatePosNewLine { push_back self Token.Indent with indents_ := self.indents_ + 1 }) rfl
      (by simp only [UpdatePosNewLine, push_back]; omega)
    rw [h3]
    omega
  · assumption

/-- The `Dedent` loop is always left because its condition fails, never because of its bound,
for the bound that `ParseString_loop` passes as well as for the one of the end of the
constructor. -/
theorem dedent_loop_exit (position : Int) (self : Lexer) (fuel : Nat)
    (h : 2 * (self.indents_ - 1) - position < 2 * fuel) :
    ¬ ((dedent_loop (fuel + 1) position self).pos_new_line_ - position > 0) := by
  rw [dedent_loop]
  split
  · obtain ⟨n, _, _, h3, h4, _⟩ := dedent_loop_spec position fuel
      (UpdatePosNewLine { push_back self Token.Dedent with indents_ := self.indents_ - 1 }) rfl
      (by simp only [UpdatePosNewLine, push_back]; omega)
    rw [h3]
    omega
  · assumption

/-- A buffer of spaces gives no token. -/
theorem ParseString_blank (k : Nat) (self : Lexer) :
    ParseString (List.replicate k ' ') self = .ok self := by
  obtain ⟨F, hF⟩ : ∃ F, ((List.replicate k ' ').length + 1) * ((List.replicate k ' ').length + 1)
      = (F + 1) + k :=
    ⟨(k + 1) * (k + 1) - k - 1, by
      have : k + 1 ≤ (k + 1) * (k + 1) := by nlinarith
      simp only [List.length_replicate]
      omega⟩
  unfold ParseString
  rw [hF]
  have h := ParseString_loop_spaces k (F + 1) [] {} self rfl rfl
  rw [List.append_nil] at h
  rw [h, ParseString_loop]
  simp

/-- The reading loop on spaces up to the end of the input. -/
theorem read_loop_spaces : ∀ (b k : Nat),
    read_loop (List.replicate b ' ') { buffer := List.replicate k ' ' } {} = .ok ([], {})
  | 0, k => by
    rw [List.replicate_zero, read_loop.eq_def]
    simp only [Bool.false_eq_true, if_false, ParseString_blank]
  | b + 1, k => by
    have h1 : ¬ ((' ' : Char) = '\'' ∨ (' ' : Char) = '"') := by decide
    have h2 : (' ' : Char) ≠ '\n' := by decide
    have h3 : (' ' : Char) ≠ '#' := by decide
    rw [List.replicate_succ, read_loop.eq_def]
    simp only [h1, h2, h3, and_false, Bool.false_eq_true, if_false]
    have := read_loop_spaces b (k + 1)
    rw [List.replicate_succ'] at this
    exact this

/-- The reading loop on an input of newline characters followed by spaces. -/
theorem read_loop_blank (b : Nat) : ∀ (a : Nat),
    read_loop (List.replicate a '\n' ++ List.replicate b ' ') {} {} = .ok ([], {})
  | 0 => by simpa using read_loop_spaces b 0
  | a + 1 => by
    rw [List.replicate_succ, List.cons_append, read_loop.eq_def]
    simp only [and_self, if_true]
    exact read_loop_blank b a

/-- Shape of the token vector: on every input on which the constructor returns, it ends with
`Eof`, holds `Eof` exactly once and, unless it is just `[Eof]`, has the form
`pre ++ [Newline] ++ Dedent^k ++ [Eof]` where `k` is the number of `Indent` minus the number of
`Dedent` tokens in `pre`.  For the empty input, and for a blank input made of newline characters
followed by spaces (no newline after a space), the constructor returns the vector `[Eof]`. -/
theorem token_stream_shape (input : List Char) :
    (∀ toks, tokenize input = .ok toks →
      toks.getLast? = some Token.Eof ∧ toks.count Token.Eof = 1 ∧
      (toks ≠ [Token.Eof] → ∃ (pre : List Token) (k : Nat),
        toks = pre ++ [Token.Newline] ++ List.replicate k Token.Dedent ++ [Token.Eof] ∧
        (k : Int) = pre.count Token.Indent - pre.count Token.Dedent)) ∧
    (∀ a b : Nat, input = List.replicate a '\n' ++ List.replicate b ' ' →
      tokenize input = .ok [Token.Eof]) := by
  refine ⟨?_, ?_⟩
  · intro toks h
    unfold tokenize Lexer.Lexer at h
    split at h
    · rename_i self hself
      injection h with h
      subst h
      split at hself
      · cases hself
      · rename_i buffer self0 hread
        have hI : LexerInv self0 := (read_loop_inv input {} {} Inv_init).1 buffer self0 hread
        obtain ⟨_, _, _, body, k, h1, h2, h3, h4, _⟩ := finish_shape hI hself
        rw [h1]
        refine ⟨by simp, ?_, ?_⟩
        · have : body.count Token.Eof = 0 := List.count_eq_zero.mpr h2
          simp [List.count_append, List.count_replicate, this]
        · intro hne
          rcases h3 with rfl | ⟨pre, rfl⟩
          · exfalso
            have : k = 0 := by simpa using h4
            subst this
            exact hne (by simp)
          · exact ⟨pre, k, rfl, by simpa [List.count_append] using h4⟩
    · cases h
  · intro a b hin
    subst hin
    simp only [tokenize, Lexer.Lexer, read_loop_blank b a]
    decide

/-- C1, the code at a failing input: the blank input of two spaces and a newline gives
`[Newline, Eof]`, where a blank input is to give `[Eof]`.  The line of spaces produced no token,
and the constructor gives `[Eof]` for the blank inputs made of one newline and of two spaces
without a newline. -/
theorem token_stream_shape_failing_input :
    (∀ c ∈ [' ', ' ', '\n'], c = ' ' ∨ c = '\n') ∧
    tokenize [' ', ' ', '\n'] = .ok [Token.Newline, Token.Eof] ∧
    tokenize [' ', ' ', '\n'] ≠ .ok [Token.Eof] ∧
    tokenize ['\n'] = .ok [Token.Eof] ∧
    tokenize [' ', ' '] = .ok [Token.Eof] := by
  decide

/-- Shape of the token vector, an instance: the vector of a two-line block. -/
theorem token_stream_shape_witness :
    tokenize ['i', 'f', ' ', 'x', ':', '\n', ' ', ' ', 'y', '\n'] =
      .ok [Token.If, Token.Id ['x'], Token.Char ':', Token.Newline, Token.Indent, Token.Id ['y'],
        Token.Newline, Token.Dedent, Token.Eof] ∧
    ∃ (pre : List Token) (k : Nat),
      [Token.If, Token.Id ['x'], Token.Char ':', Token.Newline, Token.Indent, Token.Id ['y'],
        Token.Newline, Token.Dedent, Token.Eof] =
        pre ++ [Token.Newline] ++ List.replicate k Token.Dedent ++ [Token.Eof] ∧
      (k : Int) = pre.count Token.Indent - pre.count Token.Dedent :=
  ⟨by decide!,
    ((token_stream_shape ['i', 'f', ' ', 'x', ':', '\n', ' ', ' ', 'y', '\n']).1 _
      (by decide!)).2.2 (by decide)⟩

/-- C2: when the constructor returns, every initial segment of the token vector holds at least
as many `Indent` as `Dedent` tokens, the whole vector holds as many of the one as of the other,
and the counters end at `indents_ = 0`, `pos_new_line_ = 2 * indents_`.  The counter invariant
`0 ≤ indents_` and `pos_new_line_ = 2 * indents_` holds for the initial object and is kept by the
body of the `Indent` loop and, under the loop condition, by the body of the `Dedent` loop. -/
theorem indent_dedent_balance (input : List Char) (self : Lexer)
    (h : Lexer.Lexer input = .ok self) :
    (∀ k, (self.tokens_set_.take k).count Token.Dedent
        ≤ (self.tokens_set_.take k).count Token.Indent) ∧
    self.tokens_set_.count Token.Indent = self.tokens_set_.count Token.Dedent ∧
    self.indents_ = 0 ∧ self.pos_new_line_ = 2 * self.indents_ ∧
    (0 ≤ ({} : Lexer).indents_ ∧ ({} : Lexer).pos_new_line_ = 2 * ({} : Lexer).indents_) ∧
    (∀ lx : Lexer, 0 ≤ lx.indents_ →
      0 ≤ (UpdatePosNewLine { push_back lx Token.Indent with indents_ := lx.indents_ + 1 }).indents_ ∧
      (UpdatePosNewLine { push_back lx Token.Indent with indents_ := lx.indents_ + 1 }).pos_new_line_
        = 2 * (UpdatePosNewLine
            { push_back lx Token.Indent with indents_ := lx.indents_ + 1 }).indents_) ∧
    (∀ (lx : Lexer) (position : Int), 0 ≤ position → lx.pos_new_line_ = 2 * lx.indents_ →
      lx.pos_new_line_ - position > 0 →
      0 ≤ (UpdatePosNewLine { push_back lx Token.Dedent with indents_ := lx.indents_ - 1 }).indents_ ∧
      (UpdatePosNewLine { push_back lx Token.Dedent with indents_ := lx.indents_ - 1 }).pos_new_line_
        = 2 * (UpdatePosNewLine
            { push_back lx Token.Dedent with indents_ := lx.indents_ - 1 }).indents_) := by
  unfold Lexer.Lexer at h
  split at h
  · cases h
  · rename_i buffer self0 hread
    have hI : LexerInv self0 := (read_loop_inv input {} {} Inv_init).1 buffer self0 hread
    obtain ⟨g1, g2, _, body, k, h1, _, _, h4, h5⟩ := finish_shape hI h
    refine ⟨?_, ?_, g1, by rw [g1, g2]; rfl, by decide, ?_, ?_⟩
    · intro j
      rw [h1]
      exact shape_nested body k h4 h5 j
    · rw [h1]
      exact shape_balance body k h4
    · intro lx hlx
      simp only [UpdatePosNewLine, push_back]
      constructor <;> omega
    · intro lx position hp hpos hg
      simp only [UpdatePosNewLine, push_back]
      constructor <;> omega

/-- C2, an instance: a block of depth two closed at the end of the input. -/
theorem indent_dedent_balance_witness :
    Lexer.Lexer ['a', '\n', ' ', ' ', 'b', '\n', ' ', ' ', ' ', ' ', 'c'] =
      .ok { tokens_set_ := [Token.Id ['a'], Token.Newline, Token.Indent, Token.Id ['b'],
              Token.Newline, Token.Indent, Token.Id ['c'], Token.Newline, Token.Dedent,
              Token.Dedent, Token.Eof],
            indents_ := 0, pos_new_line_ := 0, curr_token_ := 0 } ∧
    List.count Token.Indent [Token.Id ['a'], Token.Newline, Token.Indent, Token.Id ['b'],
        Token.Newline, Token.Indent, Token.Id ['c'], Token.Newline, Token.Dedent,
        Token.Dedent, Token.Eof] =
      List.count Token.Dedent [Token.Id ['a'], Token.Newline, Token.Indent, Token.Id ['b'],
        Token.Newline, Token.Indent, Token.Id ['c'], Token.Newline, Token.Dedent,
        Token.Dedent, Token.Eof] :=
  ⟨by decide!,
    (indent_dedent_balance ['a', '\n', ' ', ' ', 'b', '\n', ' ', ' ', ' ', ' ', 'c']
      { tokens_set_ := [Token.Id ['a'], Token.Newline, Token.Indent, Token.Id ['b'],
          Token.Newline, Token.Indent, Token.Id ['c'], Token.Newline, Token.Dedent,
          Token.Dedent, Token.Eof],
        indents_ := 0, pos_new_line_ := 0, curr_token_ := 0 }
      (by decide!)).2.1⟩

/-- C3: for a line of `s` spaces followed by an ordinary lexeme character, read at depth
`d = indents_` with `pos_new_line_ = 2 * d`, `ParseString` appends, before any token of the line,
`ceil(s/2) - d` tokens `Indent` when `s > 2 * d` (the depth becomes `ceil(s/2)`),
`d - floor(s/2)` tokens `Dedent` when `s < 2 * d` (the depth becomes `floor(s/2)`), and neither
when `s = 2 * d`; the rest of the line adds no `Indent` and no `Dedent`.  The token vector of the
scenario source holds one `Indent`, followed later by one `Dedent`. -/
theorem indentation_rule :
    (∀ (s : Nat) (c : Char) (rest : List Char) (self self1 : Lexer),
      0 ≤ self.indents_ → self.pos_new_line_ = self.indents_ * 2 → ordinary_char c →
      ParseString (List.replicate s ' ' ++ c :: rest) self = .ok self1 →
      ∃ more : List Token, (∀ t ∈ more, t ≠ Token.Indent ∧ t ≠ Token.Dedent) ∧
        (2 * self.indents_ < s →
          self1.tokens_set_ = self.tokens_set_ ++
            List.replicate ((s + 1) / 2 - self.indents_.toNat) Token.Indent ++ more ∧
          self1.indents_ = ((s + 1) / 2 : Nat)) ∧
        ((s : Int) < 2 * self.indents_ →
          self1.tokens_set_ = self.tokens_set_ ++
            List.replicate (self.indents_.toNat - s / 2) Token.Dedent ++ more ∧
          self1.indents_ = (s / 2 : Nat)) ∧
        ((s : Int) = 2 * self.indents_ →
          self1.tokens_set_ = self.tokens_set_ ++ more ∧ self1.indents_ = self.indents_)) ∧
    tokenize scenario_indentation =
      .ok [Token.Id ['x'], Token.Char '=', Token.Number 1, Token.Newline,
        Token.If, Token.Id ['x'], Token.Char ':', Token.Newline,
        Token.Indent, Token.Print, Token.String ['a'], Token.Newline,
        Token.Dedent, Token.Print, Token.String ['b'], Token.Newline, Token.Eof] ∧
    (∀ toks, tokenize scenario_indentation = .ok toks →
      toks.count Token.Indent = 1 ∧ toks.count Token.Dedent = 1 ∧
      toks.indexOf Token.Indent < toks.indexOf Token.Dedent) := by
  have hscen : tokenize scenario_indentation =
      .ok [Token.Id ['x'], Token.Char '=', Token.Number 1, Token.Newline,
        Token.If, Token.Id ['x'], Token.Char ':', Token.Newline,
        Token.Indent, Token.Print, Token.String ['a'], Token.Newline,
        Token.Dedent, Token.Print, Token.String ['b'], Token.Newline, Token.Eof] := by
    decide!
  refine ⟨indentation_rule_general, hscen, ?_⟩
  intro toks h
  rw [hscen] at h
  injection h with h
  subst h
  decide

/-- C3, an instance: a line indented by one space, read at depth two, closes both levels. -/
theorem indentation_rule_witness :
    ParseString [' ', 'y'] { indents_ := 2, pos_new_line_ := 4 } =
      .ok { tokens_set_ := [Token.Dedent, Token.Dedent, Token.Id ['y']],
            indents_ := 0, pos_new_line_ := 0 } ∧
    ∃ more : List Token, (∀ t ∈ more, t ≠ Token.Indent ∧ t ≠ Token.Dedent) ∧
      [Token.Dedent, Token.Dedent, Token.Id ['y']] =
        [] ++ List.replicate 2 Token.Dedent ++ more := by
  have hrun : ParseString (List.replicate 1 ' ' ++ 'y' :: [])
      { indents_ := 2, pos_new_line_ := 4 } =
      .ok { tokens_set_ := [Token.Dedent, Token.Dedent, Token.Id ['y']],
            indents_ := 0, pos_new_line_ := 0 } := by decide!
  obtain ⟨more, hm, _, h2, _⟩ := indentation_rule.1 1 'y' []
    { indents_ := 2, pos_new_line_ := 4 }
    { tokens_set_ := [Token.Dedent, Token.Dedent, Token.Id ['y']], indents_ := 0,
      pos_new_line_ := 0 }
    (by decide) (by decide) (by unfold ordinary_char; decide) hrun
  exact ⟨hrun, more, hm, (h2 (by decide)).1⟩

/-- The cursor after `k` calls of `NextToken` on a non-empty token vector whose cursor is inside
the vector: the vector is unchanged and the cursor is at `min (c + k) n`. -/
theorem after_calls_spec : ∀ (k : Nat) (self : Lexer), self.tokens_set_ ≠ [] →
    self.curr_token_ < self.tokens_set_.length →
    after_calls k self = .ok { self with
      curr_token_ := min (self.curr_token_ + k) (self.tokens_set_.length - 1) }
  | 0, self, _, hc => by
    have : min (self.curr_token_ + 0) (self.tokens_set_.length - 1) = self.curr_token_ := by
      simp; omega
    rw [this]
    rfl
  | k + 1, self, hne, hc => by
    unfold after_calls NextToken
    simp only [hne, if_false]
    split_ifs with hlast
    · simp only
      rw [after_calls_spec k self hne hc]
      congr 2
      omega
    · have hlt : self.curr_token_ + 1 < self.tokens_set_.length := by omega
      rw [List.getElem?_eq_getElem hlt]
      simp only
      rw [after_calls_spec k
        { self with curr_token_ := self.curr_token_ + 1 } hne hlt]
      simp only
      congr 2
      omega

theorem NextToken_spec (self : Lexer) (hne : self.tokens_set_ ≠ [])
    (hc : self.curr_token_ < self.tokens_set_.length)
    (hlast : self.tokens_set_.getLast? = some Token.Eof) :
    ∃ t, self.tokens_set_[min (self.curr_token_ + 1) (self.tokens_set_.length - 1)]? = some t ∧
      NextToken self = .ok (t, { self with
        curr_token_ := min (self.curr_token_ + 1) (self.tokens_set_.length - 1) }) ∧
      CurrentToken { self with
        curr_token_ := min (self.curr_token_ + 1) (self.tokens_set_.length - 1) } = .ok t := by
  have hn : self.tokens_set_[self.tokens_set_.length - 1]? = some Token.Eof := by
    rw [← hlast, List.getLast?_eq_getElem?]
  unfold NextToken CurrentToken
  simp only [hne, if_false]
  split_ifs with hl
  · have hm : min (self.curr_token_ + 1) (self.tokens_set_.length - 1) = self.curr_token_ := by
      omega
    have hcur : self.curr_token_ = self.tokens_set_.length - 1 := by omega
    rw [hm]
    refine ⟨Token.Eof, ?_, rfl, ?_⟩
    · rw [hcur]; exact hn
    · rw [← hcur] at hn
      rw [hn]
  · have hlt : self.curr_token_ + 1 < self.tokens_set_.length := by omega
    have hm : min (self.curr_token_ + 1) (self.tokens_set_.length - 1) = self.curr_token_ + 1 := by
      omega
    rw [hm, List.getElem?_eq_getElem hlt]
    exact ⟨_, rfl, rfl, rfl⟩

/-- C4: for a lexer built by the constructor, with tokens `t_0 .. t_n`, the vector ends with
`Eof`, the cursor starts at 0 and `CurrentToken` returns `t_0`; the call number `k + 1` of
`NextToken` returns `t_min(k+1,n)`, leaves the cursor at `min(k+1,n)` and makes that token the
current one; from the moment the cursor is at `n` every call returns `Eof`; no call fails. -/
theorem cursor_operations (input : List Char) (self : Lexer)
    (h : Lexer.Lexer input = .ok self) :
    self.tokens_set_.getLast? = some Token.Eof ∧ self.curr_token_ = 0 ∧
    (∃ t0, self.tokens_set_[0]? = some t0 ∧ CurrentToken self = .ok t0) ∧
    ∀ k : Nat, ∃ (before after : Lexer) (t : Token),
      after_calls k self = .ok before ∧ NextToken before = .ok (t, after) ∧
      self.tokens_set_[min (k + 1) (self.tokens_set_.length - 1)]? = some t ∧
      CurrentToken after = .ok t ∧
      after.curr_token_ = min (k + 1) (self.tokens_set_.length - 1) ∧
      after.tokens_set_ = self.tokens_set_ ∧
      (self.tokens_set_.length - 1 ≤ k + 1 → t = Token.Eof) := by
  unfold Lexer.Lexer at h
  split at h
  · cases h
  · rename_i buffer self0 hread
    have hI : LexerInv self0 := (read_loop_inv input {} {} Inv_init).1 buffer self0 hread
    obtain ⟨_, _, hcur, body, k0, h1, _, _, _, _⟩ := finish_shape hI h
    have hlast : self.tokens_set_.getLast? = some Token.Eof := by rw [h1]; simp
    have hne : self.tokens_set_ ≠ [] := by rw [h1]; simp
    have hlen : 0 < self.tokens_set_.length := List.length_pos.mpr hne
    have hn : self.tokens_set_[self.tokens_set_.length - 1]? = some Token.Eof := by
      rw [← hlast, List.getLast?_eq_getElem?]
    refine ⟨hlast, hcur, ?_, ?_⟩
    · refine ⟨self.tokens_set_[0], List.getElem?_eq_getElem hlen, ?_⟩
      unfold CurrentToken
      simp only [hne, if_false, hcur, List.getElem?_eq_getElem hlen]
    · intro k
      have hb := after_calls_spec k self hne (by omega)
      have hbc : min (self.curr_token_ + k) (self.tokens_set_.length - 1)
          < self.tokens_set_.length := by omega
      obtain ⟨t, g1, g2, g3⟩ := NextToken_spec
        { self with curr_token_ := min (self.curr_token_ + k) (self.tokens_set_.length - 1) }
        hne hbc hlast
      simp only at g1 g2 g3
      have hidx : min (min (self.curr_token_ + k) (self.tokens_set_.length - 1) + 1)
          (self.tokens_set_.length - 1) = min (k + 1) (self.tokens_set_.length - 1) := by
        rw [hcur]; omega
      rw [hidx] at g1 g2 g3
      refine ⟨_, _, t, hb, g2, g1, g3, rfl, rfl, ?_⟩
      intro hk
      have : min (k + 1) (self.tokens_set_.length - 1) = self.tokens_set_.length - 1 := by omega
      rw [this, hn] at g1
      injection g1 with g1
      exact g1.symm

/-- C4, an instance: the three tokens of `x` followed by a newline, read with four calls. -/
theorem cursor_operations_witness :
    Lexer.Lexer ['x', '\n'] = .ok { tokens_set_ := [Token.Id ['x'], Token.Newline, Token.Eof] } ∧
    CurrentToken { tokens_set_ := [Token.Id ['x'], Token.Newline, Token.Eof] }
      = .ok (Token.Id ['x']) ∧
    ∃ (before after : Lexer),
      after_calls 3 { tokens_set_ := [Token.Id ['x'], Token.Newline, Token.Eof] } = .ok before ∧
      NextToken before = .ok (Token.Eof, after) ∧ after.curr_token_ = 2 := by
  have hrun : Lexer.Lexer ['x', '\n']
      = .ok { tokens_set_ := [Token.Id ['x'], Token.Newline, Token.Eof] } := by decide!
  obtain ⟨_, _, _, hk⟩ := cursor_operations ['x', '\n'] _ hrun
  obtain ⟨before, after, t, h1, h2, _, _, h5, _, h7⟩ := hk 3
  have ht : t = Token.Eof := h7 (by decide)
  subst ht
  exact ⟨hrun, by decide, before, after, h1, h2, h5⟩

theorem is_alpha_eq (c : Char) : is_alpha c = c.isAlpha := by
  simp only [is_alpha, Char.isAlpha, Char.isUpper, Char.isLower, Char.le_def, UInt32.le_def,
    ge_iff_le, Bool.decide_and]
  rw [Bool.or_comm]
  rfl

theorem is_digit_char_eq (c : Char) : is_digit_char c = c.isDigit := by
  simp only [is_digit_char, Char.isDigit, Char.le_def, UInt32.le_def,
    ge_iff_le, Bool.decide_and]
  rfl

theorem decimal_value_eq (b : List Char) :
    decimal_value b = Nat.ofDigits 10 ((b.map (fun x => x.toNat - 48)).reverse) := by
  have key : ∀ (l : List Char) (acc : Nat),
      l.foldl (fun acc ch => 10 * acc + (ch.toNat - '0'.toNat)) acc
        = Nat.ofDigits 10 ((l.map (fun x => x.toNat - 48)).reverse) + 10 ^ l.length * acc := by
    intro l
    induction l with
    | nil => intro acc; simp
    | cons x xs ih =>
      intro acc
      rw [List.foldl_cons, ih]
      simp only [List.map_cons, List.reverse_cons, Nat.ofDigits_append, Nat.ofDigits_singleton,
        List.length_reverse, List.length_map, List.length_cons]
      have : ('0' : Char).toNat = 48 := rfl
      rw [this]
      ring
  simpa [decimal_value] using key b 0

/-- The branch of `CreateToken` for a lexeme that is no keyword and no operator. -/
theorem CreateToken_not_keyword (c : Char) (cs : List Char) (ts : List Token)
    (hk : keyword_token (c :: cs) = none) :
    CreateToken (c :: cs) ts =
      if c = '_' ∨ is_alpha c = true then .ok (ts ++ [Token.Id (c :: cs)])
      else if is_digit (c :: cs) = true then
        match stoi (c :: cs) with
        | .ok value => .ok (ts ++ [Token.Number value])
        | .error e => .error e
      else if c = '"' ∨ c = '\'' then
        if 2 ≤ (c :: cs).length then .ok (ts ++ [Token.String cs.dropLast])
        else .error .invalid_range
      else .ok (ts ++ (c :: cs).map Token.Char) := by
  have n1 : c :: cs ≠ ['c', 'l', 'a', 's', 's'] := by intro h; rw [h] at hk; revert hk; decide
  have n2 : c :: cs ≠ ['d', 'e', 'f'] := by intro h; rw [h] at hk; revert hk; decide
  have n3 : c :: cs ≠ ['T', 'r', 'u', 'e'] := by intro h; rw [h] at hk; revert hk; decide
  have n4 : c :: cs ≠ ['F', 'a', 'l', 's', 'e'] := by intro h; rw [h] at hk; revert hk; decide
  have n5 : c :: cs ≠ ['N', 'o', 'n', 'e'] := by intro h; rw [h] at hk; revert hk; decide
  have n6 : c :: cs ≠ ['i', 'f'] := by intro h; rw [h] at hk; revert hk; decide
  have n7 : c :: cs ≠ ['e', 'l', 's', 'e'] := by intro h; rw [h] at hk; revert hk; decide
  have n8 : c :: cs ≠ ['a', 'n', 'd'] := by intro h; rw [h] at hk; revert hk; decide
  have n9 : c :: cs ≠ ['o', 'r'] := by intro h; rw [h] at hk; revert hk; decide
  have n10 : c :: cs ≠ ['n', 'o', 't'] := by intro h; rw [h] at hk; revert hk; decide
  have n11 : c :: cs ≠ ['p', 'r', 'i', 'n', 't'] := by intro h; rw [h] at hk; revert hk; decide
  have n12 : c :: cs ≠ ['=', '='] := by intro h; rw [h] at hk; revert hk; decide
  have n13 : c :: cs ≠ ['<', '='] := by intro h; rw [h] at hk; revert hk; decide
  have n14 : c :: cs ≠ ['>', '='] := by intro h; rw [h] at hk; revert hk; decide
  have n15 : c :: cs ≠ ['!', '='] := by intro h; rw [h] at hk; revert hk; decide
  have n16 : c :: cs ≠ ['r', 'e', 't', 'u', 'r', 'n'] := by
    intro h; rw [h] at hk; revert hk; decide
  unfold CreateToken
  rw [if_neg (by simp), if_neg n1, if_neg n2, if_neg n3, if_neg n4, if_neg n5, if_neg n6,
    if_neg n7, if_neg n8, if_neg n9, if_neg n10, if_neg n11, if_neg n12, if_neg n13, if_neg n14,
    if_neg n15, if_neg n16]
  simp only [List.headD_cons, List.tail_cons, Bool.or_eq_true, decide_eq_true_eq]
  try rfl

/-- The branch of `CreateToken` for a keyword or an operator. -/
theorem CreateToken_keyword (b : List Char) (t : Token) (ts : List Token)
    (hk : keyword_token b = some t) : CreateToken b ts = .ok (ts ++ [t]) := by
  unfold keyword_token keyword_table at hk
  simp only [List.find?_cons, List.find?_nil] at hk
  repeat' split at hk
  all_goals first
    | (rename_i hb
       have hb2 := of_decide_eq_true hb
       subst hb2
       injection hk with hk
       subst hk
       rfl)
    | simp at hk

/-- C5 (amended): `CreateToken` on the empty lexeme appends nothing; on a keyword or operator it
appends its token; otherwise `Id(b)` when `b` starts with `_` or an ASCII letter; otherwise, when
`b` is made of decimal digits, `Number(n)` for its decimal value `n` when `n` fits a 32-bit `int`
and the failure `out_of_range`, with nothing appended, when it does not; otherwise
`String(b without its first and last character)` when `b` starts with a quote and has two
characters at least; otherwise, when `b` starts with no quote, one `Char` token per character. -/
theorem CreateToken_cases (b : List Char) (ts : List Token) :
    (b = [] → CreateToken b ts = .ok ts) ∧
    (∀ t, keyword_token b = some t → CreateToken b ts = .ok (ts ++ [t])) ∧
    (∀ c cs, b = c :: cs → keyword_token b = none →
      ((c = '_' ∨ c.isAlpha = true) → CreateToken b ts = .ok (ts ++ [Token.Id b])) ∧
      (¬ (c = '_' ∨ c.isAlpha = true) → (∀ x ∈ b, x.isDigit = true) →
        (Nat.ofDigits 10 ((b.map (fun x => x.toNat - 48)).reverse) < 2 ^ 31 →
          CreateToken b ts = .ok (ts ++
            [Token.Number (Nat.ofDigits 10 ((b.map (fun x => x.toNat - 48)).reverse) : Nat)])) ∧
        (2 ^ 31 ≤ Nat.ofDigits 10 ((b.map (fun x => x.toNat - 48)).reverse) →
          CreateToken b ts = .error .out_of_range)) ∧
      (¬ (c = '_' ∨ c.isAlpha = true) → ¬ (∀ x ∈ b, x.isDigit = true) →
        (c = '\'' ∨ c = '"') → cs ≠ [] →
        CreateToken b ts = .ok (ts ++ [Token.String cs.dropLast])) ∧
      (¬ (c = '_' ∨ c.isAlpha = true) → ¬ (∀ x ∈ b, x.isDigit = true) →
        ¬ (c = '\'' ∨ c = '"') → CreateToken b ts = .ok (ts ++ b.map Token.Char))) := by
  refine ⟨?_, fun t ht => CreateToken_keyword b t ts ht, ?_⟩
  · intro hb
    subst hb
    rfl
  · intro c cs hb hk
    subst hb
    have hdig : (∀ x ∈ c :: cs, x.isDigit = true) ↔ is_digit (c :: cs) = true := by
      simp only [is_digit, List.all_eq_true, is_digit_char_eq]
    rw [CreateToken_not_keyword c cs ts hk, is_alpha_eq]
    refine ⟨?_, ?_, ?_, ?_⟩
    · intro h1
      rw [if_pos h1]
    · intro h1 h2
      rw [if_neg h1, if_pos (hdig.mp h2)]
      unfold stoi INT_MAX
      rw [decimal_value_eq]
      constructor
      · intro h3
        rw [if_pos (by omega)]
      · intro h3
        rw [if_neg (by omega)]
    · intro h1 h2 h3 h4
      have hlen : 2 ≤ (c :: cs).length := by
        cases cs with
        | nil => exact absurd rfl h4
        | cons _ _ => simp
      rw [if_neg h1, if_neg (fun h => h2 (hdig.mpr h)), if_pos (Or.symm h3), if_pos hlen]
    · intro h1 h2 h3
      rw [if_neg h1, if_neg (fun h => h2 (hdig.mpr h)), if_neg (fun h => h3 (Or.symm h))]

/-- C5, the claim as stated fails: the lexeme `2147483648` is no keyword, starts with no letter,
is made of digits whose value does not fit a 32-bit `int`, starts with no quote, and yet
`CreateToken` appends no `Char` tokens: it fails. -/
theorem CreateToken_cases_counterexample :
    keyword_token "2147483648".toList = none ∧
    (∀ x ∈ "2147483648".toList, x.isDigit = true) ∧
    Nat.ofDigits 10 (("2147483648".toList.map (fun x => x.toNat - 48)).reverse) = 2 ^ 31 ∧
    CreateToken "2147483648".toList [] = .error .out_of_range ∧
    CreateToken "2147483648".toList [] ≠ .ok ("2147483648".toList.map Token.Char) := by
  decide

/-- C5, an instance: a number after a `print`. -/
theorem CreateToken_cases_witness :
    CreateToken ['4', '2'] [Token.Print] = .ok [Token.Print, Token.Number 42] :=
  (((CreateToken_cases ['4', '2'] [Token.Print]).2.2 '4' ['2'] rfl (by decide)).2.1
    (by decide) (by decide)).1 (by decide)

/-- Inside a string literal the constructor copies every character that is neither a backslash
nor the closing quote. -/
theorem read_loop_in_string (q : Char) : ∀ (c rest buffer : List Char) (self : Lexer),
    buffer ≠ [] → '\\' ∉ c → q ∉ c →
    read_loop (c ++ rest) { buffer := buffer, is_string_now := true, type_quote := q } self =
      read_loop rest { buffer := buffer ++ c, is_string_now := true, type_quote := q } self
  | [], rest, buffer, self, _, _, _ => by simp
  | x :: c, rest, buffer, self, hb, h1, h2 => by
    have hx1 : x ≠ '\\' := fun h => h1 (by simp [h])
    have hx2 : x ≠ q := fun h => h2 (by simp [h])
    have ih := read_loop_in_string q c rest (buffer ++ [x]) self (by simp)
      (fun h => h1 (by simp [h])) (fun h => h2 (by simp [h]))
    rw [List.cons_append, read_loop.eq_def]
    simp only [hb, false_and, if_false, if_true, hx1, hx2]
    rw [ih]
    simp

/-- Inside a string literal `ParseString` copies every character that is neither a backslash
nor the closing quote into the lexeme. -/
theorem ParseString_loop_in_string : ∀ (c : List Char) (fuel : Nat) (rest : List Char)
    (loc : ParseLocals) (self : Lexer), loc.is_string_now = true → '\\' ∉ c →
    loc.type_quote ∉ c →
    ParseString_loop (fuel + c.length) (c ++ rest) loc self =
      ParseString_loop fuel rest
        { loc with substr := loc.substr ++ c, position := loc.position + c.length } self
  | [], fuel, rest, loc, self, _, _, _ => by simp
  | x :: c, fuel, rest, loc, self, hm, h1, h2 => by
    have hx1 : x ≠ '\\' := fun h => h1 (by simp [h])
    have hx2 : x ≠ loc.type_quote := fun h => h2 (by simp [h])
    have ih := ParseString_loop_in_string c fuel rest
      { loc with substr := loc.substr ++ [x], position := loc.position + 1 } self hm
      (fun h => h1 (by simp [h])) (fun h => h2 (by simp [h]))
    obtain ⟨substr, spaces, position, ism, tq⟩ := loc
    simp only at hm hx2 ih
    subst hm
    rw [List.cons_append, List.length_cons, show fuel + (c.length + 1) = (fuel + c.length) + 1 by
      omega, ParseString_loop]
    simp only [if_true, hx1, hx2, if_false]
    rw [ih]
    congr 1
    simp only [ParseLocals.mk.injEq, List.append_assoc, List.singleton_append, true_and, and_true]
    push_cast
    ring

theorem keyword_token_quote (q : Char) (cs : List Char) (hq : q = '\'' ∨ q = '"') :
    keyword_token (q :: cs) = none := by
  unfold keyword_token
  rw [Option.map_eq_none', List.find?_eq_none]
  intro p hp hdec
  have heq : p.1.toList = q :: cs := of_decide_eq_true hdec
  have hhead : p.1.toList.head? = some q := by rw [heq]; rfl
  simp only [keyword_table, List.mem_cons, List.mem_singleton, List.not_mem_nil, or_false] at hp
  rcases hq with rfl | rfl <;>
    rcases hp with rfl | rfl | rfl | rfl | rfl | rfl | rfl | rfl | rfl | rfl | rfl | rfl | rfl |
      rfl | rfl | rfl <;> exact absurd hhead (by decide)

/-- The lexeme `q c q` becomes the token `String{c}`. -/
theorem CreateToken_string (q : Char) (c : List Char) (ts : List Token)
    (hq : q = '\'' ∨ q = '"') :
    CreateToken (q :: (c ++ [q])) ts = .ok (ts ++ [Token.String c]) := by
  rw [CreateToken_not_keyword q (c ++ [q]) ts (keyword_token_quote q _ hq)]
  have h1 : ¬ (q = '_' ∨ is_alpha q = true) := by rcases hq with rfl | rfl <;> decide
  have h2 : ¬ (is_digit (q :: (c ++ [q])) = true) := by
    have : is_digit_char q = false := by rcases hq with rfl | rfl <;> decide
    simp [is_digit, this]
  have h3 : q = '"' ∨ q = '\'' := Or.symm hq
  have h4 : 2 ≤ (q :: (c ++ [q])).length := by simp
  rw [if_neg h1, if_neg h2, if_pos h3, if_pos h4, List.dropLast_concat]

/-- The line buffer `q c q` is parsed into the one token `String{c}`. -/
theorem ParseString_string (q : Char) (c : List Char) (self : Lexer)
    (hq : q = '\'' ∨ q = '"') (h1 : '\\' ∉ c) (h2 : q ∉ c) :
    ParseString (q :: (c ++ [q])) self = .ok (push_back self (Token.String c)) := by
  have hlen : (q :: (c ++ [q])).length + 1 = c.length + 3 := by simp
  obtain ⟨F, hF⟩ : ∃ F, (c.length + 3) * (c.length + 3) = ((F + 1 + 1) + c.length) + 1 :=
    ⟨(c.length + 3) * (c.length + 3) - c.length - 3, by
      have : c.length + 3 ≤ (c.length + 3) * (c.length + 3) := by nlinarith
      omega⟩
  have hqb : q ≠ '\\' := by rcases hq with rfl | rfl <;> decide
  have hhead : (c ++ [q]) ≠ [] ∧ (c ++ [q]).headD '\x00' ≠ '\\' := by
    refine ⟨by simp, ?_⟩
    cases c with
    | nil => simpa using hqb
    | cons x xs =>
      simp only [List.cons_append, List.headD_cons]
      exact fun h => h1 (by simp [h])
  unfold ParseString
  rw [hlen, hF, ParseString_loop]
  simp only [Bool.false_eq_true, if_false, hq, if_true, hhead, and_self, ne_eq, not_false_eq_true]
  rw [ParseString_loop_in_string c (F + 1 + 1) [q] _ self rfl h1 h2, ParseString_loop]
  simp only [if_true, hqb, if_false]
  rw [ParseString_loop]
  simp only [List.nil_append, List.append_assoc, List.singleton_append, List.cons_append, ne_eq,
    List.cons_ne_nil, not_false_eq_true, if_true, reduceCtorEq]
  unfold CreateTokenOn
  rw [CreateToken_string q c _ hq]
  rfl

/-- C6: for a quote `q` and a content `c` with no backslash and no `q`, the input `q c q`
followed by a newline is lexed into exactly `[String{c}, Newline, Eof]`. -/
theorem string_literal_verbatim (q : Char) (c : List Char) (hq : q = '\'' ∨ q = '"')
    (h1 : '\\' ∉ c) (h2 : q ∉ c) :
    tokenize (q :: (c ++ [q, '\n'])) = .ok [Token.String c, Token.Newline, Token.Eof] := by
  have hqn : q ≠ '\n' := by rcases hq with rfl | rfl <;> decide
  have hqb : q ≠ '\\' := by rcases hq with rfl | rfl <;> decide
  have hread : read_loop (q :: (c ++ [q, '\n'])) {} {} =
      .ok ([], { tokens_set_ := [Token.String c, Token.Newline] }) := by
    rw [read_loop.eq_def]
    simp only [hqn, and_false, if_false, Bool.false_eq_true, hq, if_true]
    rw [read_loop_in_string q c [q, '\n'] _ {} (by simp) h1 h2, read_loop.eq_def]
    simp only [List.nil_append, List.cons_append, List.cons_ne_nil, false_and, if_false,
      if_true, hqb, reduceCtorEq]
    rw [read_loop.eq_def]
    have hnq : ¬ (('\n' : Char) = '\'' ∨ ('\n' : Char) = '"') := by decide
    simp only [List.append_eq_nil, List.cons_ne_nil, and_false, false_and, if_false,
      Bool.false_eq_true, hnq, if_true, reduceCtorEq]
    rw [ParseString_string q c {} hq h1 h2]
    simp only
    rfl
  unfold tokenize Lexer.Lexer
  rw [hread]
  rfl

/-- C6, an instance: a double-quoted literal holding a space, a hash sign, punctuation and a
single quote. -/
theorem string_literal_verbatim_witness :
    '\\' ∉ ['a', ' ', '#', '+', ':', '\''] ∧ '"' ∉ ['a', ' ', '#', '+', ':', '\''] ∧
    tokenize ('"' :: (['a', ' ', '#', '+', ':', '\''] ++ ['"', '\n'])) =
      .ok [Token.String ['a', ' ', '#', '+', ':', '\''], Token.Newline, Token.Eof] :=
  ⟨by decide, by decide,
    string_literal_verbatim '"' ['a', ' ', '#', '+', ':', '\''] (Or.inr rfl) (by decide)
      (by decide)⟩

/-- C7, the code at a failing input: the literal `"a\\b"` of the source, whose content is `a`, an
escaped backslash and `b`, gives the token `String{ab}`; the decoded backslash is lost.  The
literal `"a\" b"`, whose content is `a`, an escaped double quote, a space and `b`, gives two
tokens, `String{a}` and `Id{b"}`. -/
theorem escape_decoding_failing_inputs :
    tokenize ['"', 'a', '\\', '\\', 'b', '"', '\n'] =
      .ok [Token.String ['a', 'b'], Token.Newline, Token.Eof] ∧
    tokenize ['"', 'a', '\\', '\\', 'b', '"', '\n'] ≠
      .ok [Token.String ['a', '\\', 'b'], Token.Newline, Token.Eof] ∧
    tokenize ['"', 'a', '\\', '"', ' ', 'b', '"', '\n'] =
      .ok [Token.String ['a'], Token.Id ['b', '"'], Token.Newline, Token.Eof] := by
  decide!

/-- C8, the code at failing inputs: a line of two spaces between two lines gives two adjacent
`Newline` tokens, a first line of spaces gives a vector that starts with `Newline`, and so does
a first line of spaces followed by a comment. -/
theorem newline_on_blank_line_failing_inputs :
    tokenize ['x', '\n', ' ', ' ', '\n', 'y', '\n'] =
      .ok [Token.Id ['x'], Token.Newline, Token.Newline, Token.Id ['y'], Token.Newline,
        Token.Eof] ∧
    tokenize [' ', '\n', 'y', '\n'] =
      .ok [Token.Newline, Token.Id ['y'], Token.Newline, Token.Eof] ∧
    tokenize [' ', '#', 'c', '\n', 'y', '\n'] =
      .ok [Token.Newline, Token.Id ['y'], Token.Newline, Token.Eof] := by
  decide!

/-- One iteration of the reading loop on a character that was read. -/
theorem read_loop_cons (s : Char) (rest : List Char) (loc : CtorLocals) (self : Lexer) :
    read_loop (s :: rest) loc self =
      if loc.buffer = [] ∧ s = '\n' then
        read_loop rest loc self
      else if loc.is_string_now then
        if s = '\\' then
          match rest with
          | [] => .ok (loc.buffer, self)
          | next_s :: rest1 =>
            read_loop rest1 { loc with buffer := loc.buffer ++ (escape next_s).toList } self
        else if s = loc.type_quote then
          read_loop rest
            { buffer := loc.buffer ++ [s], is_string_now := false, type_quote := '\x00' } self
        else
          read_loop rest { loc with buffer := loc.buffer ++ [s] } self
      else if s = '\'' ∨ s = '"' then
        read_loop rest { buffer := loc.buffer ++ [s], is_string_now := true, type_quote := s } self
      else if s = '\n' then
        match ParseString loc.buffer self with
        | .ok self1 => read_loop rest { loc with buffer := [] } (push_back self1 Token.Newline)
        | .error e => .error e
      else if s = '#' then
        if loc.buffer ≠ [] then
          match ParseString loc.buffer self with
          | .ok self1 =>
            skip_comment rest { loc with buffer := [] } (push_back self1 Token.Newline)
          | .error e => .error e
        else
          skip_comment rest loc self
      else
        read_loop rest { loc with buffer := loc.buffer ++ [s] } self := by
  rw [read_loop.eq_def]
  try rfl

/-- The comment loop reads up to the first newline and hands over to the reading loop. -/
theorem skip_comment_line : ∀ (C R : List Char) (loc : CtorLocals) (self : Lexer),
    '\n' ∉ C → skip_comment (C ++ '\n' :: R) loc self = read_loop R loc self
  | [], R, loc, self, _ => by
    rw [List.nil_append, skip_comment.eq_def]
    simp
  | x :: C, R, loc, self, h => by
    have hx : x ≠ '\n' := fun hx => h (by simp [hx])
    rw [List.cons_append, skip_comment.eq_def]
    simp only [hx, if_false]
    exact skip_comment_line C R loc self (fun hc => h (by simp [hc]))

/-- Outside a string literal, a comment that ends a line acts as the newline that ends it. -/
theorem read_loop_comment (C R : List Char) (hC : '\n' ∉ C) : ∀ (L : List Char)
    (loc : CtorLocals) (self : Lexer), loc.is_string_now = false →
    (∀ c ∈ L, c ≠ '\'' ∧ c ≠ '"' ∧ c ≠ '#') →
    read_loop (L ++ '#' :: (C ++ '\n' :: R)) loc self = read_loop (L ++ '\n' :: R) loc self
  | [], loc, self, hm, _ => by
    have h1 : ¬ (('#' : Char) = '\'' ∨ ('#' : Char) = '"') := by decide
    have h2 : ¬ (('\n' : Char) = '\'' ∨ ('\n' : Char) = '"') := by decide
    have h3 : ('#' : Char) ≠ '\n' := by decide
    rw [List.nil_append, List.nil_append, read_loop_cons, read_loop_cons]
    simp only [hm, h1, h2, h3, Bool.false_eq_true, if_false, if_true, and_false, and_true]
    by_cases hb : loc.buffer = []
    · simp only [hb, ne_eq, not_true_eq_false, if_false, if_true]
      exact skip_comment_line C R loc self hC
    · simp only [hb, ne_eq, not_false_eq_true, if_false, if_true]
      cases ParseString loc.buffer self with
      | error e => rfl
      | ok self1 => exact skip_comment_line C R _ _ hC
  | x :: L, loc, self, hm, hL => by
    have hx := hL x (by simp)
    have ih := read_loop_comment C R hC L
    have hL1 : ∀ c ∈ L, c ≠ '\'' ∧ c ≠ '"' ∧ c ≠ '#' := fun c hc => hL c (by simp [hc])
    have hq : ¬ (x = '\'' ∨ x = '"') := by
      rintro (h | h)
      · exact hx.1 h
      · exact hx.2.1 h
    rw [List.cons_append, List.cons_append, read_loop_cons, read_loop_cons]
    simp only [hm, hq, hx.2.2, Bool.false_eq_true, if_false]
    split_ifs
    · exact ih _ _ hm hL1
    · cases ParseString loc.buffer self with
      | error e => rfl
      | ok self1 => exact ih _ _ rfl hL1
    · exact ih _ _ rfl hL1

/-- C9: for a line start `L` without quote and without `#`, a comment text `C` without newline
and any remainder `R`, the constructor gives the same result, token vector or failure, for
`L # C newline R` as for `L newline R`. -/
theorem comment_is_ignored (L C R : List Char)
    (hL : ∀ c ∈ L, c ≠ '\'' ∧ c ≠ '"' ∧ c ≠ '#') (hC : '\n' ∉ C) :
    tokenize (L ++ '#' :: (C ++ '\n' :: R)) = tokenize (L ++ '\n' :: R) := by
  unfold tokenize Lexer.Lexer
  rw [read_loop_comment C R hC L {} {} rfl hL]

/-- C9, an instance: a comment after an assignment, followed by another line. -/
theorem comment_is_ignored_witness :
    tokenize (['x', ' ', '=', ' ', '1', ' '] ++ '#' :: ([' ', 'o', 'n', 'e'] ++ '\n' :: ['y'])) =
      .ok [Token.Id ['x'], Token.Char '=', Token.Number 1, Token.Newline, Token.Id ['y'],
        Token.Newline, Token.Eof] ∧
    tokenize (['x', ' ', '=', ' ', '1', ' '] ++ '\n' :: ['y']) =
      .ok [Token.Id ['x'], Token.Char '=', Token.Number 1, Token.Newline, Token.Id ['y'],
        Token.Newline, Token.Eof] := by
  have h := comment_is_ignored ['x', ' ', '=', ' ', '1', ' '] [' ', 'o', 'n', 'e'] ['y']
    (by decide) (by decide)
  have h2 : tokenize (['x', ' ', '=', ' ', '1', ' '] ++ '\n' :: ['y']) =
      .ok [Token.Id ['x'], Token.Char '=', Token.Number 1, Token.Newline, Token.Id ['y'],
        Token.Newline, Token.Eof] := by decide!
  exact ⟨h.trans h2, h2⟩

/-- The `Dedent` loop toward an odd position and the loop toward the even position below it do
the same, from a state with `pos_new_line_ = 2 * indents_`. -/
theorem dedent_loop_odd (k : Int) : ∀ (fuel fuel1 : Nat) (self : Lexer),
    self.pos_new_line_ = self.indents_ * 2 →
    2 * self.indents_ - (2 * k + 1) < 2 * fuel → 2 * self.indents_ - 2 * k < 2 * fuel1 →
    dedent_loop fuel (2 * k + 1) self = dedent_loop fuel1 (2 * k) self
  | 0, 0, self, _, _, _ => rfl
  | 0, fuel1 + 1, self, hpos, hf, _ => by
    rw [dedent_loop, dedent_loop, if_neg (by omega)]
  | fuel + 1, 0, self, hpos, _, hf1 => by
    rw [dedent_loop, dedent_loop, if_neg (by omega)]
  | fuel + 1, fuel1 + 1, self, hpos, hf, hf1 => by
    rw [dedent_loop, dedent_loop]
    by_cases hgt : self.indents_ > k
    · rw [if_pos (by omega), if_pos (by omega)]
      exact dedent_loop_odd k fuel fuel1 _ rfl
        (by simp only [UpdatePosNewLine, push_back]; omega)
        (by simp only [UpdatePosNewLine, push_back]; omega)
    · rw [if_neg (by omega), if_neg (by omega)]

/-- The `Indent` loop toward an odd position and the loop toward the even position above it do
the same, from a state with `pos_new_line_ = 2 * indents_`. -/
theorem indent_loop_odd (k : Int) : ∀ (fuel fuel1 : Nat) (self : Lexer),
    self.pos_new_line_ = self.indents_ * 2 →
    (2 * k + 1) - 2 * self.indents_ < 2 * fuel → (2 * k + 2) - 2 * self.indents_ < 2 * fuel1 →
    indent_loop fuel (2 * k + 1) self = indent_loop fuel1 (2 * k + 2) self
  | 0, 0, self, _, _, _ => rfl
  | 0, fuel1 + 1, self, hpos, hf, _ => by
    rw [indent_loop, indent_loop, if_neg (by omega)]
  | fuel + 1, 0, self, hpos, _, hf1 => by
    rw [indent_loop, indent_loop, if_neg (by omega)]
  | fuel + 1, fuel1 + 1, self, hpos, hf, hf1 => by
    rw [indent_loop, indent_loop]
    by_cases hle : self.indents_ ≤ k
    · rw [if_pos (by omega), if_pos (by omega)]
      exact indent_loop_odd k fuel fuel1 _ rfl
        (by simp only [UpdatePosNewLine, push_back]; omega)
        (by simp only [UpdatePosNewLine, push_back]; omega)
    · rw [if_neg (by omega), if_neg (by omega)]

/-- Once `spaces` is behind or at `position`, the loop of `ParseString` does not read either of
them: two runs that differ in these two variables only give the same result. -/
theorem ParseString_loop_position : ∀ (fuel : Nat) (rest : List Char) (substr : List Char)
    (sp pos sp1 pos1 : Int) (ism : Bool) (tq : Char) (self : Lexer), sp ≤ pos → sp1 ≤ pos1 →
    ParseString_loop fuel rest ⟨substr, sp, pos, ism, tq⟩ self =
      ParseString_loop fuel rest ⟨substr, sp1, pos1, ism, tq⟩ self
  | 0, _, _, _, _, _, _, _, _, _, _, _ => by rw [ParseString_loop, ParseString_loop]
  | _ + 1, [], substr, sp, pos, sp1, pos1, ism, tq, self, _, _ => by
    rw [ParseString_loop, ParseString_loop]
  | fuel + 1, ch :: rest, substr, sp, pos, sp1, pos1, ism, tq, self, h, h1 => by
    obtain ⟨g, hg⟩ : ∃ g : List Char → List Char → Bool → Char → Lexer → Except LexFailure Lexer,
        ∀ (r : List Char) (sub : List Char) (a b : Int) (i : Bool) (t : Char) (se : Lexer),
          a ≤ b → ParseString_loop fuel r ⟨sub, a, b, i, t⟩ se = g r sub i t se :=
      ⟨fun r sub i t se => ParseString_loop fuel r ⟨sub, 0, 0, i, t⟩ se,
        fun r sub a b i t se hab =>
          ParseString_loop_position fuel r sub a b 0 0 i t se hab (le_refl 0)⟩
    have hi : InsertIndent self sp (pos + 1) = false := by
      simp [InsertIndent, show ¬ sp = pos + 1 by omega]
    have hd : InsertDedent self sp (pos + 1) = false := by
      simp [InsertDedent, show ¬ sp = pos + 1 by omega]
    have hi1 : InsertIndent self sp1 (pos1 + 1) = false := by
      simp [InsertIndent, show ¬ sp1 = pos1 + 1 by omega]
    have hd1 : InsertDedent self sp1 (pos1 + 1) = false := by
      simp [InsertDedent, show ¬ sp1 = pos1 + 1 by omega]
    have e1 : sp ≤ pos + 1 := by omega
    have e2 : sp + 1 ≤ pos + 1 := by omega
    have e3 : sp1 ≤ pos1 + 1 := by omega
    have e4 : sp1 + 1 ≤ pos1 + 1 := by omega
    rw [ParseString_loop, ParseString_loop]
    simp only [hi, hd, hi1, hd1, Bool.false_eq_true, and_false, if_false,
      hg _ _ _ _ _ _ _ e1, hg _ _ _ _ _ _ _ e2, hg _ _ _ _ _ _ _ e3, hg _ _ _ _ _ _ _ e4]

/-- The budget that `ParseString` leaves for the rest of a line, after its leading spaces and
its first character, exceeds the rank of that rest. -/
theorem iteration_rank_lt_budget (s : Nat) (rest : List Char) :
    iteration_rank rest < (s + rest.length + 2) * (s + rest.length + 2) - s - 1 := by
  have h := leading_backslashes_le rest
  have h2 : rest.length * (rest.length + 1) + rest.length + s + 1 <
      (s + rest.length + 2) * (s + rest.length + 2) := by nlinarith
  unfold iteration_rank
  omega

/-- Method `CreateToken` only appends: tokens in front of the vector stay in front. -/
theorem CreateToken_frame (buffer : List Char) (front ts : List Token) :
    CreateToken buffer (front ++ ts) = (CreateToken buffer ts).map (front ++ ·) := by
  unfold CreateToken
  generalize stoi buffer = r
  simp only [apply_ite (Except.map (front ++ ·))]
  cases r <;> simp only [Except.map, List.append_assoc]

/-- Runs of `CreateToken` on two lexer objects that differ in the tokens in front and in the
depth. -/
theorem CreateTokenOn_frame (substr : List Char) (front : List Token) (indents pos : Int)
    (self : Lexer) :
    CreateTokenOn substr (behind front indents pos self) =
      (CreateTokenOn substr self).map (behind front indents pos) := by
  unfold CreateTokenOn
  simp only [behind, CreateToken_frame]
  cases CreateToken substr self.tokens_set_ <;> rfl

/-- Appending a token commutes with putting tokens in front. -/
theorem push_back_behind (front : List Token) (indents pos : Int) (self : Lexer) (t : Token) :
    push_back (behind front indents pos self) t = behind front indents pos (push_back self t) := by
  simp [push_back, behind]

/-- Once `spaces` is behind or at `position`, the loop of `ParseString` only appends to the
token vector and leaves the depth alone: tokens in front of the vector stay in front, whatever
the depth. -/
theorem ParseString_loop_frame (front : List Token) (indents pos : Int) :
    ∀ (fuel : Nat) (rest : List Char) (loc : ParseLocals) (self : Lexer),
    loc.spaces ≤ loc.position →
    ParseString_loop fuel rest loc (behind front indents pos self) =
      (ParseString_loop fuel rest loc self).map (behind front indents pos)
  | 0, _, _, _, _ => by rw [ParseString_loop, ParseString_loop]; rfl
  | _ + 1, [], loc, self, _ => by
    rw [ParseString_loop, ParseString_loop]
    split
    · exact CreateTokenOn_frame _ _ _ _ _
    · rfl
  | fuel + 1, ch :: rest, loc, self, h => by
    have ih := ParseString_loop_frame front indents pos fuel
    have hi : ∀ se : Lexer, InsertIndent se loc.spaces (loc.position + 1) = false := by
      intro se
      simp [InsertIndent, show ¬ loc.spaces = loc.position + 1 by omega]
    have hd : ∀ se : Lexer, InsertDedent se loc.spaces (loc.position + 1) = false := by
      intro se
      simp [InsertDedent, show ¬ loc.spaces = loc.position + 1 by omega]
    have e1 : loc.spaces ≤ loc.position + 1 := by omega
    have e2 : loc.spaces + 1 ≤ loc.position + 1 := by omega
    rw [ParseString_loop, ParseString_loop]
    simp only [hi, hd, Bool.false_eq_true, and_false, if_false, CreateTokenOn_frame,
      push_back_behind]
    split_ifs <;> first
      | exact ih _ _ _ e1
      | exact ih _ _ _ e2
      | (cases hct : CreateTokenOn loc.substr self
         · rfl
         · simp only [Except.map, push_back_behind]
           exact ih _ { loc with substr := [], position := loc.position + 1 } _ e1)

/-- The `Indent` loop in closed form, from a state with `pos_new_line_ = 2 * indents_`: `n`
tokens `Indent` more and the depth `indents_ + n`, where `n` is the least number of levels that
reaches `position`. -/
theorem indent_loop_closed (position : Int) : ∀ (n fuel : Nat) (self : Lexer),
    self.pos_new_line_ = self.indents_ * 2 → n < fuel →
    position ≤ 2 * (self.indents_ + n) → (n = 0 ∨ 2 * (self.indents_ + n - 1) < position) →
    indent_loop fuel position self =
      behind (self.tokens_set_ ++ List.replicate n Token.Indent) (self.indents_ + n)
        ((self.indents_ + n) * 2) { self with tokens_set_ := [] }
  | _, 0, _, _, hf, _, _ => by omega
  | 0, fuel + 1, self, hpos, _, hle, _ => by
    rw [indent_loop, if_neg (by push_cast at hle; omega)]
    cases self
    simp only [behind, List.replicate_zero, List.append_nil, Nat.cast_zero, add_zero] at hpos ⊢
    rw [hpos]
  | n + 1, fuel + 1, self, hpos, hf, hle, hlt => by
    have hlt1 : 2 * (self.indents_ + n) < position := by
      rcases hlt with h | h
      · omega
      · push_cast at h
        omega
    rw [indent_loop, if_pos (by rw [hpos]; omega),
      indent_loop_closed position n fuel _ rfl (by omega)
        (by simp only [UpdatePosNewLine, push_back]; push_cast at hle; omega)
        (by simp only [UpdatePosNewLine, push_back]; right; omega)]
    simp only [behind, UpdatePosNewLine, push_back, List.replicate_succ, List.append_assoc,
      List.singleton_append, Nat.cast_add, Nat.cast_one]
    rw [show self.indents_ + 1 + (n : Int) = self.indents_ + ((n : Int) + 1) by ring]

/-- A line of `s` leading spaces before an ordinary character, read at a depth `d` with
`2 * d ≤ s`: `ParseString` appends the `n` tokens `Indent` that lead to the depth
`(s + 1) / 2 = d + n`, and then what the rest of the line gives. -/
theorem ParseString_indent_closed (s n : Nat) (c : Char) (rest : List Char) (self : Lexer)
    (hpos : self.pos_new_line_ = self.indents_ * 2) (hc : ordinary_char c)
    (hs : 2 * self.indents_ ≤ s) (hn : ((s + 1) / 2 : Nat) = self.indents_ + n) :
    ParseString (List.replicate s ' ' ++ c :: rest) self =
      (ParseString_loop (iteration_rank rest + 1) rest ⟨[c], 0, 0, false, '\x00'⟩
        { self with tokens_set_ := [] }).map
        (behind (self.tokens_set_ ++ List.replicate n Token.Indent) (self.indents_ + n)
          ((self.indents_ + n) * 2)) := by
  have hb := iteration_rank_lt_budget s rest
  rw [ParseString_first_char s c rest self hc,
    ParseString_loop_budget _ (iteration_rank rest + 1) rest _ _ hb (by omega),
    ParseString_loop_position _ rest [c] _ _ 0 0 false '\x00' _ (le_refl _) (le_refl _),
    ← ParseString_loop_frame _ _ _ _ _ _ _ (le_refl _)]
  congr 1
  have hd0 : InsertDedent self s s = false := by
    simp only [InsertDedent, hpos]
    simp only [Bool.and_eq_false_imp, decide_eq_true_eq, decide_eq_false_iff_not]
    intro _
    omega
  by_cases heq : (s : Int) = 2 * self.indents_
  · have hi0 : InsertIndent self s s = false := by
      simp only [InsertIndent, hpos]
      simp only [Bool.and_eq_false_imp, decide_eq_true_eq, decide_eq_false_iff_not]
      intro _
      omega
    have hn0 : n = 0 := by omega
    subst hn0
    rw [hi0, hd0]
    cases self
    simp only [behind, List.replicate_zero, List.append_nil, Nat.cast_zero, add_zero,
      Bool.false_eq_true, if_false] at hpos ⊢
    rw [hpos]
  · have hi1 : InsertIndent self s s = true := by
      simp only [InsertIndent, hpos]
      simp only [Bool.and_eq_true, decide_eq_true_eq, true_and]
      omega
    rw [hi1, if_pos rfl]
    exact indent_loop_closed s n _ self hpos (by omega) (by omega) (by right; omega)

/-- C27, counterexample: read at depth 0, the line ` y` with one leading space gives one
`Indent` and ends at depth 1, while the same line without the space gives no `Indent` and ends
at depth 0; with three leading spaces the line gives two `Indent` tokens, with two leading
spaces one.  The token vectors of the sources `x`, newline, ` y`, newline and `x`, newline, `y`,
newline differ in the same way. -/
theorem odd_indentation_counterexample :
    ParseString [' ', 'y'] {} =
      .ok { tokens_set_ := [Token.Indent, Token.Id ['y']], indents_ := 1, pos_new_line_ := 2 } ∧
    ParseString ['y'] {} =
      .ok { tokens_set_ := [Token.Id ['y']], indents_ := 0, pos_new_line_ := 0 } ∧
    ParseString [' ', ' ', ' ', 'y'] {} =
      .ok { tokens_set_ := [Token.Indent, Token.Indent, Token.Id ['y']], indents_ := 2,
            pos_new_line_ := 4 } ∧
    ParseString [' ', ' ', 'y'] {} =
      .ok { tokens_set_ := [Token.Indent, Token.Id ['y']], indents_ := 1, pos_new_line_ := 2 } ∧
    tokenize ['x', '\n', ' ', 'y', '\n'] =
      .ok [Token.Id ['x'], Token.Newline, Token.Indent, Token.Id ['y'], Token.Newline,
        Token.Dedent, Token.Eof] ∧
    tokenize ['x', '\n', 'y', '\n'] =
      .ok [Token.Id ['x'], Token.Newline, Token.Id ['y'], Token.Newline, Token.Eof] := by
  decide!

/-- C27, amended: a line with an odd number `2 * k + 1` of leading spaces before an ordinary
character, read at depth `d` (with `pos_new_line_ = 2 * d`), makes `ParseString` do exactly
what the same line with one space less does when it closes levels (`2 * k + 1 < 2 * d`), and
exactly what the same line with one space more does when it opens levels
(`2 * k + 1 > 2 * d`): the same tokens, the same failure if any, and the same depth, which is
`k` in the first case and `k + 1` in the second.  In the second case the line with one space
less, `2 * k` spaces, fails in the same way if it fails, and otherwise gives `k - d` tokens
`Indent` followed by tokens that are neither `Indent` nor `Dedent`, at the depth `k`, where the
line with `2 * k + 1` spaces gives the same with one more `Indent`, at the depth `k + 1`. -/
theorem odd_indentation (k : Nat) (c : Char) (rest : List Char) (self : Lexer)
    (hd : 0 ≤ self.indents_) (hpos : self.pos_new_line_ = self.indents_ * 2)
    (hc : ordinary_char c) :
    (((2 * k + 1 : Nat) : Int) < 2 * self.indents_ →
      ParseString (List.replicate (2 * k + 1) ' ' ++ c :: rest) self =
          ParseString (List.replicate (2 * k) ' ' ++ c :: rest) self ∧
        ∀ self1 : Lexer,
          ParseString (List.replicate (2 * k + 1) ' ' ++ c :: rest) self = .ok self1 →
          self1.indents_ = k) ∧
    (2 * self.indents_ < ((2 * k + 1 : Nat) : Int) →
      ParseString (List.replicate (2 * k + 1) ' ' ++ c :: rest) self =
          ParseString (List.replicate (2 * k + 2) ' ' ++ c :: rest) self ∧
        (∀ self1 : Lexer,
          ParseString (List.replicate (2 * k + 1) ' ' ++ c :: rest) self = .ok self1 →
          self1.indents_ = k + 1) ∧
        (∀ e : LexFailure,
          ParseString (List.replicate (2 * k) ' ' ++ c :: rest) self = .error e →
          ParseString (List.replicate (2 * k + 1) ' ' ++ c :: rest) self = .error e) ∧
        (∀ self0 : Lexer,
          ParseString (List.replicate (2 * k) ' ' ++ c :: rest) self = .ok self0 →
          ∃ more : List Token, (∀ t ∈ more, t ≠ Token.Indent ∧ t ≠ Token.Dedent) ∧
            self0.tokens_set_ = self.tokens_set_ ++
              List.replicate (k - self.indents_.toNat) Token.Indent ++ more ∧
            self0.indents_ = k ∧
            ParseString (List.replicate (2 * k + 1) ' ' ++ c :: rest) self =
              .ok { self0 with
                tokens_set_ := self.tokens_set_ ++
                  List.replicate (k - self.indents_.toNat) Token.Indent ++ [Token.Indent] ++ more,
                indents_ := k + 1,
                pos_new_line_ := 2 * k + 2 })) := by
  have hb1 := iteration_rank_lt_budget (2 * k + 1) rest
  have hb0 := iteration_rank_lt_budget (2 * k) rest
  have hb2 := iteration_rank_lt_budget (2 * k + 2) rest
  have c1 : ((2 * k + 1 : Nat) : Int) = 2 * (k : Int) + 1 := by push_cast; ring
  have c0 : ((2 * k : Nat) : Int) = 2 * (k : Int) := by push_cast; ring
  have c2 : ((2 * k + 2 : Nat) : Int) = 2 * (k : Int) + 2 := by push_cast; ring
  refine ⟨?_, ?_⟩
  · intro hlt
    refine ⟨?_, ?_⟩
    · rw [ParseString_first_char (2 * k + 1) c rest self hc,
        ParseString_first_char (2 * k) c rest self hc,
        ParseString_loop_budget _ _ rest _ _ hb1 hb0,
        ParseString_loop_position _ rest [c] _ _ ((2 * k : Nat) : Int) ((2 * k : Nat) : Int)
          false '\x00' _ (le_refl _) (le_refl _)]
      have hi1 : InsertIndent self ((2 * k + 1 : Nat) : Int) ((2 * k + 1 : Nat) : Int) = false := by
        simp only [InsertIndent, hpos]
        simp only [Bool.and_eq_false_imp, decide_eq_true_eq, decide_eq_false_iff_not]
        intro _
        omega
      have hi0 : InsertIndent self ((2 * k : Nat) : Int) ((2 * k : Nat) : Int) = false := by
        simp only [InsertIndent, hpos]
        simp only [Bool.and_eq_false_imp, decide_eq_true_eq, decide_eq_false_iff_not]
        intro _
        omega
      have hd1 : InsertDedent self ((2 * k + 1 : Nat) : Int) ((2 * k + 1 : Nat) : Int) = true := by
        simp only [InsertDedent, hpos]
        simp only [Bool.and_eq_true, decide_eq_true_eq, true_and]
        omega
      have hd0 : InsertDedent self ((2 * k : Nat) : Int) ((2 * k : Nat) : Int) = true := by
        simp only [InsertDedent, hpos]
        simp only [Bool.and_eq_true, decide_eq_true_eq, true_and]
        omega
      rw [hi1, hi0, hd1, hd0]
      simp only [Bool.false_eq_true, if_false, if_true]
      rw [c1, c0, dedent_loop_odd (k : Int) _ ((2 * self.indents_ - 2 * (k : Int)).toNat + 1)
        self hpos (by omega) (by omega)]
    · intro self1 hrun
      obtain ⟨_, _, _, h2, _⟩ := indentation_rule_general (2 * k + 1) c rest self self1 hd hpos hc
        hrun
      rw [(h2 hlt).2, show (2 * k + 1) / 2 = k by omega]
  · intro hlt
    refine ⟨?_, ?_, ?_, ?_⟩
    · rw [ParseString_first_char (2 * k + 1) c rest self hc,
        ParseString_first_char (2 * k + 2) c rest self hc,
        ParseString_loop_budget _ _ rest _ _ hb1 hb2,
        ParseString_loop_position _ rest [c] _ _ ((2 * k + 2 : Nat) : Int)
          ((2 * k + 2 : Nat) : Int) false '\x00' _ (le_refl _) (le_refl _)]
      have hi1 : InsertIndent self ((2 * k + 1 : Nat) : Int) ((2 * k + 1 : Nat) : Int) = true := by
        simp only [InsertIndent, hpos]
        simp only [Bool.and_eq_true, decide_eq_true_eq, true_and]
        omega
      have hi2 : InsertIndent self ((2 * k + 2 : Nat) : Int) ((2 * k + 2 : Nat) : Int) = true := by
        simp only [InsertIndent, hpos]
        simp only [Bool.and_eq_true, decide_eq_true_eq, true_and]
        omega
      rw [hi1, hi2]
      simp only [if_true]
      rw [c1, c2, indent_loop_odd (k : Int) _ ((2 * (k : Int) + 2 - 2 * self.indents_).toNat + 1)
        self hpos (by omega) (by omega)]
    · intro self1 hrun
      obtain ⟨_, _, h1, _, _⟩ := indentation_rule_general (2 * k + 1) c rest self self1 hd hpos hc
        hrun
      rw [(h1 hlt).2, show (2 * k + 1 + 1) / 2 = k + 1 by omega]
      push_cast
      rfl
    · intro e hrun
      rw [ParseString_indent_closed (2 * k) (k - self.indents_.toNat) c rest self hpos hc
        (by omega) (by omega)] at hrun
      rw [ParseString_indent_closed (2 * k + 1) (k + 1 - self.indents_.toNat) c rest self hpos hc
        (by omega) (by omega)]
      cases hR : ParseString_loop (iteration_rank rest + 1) rest ⟨[c], 0, 0, false, '\x00'⟩
          { self with tokens_set_ := [] } with
      | error e1 =>
        rw [hR] at hrun
        exact hrun
      | ok r =>
        rw [hR] at hrun
        cases hrun
    · intro self0 hrun
      rw [ParseString_indent_closed (2 * k) (k - self.indents_.toNat) c rest self hpos hc
        (by omega) (by omega)] at hrun
      rw [ParseString_indent_closed (2 * k + 1) (k + 1 - self.indents_.toNat) c rest self hpos hc
        (by omega) (by omega)]
      cases hR : ParseString_loop (iteration_rank rest + 1) rest ⟨[c], 0, 0, false, '\x00'⟩
          { self with tokens_set_ := [] } with
      | error e1 =>
        rw [hR] at hrun
        cases hrun
      | ok r =>
        rw [hR] at hrun
        obtain ⟨more, hm1, hm2, _, _⟩ := ParseString_loop_quiet _ _ _ _ _ (le_refl _) hR
        simp only [List.nil_append] at hm1
        injection hrun with hrun
        subst hrun
        refine ⟨more, fun t ht => ⟨(hm2 t ht).1, (hm2 t ht).2.1⟩, ?_, ?_, ?_⟩
        · simp only [behind, hm1]
        · simp only [behind]
          omega
        · simp only [Except.map, behind, hm1,
            show k + 1 - self.indents_.toNat = (k - self.indents_.toNat) + 1 by omega,
            List.replicate_succ', List.append_assoc]
          congr 2
          · omega
          · omega

/-- C27, instances: read at depth 2, the line ` y` with one leading space closes both levels,
as the line `y` does; read at depth 0, the line with three leading spaces opens two levels, as
the line with four leading spaces does, and gives one `Indent` more than the line with two
leading spaces, which opens one level. -/
theorem odd_indentation_witness :
    ParseString [' ', 'y'] { indents_ := 2, pos_new_line_ := 4 } =
      ParseString ['y'] { indents_ := 2, pos_new_line_ := 4 } ∧
    ParseString ['y'] { indents_ := 2, pos_new_line_ := 4 } =
      .ok { tokens_set_ := [Token.Dedent, Token.Dedent, Token.Id ['y']], indents_ := 0,
            pos_new_line_ := 0 } ∧
    ParseString [' ', ' ', ' ', 'y'] {} = ParseString [' ', ' ', ' ', ' ', 'y'] {} ∧
    ParseString [' ', ' ', ' ', ' ', 'y'] {} =
      .ok { tokens_set_ := [Token.Indent, Token.Indent, Token.Id ['y']], indents_ := 2,
            pos_new_line_ := 4 } ∧
    ParseString [' ', ' ', 'y'] {} =
      .ok { tokens_set_ := [Token.Indent, Token.Id ['y']], indents_ := 1, pos_new_line_ := 2 } ∧
    ∃ more : List Token, (∀ t ∈ more, t ≠ Token.Indent ∧ t ≠ Token.Dedent) ∧
      [Token.Indent, Token.Id ['y']] = [Token.Indent] ++ more ∧
      ParseString [' ', ' ', ' ', 'y'] {} =
        .ok { tokens_set_ := [Token.Indent] ++ [Token.Indent] ++ more, indents_ := 2,
              pos_new_line_ := 4 } :=
  ⟨((odd_indentation 0 'y' [] { indents_ := 2, pos_new_line_ := 4 } (by decide) (by decide)
      (by unfold ordinary_char; decide)).1 (by decide)).1,
    by decide!,
    ((odd_indentation 1 'y' [] {} (by decide) (by decide)
      (by unfold ordinary_char; decide)).2 (by decide)).1,
    by decide!,
    by decide!,
    (((odd_indentation 1 'y' [] {} (by decide) (by decide)
      (by unfold ordinary_char; decide)).2 (by decide)).2.2.2
        { tokens_set_ := [Token.Indent, Token.Id ['y']], indents_ := 1, pos_new_line_ := 2 }
        (by decide!)).imp
      (fun _ h => ⟨h.1, h.2.1, h.2.2.2⟩)⟩

end parse

namespace runtime

/-- The loop over a method list returns the first method with the name asked for. -/
theorem find_method_first {Body : Type} (name : String) (m : Method Body)
    (post : List (Method Body)) (hm : m.name = name) : ∀ (pre : List (Method Body)),
    (∀ x ∈ pre, x.name ≠ name) → find_method (pre ++ m :: post) name = some m
  | [], _ => by simp [find_method, hm]
  | x :: pre, h => by
    have hx : x.name ≠ name := h x (by simp)
    rw [List.cons_append, find_method, if_neg hx]
    exact find_method_first name m post hm pre (fun y hy => h y (by simp [hy]))

/-- The loop over a method list that holds no method with the name returns nothing. -/
theorem find_method_none {Body : Type} (name : String) : ∀ (ms : List (Method Body)),
    (∀ x ∈ ms, x.name ≠ name) → find_method ms name = none
  | [], _ => rfl
  | x :: ms, h => by
    have hx : x.name ≠ name := h x (by simp)
    rw [find_method, if_neg hx]
    exact find_method_none name ms (fun y hy => h y (by simp [hy]))

/-- C10: `GetMethod` returns the first method with the name in the class's own list, whatever
the parent declares; when the class declares none, the first method with the name in the direct
parent's own list; and null when neither the class nor its direct parent (if any) declares one,
whatever the parent's own parent declares. -/
theorem GetMethod_lookup {Body : Type} (cls : Class Body) (name : String) :
    (∀ (pre post : List (Method Body)) (m : Method Body), cls.methods_ = pre ++ m :: post →
      m.name = name → (∀ x ∈ pre, x.name ≠ name) → cls.GetMethod name = some m) ∧
    (∀ (parent : Class Body) (pre post : List (Method Body)) (m : Method Body),
      (∀ x ∈ cls.methods_, x.name ≠ name) → cls.parent_ = some parent →
      parent.methods_ = pre ++ m :: post → m.name = name → (∀ x ∈ pre, x.name ≠ name) →
      cls.GetMethod name = some m) ∧
    ((∀ x ∈ cls.methods_, x.name ≠ name) → cls.parent_ = none → cls.GetMethod name = none) ∧
    (∀ parent : Class Body, (∀ x ∈ cls.methods_, x.name ≠ name) → cls.parent_ = some parent →
      (∀ x ∈ parent.methods_, x.name ≠ name) → cls.GetMethod name = none) := by
  refine ⟨?_, ?_, ?_, ?_⟩
  · intro pre post m hcls hm hpre
    unfold Class.GetMethod
    rw [hcls, find_method_first name m post hm pre hpre]
  · intro parent pre post m hown hpar hpm hm hpre
    unfold Class.GetMethod
    rw [find_method_none name _ hown, hpar]
    simp only
    rw [hpm, find_method_first name m post hm pre hpre]
  · intro hown hpar
    unfold Class.GetMethod
    rw [find_method_none name _ hown, hpar]
  · intro parent hown hpar hp
    unfold Class.GetMethod
    rw [find_method_none name _ hown, hpar]
    simp only
    rw [find_method_none name _ hp]

/-- C10, instances: with `A` declaring `f` and `g`, `B(A)` declaring `f` twice and `C(B)`
declaring nothing, `B` answers `f` with its own first `f` and `g` with the `g` of `A`, and `C`
does not find `g`, which only its grandparent declares. -/
theorem GetMethod_lookup_witness :
    (Class.mk "B" [⟨"f", ["self"], 1⟩, ⟨"f", ["self", "x"], 2⟩]
        (some (Class.mk "A" [⟨"f", ["self"], 3⟩, ⟨"g", ["self"], 4⟩] none))).GetMethod "f"
      = some ⟨"f", ["self"], 1⟩ ∧
    (Class.mk "B" [⟨"f", ["self"], 1⟩, ⟨"f", ["self", "x"], 2⟩]
        (some (Class.mk "A" [⟨"f", ["self"], 3⟩, ⟨"g", ["self"], 4⟩] none))).GetMethod "g"
      = some ⟨"g", ["self"], 4⟩ ∧
    (Class.mk "C" []
        (some (Class.mk "B" [⟨"f", ["self"], 1⟩, ⟨"f", ["self", "x"], 2⟩]
          (some (Class.mk "A" [⟨"f", ["self"], 3⟩, ⟨"g", ["self"], 4⟩] none))))).GetMethod "g"
      = (none : Option (Method Nat)) :=
  ⟨(GetMethod_lookup _ "f").1 [] [⟨"f", ["self", "x"], 2⟩] ⟨"f", ["self"], 1⟩ rfl rfl
      (by simp),
    (GetMethod_lookup _ "g").2.1 _ [⟨"f", ["self"], 3⟩] [] ⟨"g", ["self"], 4⟩
      (by decide) rfl rfl rfl (by decide),
    (GetMethod_lookup _ "g").2.2.2 _ (by simp [Class.methods_]) rfl (by decide)⟩

/-- Reading an association list at its head. -/
theorem lookup_cons_ite (k k0 : String) (v0 : ObjectHolder) (es : List (String × ObjectHolder)) :
    List.lookup k ((k0, v0) :: es) = if k = k0 then some v0 else List.lookup k es := by
  rw [List.lookup_cons]
  by_cases h : k = k0
  · have hb : (k == k0) = true := by simp [h]
    rw [hb, if_pos h]
  · have hb : (k == k0) = false := by simp [h]
    rw [hb, if_neg h]

/-- Reading a closure after an assignment: the assigned key gives the new value, every other key
what it gave before. -/
theorem find_assign (closure : Closure) (key : String) (value : ObjectHolder) (k : String) :
    (closure.assign key value).find k = if k = key then some value else closure.find k := by
  induction closure with
  | nil =>
    unfold Closure.find
    rw [Closure.assign, lookup_cons_ite]
  | cons head rest ih =>
    obtain ⟨k0, v0⟩ := head
    unfold Closure.find at ih ⊢
    rw [Closure.assign]
    by_cases h0 : k0 = key
    · rw [if_pos h0, lookup_cons_ite, lookup_cons_ite, h0]
      by_cases h : k = key
      · rw [if_pos h, if_pos h]
      · rw [if_neg h, if_neg h, if_neg h]
    · rw [if_neg h0, lookup_cons_ite, lookup_cons_ite, ih]
      by_cases h1 : k = k0
      · have h : ¬ k = key := by rw [h1]; exact h0
        rw [if_pos h1, if_neg h, if_pos h1]
      · rw [if_neg h1, if_neg h1]

/-- Reading the closure that the loop of `Call` fills: a name gives the argument of the last
position at which the formal parameters hold it, or what it gave before the loop. -/
theorem find_bind_args (k : String) : ∀ (args : List String) (actual_args : List ObjectHolder)
    (closure : Closure),
    (bind_args args actual_args closure).find k =
      (List.lookup k (args.zip actual_args).reverse).or (closure.find k)
  | [], _, closure => by simp [bind_args, List.lookup]
  | _ :: _, [], closure => by simp [bind_args, List.lookup]
  | arg :: args, actual :: actual_args, closure => by
    rw [bind_args, find_bind_args k args actual_args, find_assign]
    simp only [List.zip_cons_cons, List.reverse_cons, List.lookup_append, lookup_cons_ite,
      List.lookup_nil]
    by_cases h : k = arg
    · cases List.lookup k (args.zip actual_args).reverse <;> simp [h]
    · cases List.lookup k (args.zip actual_args).reverse <;> simp [h]

/-- A name that is no formal parameter is not bound by the loop of `Call`. -/
theorem lookup_zip_none (k : String) (args : List String) (actual_args : List ObjectHolder)
    (h : k ∉ args) : List.lookup k (args.zip actual_args).reverse = none := by
  rw [List.lookup_eq_none_iff]
  intro p hp
  rw [List.mem_reverse] at hp
  obtain ⟨p1, p2⟩ := p
  have hmem := (List.of_mem_zip hp).1
  simp only [bne_iff_ne, ne_eq]
  intro e
  exact h (e ▸ hmem)

/-- When the formal parameters are distinct names, the loop of `Call` binds the parameter at
each position to the argument at that position. -/
theorem find_bind_args_positional : ∀ (args : List String) (actual_args : List ObjectHolder)
    (closure : Closure) (i : Nat) (key : String) (value : ObjectHolder), args.Nodup →
    args[i]? = some key → actual_args[i]? = some value →
    (bind_args args actual_args closure).find key = some value
  | [], _, _, _, _, _, _, hk, _ => by simp at hk
  | _ :: _, [], _, _, _, _, _, _, hv => by simp at hv
  | arg :: args, actual :: actual_args, closure, 0, key, value, hnd, hk, hv => by
    simp only [List.getElem?_cons_zero, Option.some.injEq] at hk hv
    subst hk hv
    rw [bind_args, find_bind_args, lookup_zip_none _ _ _ (List.nodup_cons.1 hnd).1,
      find_assign, if_pos rfl]
    rfl
  | arg :: args, actual :: actual_args, closure, i + 1, key, value, hnd, hk, hv => by
    simp only [List.getElem?_cons_succ] at hk hv
    rw [bind_args]
    exact find_bind_args_positional args actual_args _ i key value (List.nodup_cons.1 hnd).2
      hk hv

/-- C11, amended: for an instance whose class is `cls`, `HasMethod(method, k)` is true iff
`GetMethod` on `cls` returns a method with exactly `k` formal parameters.
`Call(method, actual_args)` ends
with the runtime error `Incorrect call`, the memory untouched, when `HasMethod(method,
|actual_args|)` is false; when it is true the outcome and the memory are those of executing the
body of that method in a closure built from nothing, in which `self` gives the instance, every
other name gives the argument at the last position where the formal parameters hold that name
(so, for distinct formal parameters, the argument at the position of the parameter), and a name
that is neither `self` nor a formal parameter is not bound. -/
theorem HasMethod_Call {Body : Type} (exec : Executor Body) (w : World Body) (self : Nat)
    (this : ClassInstance) (cls : Class Body) (method : String)
    (actual_args : List ObjectHolder) (context : Context)
    (hthis : w.instances[self]? = some this) (hcls : w.classes[this.cls_]? = some cls) :
    (∀ k : Nat, this.HasMethod w method k = true ↔
      ∃ m, cls.GetMethod method = some m ∧ m.formal_params.length = k) ∧
    (this.HasMethod w method actual_args.length = false →
      ClassInstance.Call exec self method actual_args context w =
        (.runtime_error "Incorrect call", w)) ∧
    (this.HasMethod w method actual_args.length = true →
      ∃ m method_closure, cls.GetMethod method = some m ∧
        m.formal_params.length = actual_args.length ∧
        ClassInstance.Call exec self method actual_args context w =
          ((exec m.body method_closure context w).outcome,
            (exec m.body method_closure context w).world) ∧
        method_closure.find "self" = some (.ClassInstance self) ∧
        (∀ key : String, key ≠ "self" →
          method_closure.find key =
            List.lookup key (m.formal_params.zip actual_args).reverse) ∧
        (m.formal_params.Nodup → ∀ (i : Nat) (key : String) (value : ObjectHolder),
          m.formal_params[i]? = some key → actual_args[i]? = some value → key ≠ "self" →
          method_closure.find key = some value) ∧
        (∀ key : String, key ≠ "self" → key ∉ m.formal_params →
          method_closure.find key = none)) := by
  have hhas : ∀ k : Nat, this.HasMethod w method k = true ↔
      ∃ m, cls.GetMethod method = some m ∧ m.formal_params.length = k := by
    intro k
    unfold ClassInstance.HasMethod
    rw [hcls]
    cases hm : cls.GetMethod method with
    | none => simp [hm]
    | some m => simp [hm]
  refine ⟨hhas, ?_, ?_⟩
  · intro hfalse
    unfold ClassInstance.Call
    rw [hthis]
    simp only [hfalse, Bool.false_eq_true, if_false]
  · intro htrue
    obtain ⟨m, hm, hlen⟩ := (hhas _).1 htrue
    refine ⟨m, (bind_args m.formal_params actual_args []).assign "self" (.ClassInstance self),
      hm, hlen, ?_, ?_, ?_, ?_, ?_⟩
    · unfold ClassInstance.Call
      rw [hthis]
      simp only [htrue, if_true, hcls, Option.bind, hm]
    · rw [find_assign, if_pos rfl]
    · intro key hkey
      rw [find_assign, if_neg hkey, find_bind_args]
      cases List.lookup key (m.formal_params.zip actual_args).reverse <;> simp [Closure.find]
    · intro hnd i key value hk hv hkey
      rw [find_assign, if_neg hkey]
      exact find_bind_args_positional _ _ _ i key value hnd hk hv
    · intro key hkey hmem
      rw [find_assign, if_neg hkey, find_bind_args, lookup_zip_none _ _ _ hmem]
      rfl

/-- C11, instance of the amended claim: in the sample memory the first instance has `__add__` with one parameter and
not with two; a call of `__add__` with no argument ends with `Incorrect call`; the call
`pair(1, 2)` of the method with the formal parameters `a`, `a` runs the body with `a` bound to
the later argument and returns 2. -/
theorem HasMethod_Call_witness :
    ast.sample_world.instances[0]? = some ⟨0, [("x", .Number 2)]⟩ ∧
    ast.sample_world.classes[0]? = some ast.sample_V ∧
    ClassInstance.HasMethod ast.sample_world ⟨0, [("x", .Number 2)]⟩ "__add__" 1 = true ∧
    ClassInstance.HasMethod ast.sample_world ⟨0, [("x", .Number 2)]⟩ "__add__" 2 = false ∧
    ClassInstance.Call (ast.Execute 5) 0 "__add__" [] .driver ast.sample_world =
      (.runtime_error "Incorrect call", ast.sample_world) ∧
    ClassInstance.Call (ast.Execute 5) 0 "pair" [.Number 1, .Number 2] .driver
        ast.sample_world =
      (.value (.Number 2), ast.sample_world) :=
  ⟨rfl, rfl, rfl, rfl,
    (HasMethod_Call (ast.Execute 5) ast.sample_world 0 ⟨0, [("x", .Number 2)]⟩ ast.sample_V
      "__add__" [] .driver rfl rfl).2.1 rfl,
    rfl⟩

/-- C11, counterexample: in the sample memory the first instance has the method `boom` without
parameters, so `HasMethod("boom", 0)` is true, and `Call("boom", [])` ends with a runtime error
all the same: the one its body `1 / 0` raises. -/
theorem HasMethod_Call_counterexample :
    ast.sample_memory.instances[0]? = some ⟨0, []⟩ ∧
    ast.sample_memory.classes[0]? = some ast.sample_P ∧
    ClassInstance.HasMethod ast.sample_memory ⟨0, []⟩ "boom" 0 = true ∧
    ClassInstance.Call (ast.Execute 6) 0 "boom" [] .driver ast.sample_memory =
      (.runtime_error "Can't divide by 0", ast.sample_memory) :=
  ⟨rfl, rfl, rfl, rfl⟩

/-- C12: `Equal` returns true on two empty holders; raises a runtime error when exactly one
holder is empty; returns the equality of the payloads on two `String`s, two `Number`s and two
`Bool`s; and raises a runtime error on every other pair in which a side is not a class
instance.  The memory is left as it is in all these cases. -/
theorem Equal_cases {Body : Type} (exec : Executor Body) (context : Context) (w : World Body) :
    Equal exec .None .None context w = (.value true, w) ∧
    (∀ a : ObjectHolder, a ≠ .None →
      Equal exec a .None context w =
          (.runtime_error "Cannot compare objects for equality", w) ∧
        Equal exec .None a context w =
          (.runtime_error "Cannot compare objects for equality", w)) ∧
    (∀ l r : String, Equal exec (.String l) (.String r) context w = (.value (decide (l = r)), w)) ∧
    (∀ l r : Int, Equal exec (.Number l) (.Number r) context w = (.value (decide (l = r)), w)) ∧
    (∀ l r : Bool, Equal exec (.Bool l) (.Bool r) context w = (.value (decide (l = r)), w)) ∧
    (∀ a b : ObjectHolder, same_primitive a b = false →
      is_instance a = false ∨ is_instance b = false → a ≠ .None ∨ b ≠ .None →
      Equal exec a b context w = (.runtime_error "Cannot compare objects for equality", w)) := by
  refine ⟨rfl, ?_, fun _ _ => rfl, fun _ _ => rfl, fun _ _ => rfl, ?_⟩
  · intro a ha
    cases a <;> first | exact absurd rfl ha | exact ⟨rfl, rfl⟩
  · intro a b hprim hinst hnone
    cases a <;> cases b <;>
      first
        | rfl
        | (solve | simp [same_primitive] at hprim)
        | (solve | simp [is_instance] at hinst)
        | (solve | simp at hnone)

/-- C12, instances: a `Number` against a `String`, a `Bool` against a `Number` and a class
object on either side raise; equal and different payloads compare as such. -/
theorem Equal_cases_witness :
    Equal (ast.Execute 5) (.Number 1) (.String "1") .driver ast.sample_world =
      (.runtime_error "Cannot compare objects for equality", ast.sample_world) ∧
    Equal (ast.Execute 5) (.Bool true) (.Number 1) .driver ast.sample_world =
      (.runtime_error "Cannot compare objects for equality", ast.sample_world) ∧
    Equal (ast.Execute 5) (.Class 0) (.Class 0) .driver ast.sample_world =
      (.runtime_error "Cannot compare objects for equality", ast.sample_world) ∧
    Equal (ast.Execute 5) (.ClassInstance 0) (.Class 0) .driver ast.sample_world =
      (.runtime_error "Cannot compare objects for equality", ast.sample_world) ∧
    Equal (ast.Execute 5) (.Number 7) (.Number 7) .driver ast.sample_world =
      (.value true, ast.sample_world) ∧
    Equal (ast.Execute 5) (.String "a") (.String "b") .driver ast.sample_world =
      (.value false, ast.sample_world) :=
  ⟨(Equal_cases (ast.Execute 5) .driver ast.sample_world).2.2.2.2.2 _ _ rfl (.inl rfl)
      (.inl (by decide)),
    (Equal_cases (ast.Execute 5) .driver ast.sample_world).2.2.2.2.2 _ _ rfl (.inl rfl)
      (.inl (by decide)),
    (Equal_cases (ast.Execute 5) .driver ast.sample_world).2.2.2.2.2 _ _ rfl (.inl rfl)
      (.inl (by decide)),
    (Equal_cases (ast.Execute 5) .driver ast.sample_world).2.2.2.2.2 _ _ rfl (.inr rfl)
      (.inl (by decide)),
    (Equal_cases (ast.Execute 5) .driver ast.sample_world).2.2.2.1 7 7,
    (Equal_cases (ast.Execute 5) .driver ast.sample_world).2.2.1 "a" "b"⟩

/-- C13, counterexample: the first instance of the sample memory has `__eq__` with one
parameter, and the call of `__eq__` with the `Number` 1 returns `True`; but `Equal` on that
instance and the `Number` 1 raises a runtime error, and so does `Equal` on that instance and the
empty holder. -/
theorem Equal_dispatch_counterexample :
    ast.sample_world.instances[0]? = some ⟨0, [("x", .Number 2)]⟩ ∧
    ClassInstance.HasMethod ast.sample_world ⟨0, [("x", .Number 2)]⟩ "__eq__" 1 = true ∧
    ClassInstance.Call (ast.Execute 5) 0 "__eq__" [.Number 1] .driver ast.sample_world =
      (.value (.Bool true), ast.sample_world) ∧
    IsTrue (.Bool true) = true ∧
    Equal (ast.Execute 5) (.ClassInstance 0) (.Number 1) .driver ast.sample_world =
      (.runtime_error "Cannot compare objects for equality", ast.sample_world) ∧
    Equal (ast.Execute 5) (.ClassInstance 0) .None .driver ast.sample_world =
      (.runtime_error "Cannot compare objects for equality", ast.sample_world) :=
  ⟨rfl, rfl, rfl, rfl, rfl, rfl⟩

/-- C13, amended: for a class instance `x` whose class provides `__eq__` with one parameter and
for a class instance `y`, `Equal(x, y)` is `IsTrue` of the result of `x.Call("__eq__", [y])`
(an exception of the call goes up), with the memory that the call leaves; for a `y` that is not
a class instance `Equal(x, y)` raises a runtime error. -/
theorem Equal_dispatch {Body : Type} (exec : Executor Body) (context : Context)
    (w : World Body) (x : Nat) (this : ClassInstance)
    (hthis : w.instances[x]? = some this) (heq : this.HasMethod w "__eq__" 1 = true) :
    (∀ y : Nat, Equal exec (.ClassInstance x) (.ClassInstance y) context w =
      ((ClassInstance.Call exec x "__eq__" [.ClassInstance y] context w).1.map IsTrue,
        (ClassInstance.Call exec x "__eq__" [.ClassInstance y] context w).2)) ∧
    (∀ b : ObjectHolder, is_instance b = false →
      Equal exec (.ClassInstance x) b context w =
        (.runtime_error "Cannot compare objects for equality", w)) := by
  refine ⟨?_, ?_⟩
  · intro y
    simp [Equal, hthis, heq]
  · intro b hb
    cases b <;> first | rfl | (solve | simp [is_instance] at hb)

/-- C13, instance of the amended claim: in the sample memory `Equal` on the first and the second
instance is true, as `__eq__` returns `True`. -/
theorem Equal_dispatch_witness :
    ast.sample_world.instances[0]? = some ⟨0, [("x", .Number 2)]⟩ ∧
    ClassInstance.HasMethod ast.sample_world ⟨0, [("x", .Number 2)]⟩ "__eq__" 1 = true ∧
    Equal (ast.Execute 5) (.ClassInstance 0) (.ClassInstance 1) .driver ast.sample_world =
      ((ClassInstance.Call (ast.Execute 5) 0 "__eq__" [.ClassInstance 1] .driver
          ast.sample_world).1.map IsTrue,
        (ClassInstance.Call (ast.Execute 5) 0 "__eq__" [.ClassInstance 1] .driver
          ast.sample_world).2) ∧
    Equal (ast.Execute 5) (.ClassInstance 0) (.ClassInstance 1) .driver ast.sample_world =
      (.value true, ast.sample_world) :=
  ⟨rfl, rfl,
    (Equal_dispatch (ast.Execute 5) .driver ast.sample_world 0 ⟨0, [("x", .Number 2)]⟩ rfl
      rfl).1 1,
    rfl⟩

/-- C14: `Less` returns `l < r` on two `String`s (the order of `std::string`, lexicographic),
on two `Number`s and on two `Bool`s (false before true); on two class instances of which the
left has `__lt__` with one parameter it is `IsTrue` of the result of `Call("__lt__", [rhs])`;
and it raises a runtime error in every other case: when a holder is empty (both empty
included), when the left instance has no such `__lt__`, and on every other pair in which a side
is not a class instance. -/
theorem Less_cases {Body : Type} (exec : Executor Body) (context : Context) (w : World Body) :
    (∀ l r : String, Less exec (.String l) (.String r) context w = (.value (decide (l < r)), w)) ∧
    (∀ l r : Int, Less exec (.Number l) (.Number r) context w = (.value (decide (l < r)), w)) ∧
    (∀ l r : Bool, Less exec (.Bool l) (.Bool r) context w = (.value (!l && r), w)) ∧
    (∀ (x y : Nat) (this : ClassInstance), w.instances[x]? = some this →
      this.HasMethod w "__lt__" 1 = true →
      Less exec (.ClassInstance x) (.ClassInstance y) context w =
        ((ClassInstance.Call exec x "__lt__" [.ClassInstance y] context w).1.map IsTrue,
          (ClassInstance.Call exec x "__lt__" [.ClassInstance y] context w).2)) ∧
    (∀ (x y : Nat) (this : ClassInstance), w.instances[x]? = some this →
      this.HasMethod w "__lt__" 1 = false →
      Less exec (.ClassInstance x) (.ClassInstance y) context w =
        (.runtime_error "Cannot compare objects for less", w)) ∧
    (∀ a b : ObjectHolder, a = .None ∨ b = .None →
      Less exec a b context w = (.runtime_error "Cannot compare objects for less", w)) ∧
    (∀ a b : ObjectHolder, a ≠ .None → b ≠ .None → same_primitive a b = false →
      is_instance a = false ∨ is_instance b = false →
      Less exec a b context w = (.runtime_error "Cannot compare objects for equality", w)) := by
  refine ⟨fun _ _ => rfl, fun _ _ => rfl, ?_, ?_, ?_, ?_, ?_⟩
  · intro l r
    cases l <;> cases r <;> rfl
  · intro x y this hthis hlt
    simp [Less, hthis, hlt]
  · intro x y this hthis hlt
    simp [Less, hthis, hlt]
  · intro a b h
    cases a <;> cases b <;>
      first
        | rfl
        | (solve | simp at h)
  · intro a b ha hb hprim hinst
    cases a <;> cases b <;>
      first
        | rfl
        | exact absurd rfl ha
        | exact absurd rfl hb
        | (solve | simp [same_primitive] at hprim)
        | (solve | simp [is_instance] at hinst)

/-- C14, instances: 2 is less than 3 and false is less than true; in the sample memory `Less`
on the first and the second instance calls `__lt__`, which compares the fields 2 and 3; two
empty holders raise, and so does an instance of the class without `__lt__`. -/
theorem Less_cases_witness :
    Less (ast.Execute 5) (.Number 2) (.Number 3) .driver ast.sample_world =
      (.value true, ast.sample_world) ∧
    Less (ast.Execute 5) (.Bool false) (.Bool true) .driver ast.sample_world =
      (.value true, ast.sample_world) ∧
    Less (ast.Execute 5) (.ClassInstance 0) (.ClassInstance 1) .driver ast.sample_world =
      ((ClassInstance.Call (ast.Execute 5) 0 "__lt__" [.ClassInstance 1] .driver
          ast.sample_world).1.map IsTrue,
        (ClassInstance.Call (ast.Execute 5) 0 "__lt__" [.ClassInstance 1] .driver
          ast.sample_world).2) ∧
    Less (ast.Execute 5) (.ClassInstance 0) (.ClassInstance 1) .driver ast.sample_world =
      (.value true, ast.sample_world) ∧
    Less (ast.Execute 5) (.ClassInstance 1) (.ClassInstance 0) .driver ast.sample_world =
      (.value false, ast.sample_world) ∧
    Less (ast.Execute 5) .None .None .driver ast.sample_world =
      (.runtime_error "Cannot compare objects for less", ast.sample_world) ∧
    Less (ast.Execute 5) (.ClassInstance 2) (.ClassInstance 0) .driver ast.sample_world =
      (.runtime_error "Cannot compare objects for less", ast.sample_world) :=
  ⟨(Less_cases (ast.Execute 5) .driver ast.sample_world).2.1 2 3,
    (Less_cases (ast.Execute 5) .driver ast.sample_world).2.2.1 false true,
    (Less_cases (ast.Execute 5) .driver ast.sample_world).2.2.2.1 0 1 _ rfl rfl,
    rfl, rfl,
    (Less_cases (ast.Execute 5) .driver ast.sample_world).2.2.2.2.2.1 _ _ (.inl rfl),
    (Less_cases (ast.Execute 5) .driver ast.sample_world).2.2.2.2.1 2 0 _ rfl rfl⟩

/-- When `Less` and `Equal` return on a pair without touching the memory, the derived
comparators return what their definitions say. -/
theorem derived_of_Less_Equal {Body : Type} (exec : Executor Body) (context : Context)
    (w : World Body) (a b : ObjectHolder) (lt eq : Bool)
    (hlt : Less exec a b context w = (.value lt, w))
    (heq : Equal exec a b context w = (.value eq, w)) :
    NotEqual exec a b context w = (.value (!eq), w) ∧
    Greater exec a b context w = (.value (!lt && !eq), w) ∧
    LessOrEqual exec a b context w = (.value (lt || eq), w) ∧
    GreaterOrEqual exec a b context w = (.value (!lt), w) := by
  have hg : Greater exec a b context w = (.value (!lt && !eq), w) := by
    unfold Greater
    rw [hlt]
    cases lt
    · simp only [heq, Outcome.map, Bool.not_false, Bool.true_and]
    · simp only [Bool.not_true, Bool.false_and]
  refine ⟨?_, hg, ?_, ?_⟩
  · simp only [NotEqual, heq, Outcome.map]
  · simp only [LessOrEqual, hg, Outcome.map]
    cases lt <;> cases eq <;> rfl
  · simp only [GreaterOrEqual, hlt, Outcome.map]

/-- The six comparators agree with a linear order on the payloads when `Less` and `Equal`
return what the order says. -/
theorem AgreeWithOrder_of_linear {Body : Type} {α : Type} [LinearOrder α]
    (exec : Executor Body) (context : Context) (w : World Body) (a b : ObjectHolder) (l r : α)
    [Decidable (l < r)] [Decidable (l = r)] [Decidable (r < l)]
    (hlt : Less exec a b context w = (.value (decide (l < r)), w))
    (heq : Equal exec a b context w = (.value (decide (l = r)), w)) :
    AgreeWithOrder exec context w a b (l < r) (l = r) (r < l) := by
  obtain ⟨hne, hgt, hle, hge⟩ := derived_of_Less_Equal exec context w a b _ _ hlt heq
  have hgt2 : Greater exec a b context w = (.value (decide (r < l)), w) := by
    rw [hgt]
    congr 2
    rcases lt_trichotomy l r with h | h | h
    · simp [h, not_lt_of_lt h]
    · simp [h]
    · simp [h, not_lt_of_lt h, ne_of_gt h]
  refine ⟨hlt, heq, ?_, hgt2, ?_, ?_, ?_⟩
  · rw [hne]; simp
  · rw [hle]; simp
  · rw [hge]
    congr 2
    by_cases h : l < r <;> simp [h]
  · simp only [holds, hlt, heq, hgt2, Outcome.value.injEq, decide_eq_true_eq]
    rcases lt_trichotomy l r with h | h | h
    · exact .inl ⟨h, ne_of_lt h, not_lt_of_lt h⟩
    · exact .inr (.inl ⟨by rw [h]; exact lt_irrefl r, h, by rw [h]; exact lt_irrefl r⟩)
    · exact .inr (.inr ⟨not_lt_of_lt h, ne_of_gt h, h⟩)

/-- C15: on two `Number`s under the order of the integers, on two `String`s under the order of
`std::string` and on two `Bool`s with false before true, the comparators return without an
error and without touching the memory, `NotEqual` is `a ≠ b`, `Greater` is `b < a`,
`LessOrEqual` is `a < b or a = b`, `GreaterOrEqual` is `not a < b`, and exactly one of `Less`,
`Equal`, `Greater` holds. -/
theorem derived_comparators {Body : Type} (exec : Executor Body) (context : Context)
    (w : World Body) :
    (∀ l r : Int,
      AgreeWithOrder exec context w (.Number l) (.Number r) (l < r) (l = r) (r < l)) ∧
    (∀ l r : String,
      AgreeWithOrder exec context w (.String l) (.String r) (l < r) (l = r) (r < l)) ∧
    (∀ l r : Bool,
      AgreeWithOrder exec context w (.Bool l) (.Bool r) (l < r) (l = r) (r < l)) :=
  ⟨fun l r => AgreeWithOrder_of_linear exec context w (.Number l) (.Number r) l r rfl rfl,
    fun l r => AgreeWithOrder_of_linear exec context w (.String l) (.String r) l r rfl rfl,
    fun l r => AgreeWithOrder_of_linear exec context w (.Bool l) (.Bool r) l r
      (by cases l <;> cases r <;> rfl) rfl⟩

/-- C15, instances: on the `Number`s 5 and 3 `Greater` and `GreaterOrEqual` are true and
`LessOrEqual` is false; on `False` and `True` `NotEqual` is true and `Greater` is false. -/
theorem derived_comparators_witness :
    Greater (ast.Execute 5) (.Number 5) (.Number 3) .driver ast.sample_world =
      (.value true, ast.sample_world) ∧
    GreaterOrEqual (ast.Execute 5) (.Number 5) (.Number 3) .driver ast.sample_world =
      (.value true, ast.sample_world) ∧
    LessOrEqual (ast.Execute 5) (.Number 5) (.Number 3) .driver ast.sample_world =
      (.value false, ast.sample_world) ∧
    NotEqual (ast.Execute 5) (.Bool false) (.Bool true) .driver ast.sample_world =
      (.value true, ast.sample_world) ∧
    Greater (ast.Execute 5) (.Bool false) (.Bool true) .driver ast.sample_world =
      (.value false, ast.sample_world) :=
  ⟨((derived_comparators (ast.Execute 5) .driver ast.sample_world).1 5 3).2.2.2.1,
    ((derived_comparators (ast.Execute 5) .driver ast.sample_world).1 5 3).2.2.2.2.2.1,
    ((derived_comparators (ast.Execute 5) .driver ast.sample_world).1 5 3).2.2.2.2.1,
    ((derived_comparators (ast.Execute 5) .driver ast.sample_world).2.2 false true).2.2.1,
    ((derived_comparators (ast.Execute 5) .driver ast.sample_world).2.2 false true).2.2.2.1⟩

/-- C16: `IsTrue` is false on the empty holder, true on a `String` exactly when the text is not
empty, true on a `Number` exactly when the value is not zero, the stored value on a `Bool`, and
false on every class object and every class instance; it does not read the memory, so the
fields and the methods of an instance have no part in it. -/
theorem IsTrue_cases :
    IsTrue .None = false ∧
    (∀ value : String, IsTrue (.String value) = true ↔ value ≠ "") ∧
    (∀ value : Int, IsTrue (.Number value) = true ↔ value ≠ 0) ∧
    (∀ value : Bool, IsTrue (.Bool value) = value) ∧
    (∀ cls : Nat, IsTrue (.Class cls) = false) ∧
    (∀ inst : Nat, IsTrue (.ClassInstance inst) = false) := by
  refine ⟨rfl, ?_, ?_, fun _ => rfl, fun _ => rfl, fun _ => rfl⟩
  · intro value
    rw [← not_iff_not, ne_eq, not_not, ← String.isEmpty_iff]
    simp [IsTrue]
  · intro value
    simp [IsTrue]

/-- C16, instances: the empty text and 0 are falsy, `"0"` and -1 are truthy. -/
theorem IsTrue_cases_witness :
    IsTrue (.String "") = false ∧ IsTrue (.String "0") = true ∧
    IsTrue (.Number 0) = false ∧ IsTrue (.Number (-1)) = true :=
  ⟨by simpa using (IsTrue_cases.2.1 "").not, (IsTrue_cases.2.1 "0").2 (by decide),
    by simpa using (IsTrue_cases.2.2.1 0).not, (IsTrue_cases.2.2.1 (-1)).2 (by decide)⟩

end runtime

namespace ast

open runtime

/-- An exact result that is a value of type `int` is kept as it is. -/
theorem to_int_of_range (x : Int) (hlo : -2147483648 ≤ x) (hhi : x ≤ 2147483647) :
    to_int x = x := by
  unfold to_int
  omega

/-- C17: once the left and then the right operand are evaluated, `Add::Execute` returns the
`Number` holding the sum for two `Number`s (the sum as the machine keeps it in an `int`, which
is the exact sum whenever that is an `int`), and the `String` holding the concatenation for two
`String`s.  When the left operand is a class instance, the result is that of the call of its
`__add__` with the right operand if the instance has `__add__` with one parameter, and a
runtime error otherwise.  Every other pair of operands gives a runtime error. -/
theorem Add_Execute (exec : Executor Statement) (lhs_ rhs_ : Statement)
    (closure closure1 closure2 : Closure) (context : Context) (w w1 w2 : World Statement)
    (lhs_holder rhs_holder : ObjectHolder)
    (hlhs : exec lhs_ closure context w = ⟨.value lhs_holder, closure1, w1⟩)
    (hrhs : exec rhs_ closure1 context w1 = ⟨.value rhs_holder, closure2, w2⟩) :
    (∀ a b : Int, lhs_holder = .Number a → rhs_holder = .Number b →
      Add.Execute exec lhs_ rhs_ closure context w =
          ⟨.value (.Number (to_int (a + b))), closure2, w2⟩ ∧
        (-2147483648 ≤ a + b → a + b ≤ 2147483647 → to_int (a + b) = a + b)) ∧
    (∀ a b : String, lhs_holder = .String a → rhs_holder = .String b →
      Add.Execute exec lhs_ rhs_ closure context w = ⟨.value (.String (a ++ b)), closure2, w2⟩) ∧
    (∀ (lhs_ptr : Nat) (this : ClassInstance), lhs_holder = .ClassInstance lhs_ptr →
      w2.instances[lhs_ptr]? = some this →
      (this.HasMethod w2 "__add__" 1 = true →
        Add.Execute exec lhs_ rhs_ closure context w =
          ⟨(ClassInstance.Call exec lhs_ptr "__add__" [rhs_holder] context w2).1, closure2,
            (ClassInstance.Call exec lhs_ptr "__add__" [rhs_holder] context w2).2⟩) ∧
      (this.HasMethod w2 "__add__" 1 = false →
        Add.Execute exec lhs_ rhs_ closure context w =
          ⟨.runtime_error "lhs does not have method __add__", closure2, w2⟩)) ∧
    (GetValueTypeOfObjHolder lhs_holder ≠ .ClassInstance →
      ¬ (GetValueTypeOfObjHolder lhs_holder = .Number ∧
        GetValueTypeOfObjHolder rhs_holder = .Number) →
      ¬ (GetValueTypeOfObjHolder lhs_holder = .String ∧
        GetValueTypeOfObjHolder rhs_holder = .String) →
      Add.Execute exec lhs_ rhs_ closure context w =
        ⟨.runtime_error "Can't add arguments with given types", closure2, w2⟩) := by
  refine ⟨?_, ?_, ?_, ?_⟩
  · intro a b ha hb
    subst ha hb
    exact ⟨by simp [Add.Execute, hlhs, hrhs, GetValueTypeOfObjHolder], to_int_of_range _⟩
  · intro a b ha hb
    subst ha hb
    simp [Add.Execute, hlhs, hrhs, GetValueTypeOfObjHolder]
  · intro lhs_ptr this ha hthis
    subst ha
    refine ⟨?_, ?_⟩
    · intro hhas
      simp [Add.Execute, hlhs, hrhs, GetValueTypeOfObjHolder, hthis, hhas]
    · intro hhas
      simp [Add.Execute, hlhs, hrhs, GetValueTypeOfObjHolder, hthis, hhas]
  · intro hinst hnum hstr
    simp only [Add.Execute, hlhs, hrhs]
    rw [if_neg hnum, if_neg hstr, if_neg hinst]

/-- C17, instances: in the sample memory and closure `a + b` on the two instances of `V` calls
`__add__`, which returns the sum 5 of the fields; `e + a` on the instance of the class without
`__add__` raises; `2 + 3` is 5; and a `Number` plus a `String`, the empty holder plus a `Number`
and a `Number` plus an instance raise. -/
theorem Add_Execute_witness :
    Execute 1 (.VariableValue ⟨"a", []⟩) sample_closure .driver sample_world =
      ⟨.value (.ClassInstance 0), sample_closure, sample_world⟩ ∧
    Execute 1 (.VariableValue ⟨"b", []⟩) sample_closure .driver sample_world =
      ⟨.value (.ClassInstance 1), sample_closure, sample_world⟩ ∧
    Add.Execute (Execute 1) (.VariableValue ⟨"a", []⟩) (.VariableValue ⟨"b", []⟩)
        sample_closure .driver sample_world =
      ⟨(ClassInstance.Call (Execute 1) 0 "__add__" [.ClassInstance 1] .driver sample_world).1,
        sample_closure,
        (ClassInstance.Call (Execute 1) 0 "__add__" [.ClassInstance 1] .driver
          sample_world).2⟩ ∧
    Execute 6 (.Add (.VariableValue ⟨"a", []⟩) (.VariableValue ⟨"b", []⟩))
        sample_closure .driver sample_world =
      ⟨.value (.Number 5), sample_closure, sample_world⟩ ∧
    Execute 6 (.Add (.VariableValue ⟨"e", []⟩) (.VariableValue ⟨"a", []⟩))
        sample_closure .driver sample_world =
      ⟨.runtime_error "lhs does not have method __add__", sample_closure, sample_world⟩ ∧
    Execute 6 (.Add (.NumericConst 2) (.NumericConst 3)) sample_closure .driver sample_world =
      ⟨.value (.Number 5), sample_closure, sample_world⟩ ∧
    Execute 6 (.Add (.NumericConst 2) (.StringConst "3")) sample_closure .driver sample_world =
      ⟨.runtime_error "Can't add arguments with given types", sample_closure, sample_world⟩ ∧
    Execute 6 (.Add .None (.NumericConst 3)) sample_closure .driver sample_world =
      ⟨.runtime_error "Can't add arguments with given types", sample_closure, sample_world⟩ ∧
    Execute 6 (.Add (.NumericConst 2) (.VariableValue ⟨"a", []⟩)) sample_closure .driver
        sample_world =
      ⟨.runtime_error "Can't add arguments with given types", sample_closure, sample_world⟩ :=
  ⟨rfl, rfl,
    ((Add_Execute (Execute 1) (.VariableValue ⟨"a", []⟩) (.VariableValue ⟨"b", []⟩)
      sample_closure sample_closure sample_closure .driver sample_world sample_world
      sample_world (.ClassInstance 0) (.ClassInstance 1) rfl rfl).2.2.1 0
        ⟨0, [("x", .Number 2)]⟩ rfl rfl).1 rfl,
    rfl, rfl, rfl, rfl, rfl, rfl⟩

/-- C19, counterexample: with n = 1073741824 and m = 4, two values of type `int` with m not
zero, the product 4294967296 is not an `int`; `Mult` keeps 0 of it, and the `Div` node returns
the `Number` 0, which is not n. -/
theorem Div_Mult_counterexample :
    (-2147483648 : Int) ≤ 1073741824 ∧ (1073741824 : Int) ≤ 2147483647 ∧
    (-2147483648 : Int) ≤ 4 ∧ (4 : Int) ≤ 2147483647 ∧ (4 : Int) ≠ 0 ∧
    Execute 2 (.Mult (.NumericConst 1073741824) (.NumericConst 4)) [] .driver sample_world =
      ⟨.value (.Number 0), [], sample_world⟩ ∧
    Execute 3 (.Div (.Mult (.NumericConst 1073741824) (.NumericConst 4)) (.NumericConst 4)) []
        .driver sample_world =
      ⟨.value (.Number 0), [], sample_world⟩ ∧
    ObjectHolder.Number 0 ≠ ObjectHolder.Number 1073741824 :=
  ⟨by decide, by decide, by decide, by decide, by decide, rfl, rfl, by decide⟩

/-- C19, amended: for values n and m of type `int` with m not zero whose product n * m is a
value of type `int` too, the evaluation of `Div(Mult(NumericConst n, NumericConst m),
NumericConst m)` returns the `Number` n, for every closure, context and memory, which it
leaves as they are, and every budget of at least three nested calls. -/
theorem Div_Mult_cancel (n m : Int) (fuel : Nat) (closure : Closure) (context : Context)
    (w : World Statement)
    (hn : -2147483648 ≤ n ∧ n ≤ 2147483647) (hm : -2147483648 ≤ m ∧ m ≤ 2147483647)
    (hm0 : m ≠ 0) (hprod : -2147483648 ≤ n * m ∧ n * m ≤ 2147483647) :
    Execute (fuel + 3) (.Div (.Mult (.NumericConst n) (.NumericConst m)) (.NumericConst m))
        closure context w =
      ⟨.value (.Number n), closure, w⟩ := by
  have _ := hm
  have hmin : ¬ (n * m = -2147483648 ∧ m = -1) := by
    rintro ⟨hp, hm1⟩
    rw [hm1] at hp
    omega
  simp only [Execute, ValueStatement.Execute, Div.Execute, Mult.Execute,
    GetValueTypeOfObjHolder, and_self, if_true, to_int_of_range _ hprod.1 hprod.2]
  rw [if_neg hm0, if_neg hmin, Int.mul_tdiv_cancel n hm0, to_int_of_range _ hn.1 hn.2]

/-- C19, instance of the amended claim: `(-46341 * 46340) / 46340` is -46341. -/
theorem Div_Mult_cancel_witness :
    Execute 3 (.Div (.Mult (.NumericConst (-46341)) (.NumericConst 46340)) (.NumericConst 46340))
        [] .driver sample_world =
      ⟨.value (.Number (-46341)), [], sample_world⟩ :=
  Div_Mult_cancel (-46341) 46340 0 [] .driver sample_world (by decide) (by decide) (by decide)
    (by decide)

/-- C20: after the left operand returned the value `l`, `Or::Execute` returns `Bool(true)`
without evaluating the right operand when `l` is truthy (the closure and the memory are those
that the left operand left, whatever the right operand would do), and evaluates the right
operand when `l` is falsy: it then returns `Bool(IsTrue(l) or IsTrue(r))`, or ends with the
exception of the right operand.  `And::Execute` evaluates the right operand after the left one
in every case, also when `l` is falsy: it ends with the closure and the memory that the right
operand left, with `Bool(IsTrue(l) and IsTrue(r))` or with the exception of the right
operand. -/
theorem Or_And_Execute (exec : Executor Statement) (lhs_ rhs_ : Statement)
    (closure closure1 : Closure) (context : Context) (w w1 : World Statement) (l : ObjectHolder)
    (hlhs : exec lhs_ closure context w = ⟨.value l, closure1, w1⟩) :
    (IsTrue l = true →
      Or.Execute exec lhs_ rhs_ closure context w = ⟨.value (.Bool true), closure1, w1⟩) ∧
    (IsTrue l = false →
      (∀ (r : ObjectHolder) (closure2 : Closure) (w2 : World Statement),
        exec rhs_ closure1 context w1 = ⟨.value r, closure2, w2⟩ →
        Or.Execute exec lhs_ rhs_ closure context w =
          ⟨.value (.Bool (IsTrue l || IsTrue r)), closure2, w2⟩) ∧
      (∀ (failure : Outcome ObjectHolder) (closure2 : Closure) (w2 : World Statement),
        exec rhs_ closure1 context w1 = ⟨failure, closure2, w2⟩ →
        (∀ r : ObjectHolder, failure ≠ .value r) →
        Or.Execute exec lhs_ rhs_ closure context w = ⟨failure, closure2, w2⟩)) ∧
    (∀ (r : ObjectHolder) (closure2 : Closure) (w2 : World Statement),
      exec rhs_ closure1 context w1 = ⟨.value r, closure2, w2⟩ →
      And.Execute exec lhs_ rhs_ closure context w =
        ⟨.value (.Bool (IsTrue l && IsTrue r)), closure2, w2⟩) ∧
    (∀ (failure : Outcome ObjectHolder) (closure2 : Closure) (w2 : World Statement),
      exec rhs_ closure1 context w1 = ⟨failure, closure2, w2⟩ →
      (∀ r : ObjectHolder, failure ≠ .value r) →
      And.Execute exec lhs_ rhs_ closure context w = ⟨failure, closure2, w2⟩) := by
  refine ⟨?_, ?_, ?_, ?_⟩
  · intro hl
    simp only [Or.Execute, hlhs, hl, Bool.not_true, Bool.false_eq_true, if_false]
  · intro hl
    refine ⟨?_, ?_⟩
    · intro r closure2 w2 hrhs
      simp only [Or.Execute, hlhs, hl, Bool.not_false, if_true, hrhs, Bool.false_or]
    · intro failure closure2 w2 hrhs hfail
      simp only [Or.Execute, hlhs, hl, Bool.not_false, if_true, hrhs]
      cases failure <;> first | rfl | exact absurd rfl (hfail _)
  · intro r closure2 w2 hrhs
    simp only [And.Execute, hlhs, hrhs]
  · intro failure closure2 w2 hrhs hfail
    simp only [And.Execute, hlhs, hrhs]
    cases failure <;> first | rfl | exact absurd rfl (hfail _)

/-- C20, instances: with a falsy left operand, `And` runs the assignment on its right (`x` is
bound afterwards) and returns `Bool(false)`, and it ends with the error of a division by zero
on its right; with a truthy left operand `Or` does neither (`x` stays unbound, no error), and
with a falsy one it does both; the results are `Bool`s, not the operands 0 and 5. -/
theorem Or_And_Execute_witness :
    Execute 1 (.NumericConst 0) [] .driver sample_world = ⟨.value (.Number 0), [], sample_world⟩ ∧
    IsTrue (.Number 0) = false ∧
    And.Execute (Execute 1) (.NumericConst 0) (.NumericConst 5) [] .driver sample_world =
      ⟨.value (.Bool (IsTrue (.Number 0) && IsTrue (.Number 5))), [], sample_world⟩ ∧
    Execute 3 (.And (.NumericConst 0) (.Assignment "x" (.NumericConst 5))) [] .driver
        sample_world =
      ⟨.value (.Bool false), [("x", .Number 5)], sample_world⟩ ∧
    Execute 3 (.And (.NumericConst 0) (.Div (.NumericConst 1) (.NumericConst 0))) [] .driver
        sample_world =
      ⟨.runtime_error "Can't divide by 0", [], sample_world⟩ ∧
    Execute 3 (.Or (.NumericConst 7) (.Assignment "x" (.NumericConst 5))) [] .driver
        sample_world =
      ⟨.value (.Bool true), [], sample_world⟩ ∧
    Execute 3 (.Or (.NumericConst 7) (.Div (.NumericConst 1) (.NumericConst 0))) [] .driver
        sample_world =
      ⟨.value (.Bool true), [], sample_world⟩ ∧
    Execute 3 (.Or (.NumericConst 0) (.Assignment "x" (.NumericConst 5))) [] .driver
        sample_world =
      ⟨.value (.Bool true), [("x", .Number 5)], sample_world⟩ ∧
    Execute 3 (.Or (.NumericConst 0) (.Div (.NumericConst 1) (.NumericConst 0))) [] .driver
        sample_world =
      ⟨.runtime_error "Can't divide by 0", [], sample_world⟩ :=
  ⟨rfl, rfl,
    (Or_And_Execute (Execute 1) (.NumericConst 0) (.NumericConst 5) [] [] .driver sample_world
      sample_world (.Number 0) rfl).2.2.1 (.Number 5) [] sample_world rfl,
    rfl, rfl, rfl, rfl, rfl, rfl⟩

/-- The loop over the arguments of a call, on arguments that are evaluated one after the other
and return values: the values are appended, in order, to the holders gathered before. -/
theorem execute_args_of_EvaluatesTo (exec : Executor Statement) (context : Context)
    (args : List Statement) (closure : Closure) (w : World Statement)
    (values : List ObjectHolder) (closure1 : Closure) (w1 : World Statement)
    (h : EvaluatesTo exec context args closure w values closure1 w1) :
    ∀ args_holders : List ObjectHolder,
      execute_args exec args args_holders closure context w =
        (.value (args_holders ++ values), closure1, w1) := by
  induction h with
  | nil closure w =>
    intro args_holders
    simp [execute_args]
  | cons statement statements value values closure closure1 closure2 w w1 w2 head tail ih =>
    intro args_holders
    rw [execute_args]
    simp only [head]
    rw [ih]
    simp

/-- The loop of `Compound::Execute` on commands of which the first ones return values and the
next one ends with an exception: the loop ends with that exception, in the closure and the
memory that the command left, whatever commands follow. -/
theorem Compound_Execute_unwinds (exec : Executor Statement) (context : Context)
    (before : List Statement) (closure : Closure) (w : World Statement)
    (values : List ObjectHolder) (closure1 : Closure) (w1 : World Statement)
    (h : EvaluatesTo exec context before closure w values closure1 w1) :
    ∀ (command : Statement) (after : List Statement) (info : ObjectHolder) (closure2 : Closure)
      (w2 : World Statement),
      exec command closure1 context w1 = ⟨.return_except info, closure2, w2⟩ →
      Compound.Execute exec (before ++ command :: after) closure context w =
        ⟨.return_except info, closure2, w2⟩ := by
  induction h with
  | nil closure w =>
    intro command after info closure2 w2 hc
    rw [List.nil_append, Compound.Execute]
    simp only [hc]
  | cons statement statements value values closure closure1 closure2 w w1 w2 head tail ih =>
    intro command after info closure3 w3 hc
    rw [List.cons_append, Compound.Execute]
    simp only [head]
    exact ih command after info closure3 w3 hc

/-- A statement that unwinds ends with the exception `return_except` that carries the value of
the `Return` reached, in the closure and the memory that the expression of that `Return`
left. -/
theorem Execute_of_Unwinds (context : Context) (fuel : Nat) (statement : Statement)
    (closure : Closure) (w : World Statement) (info : ObjectHolder) (closure1 : Closure)
    (w1 : World Statement) (h : Unwinds context fuel statement closure w info closure1 w1) :
    Execute fuel statement closure context w = ⟨.return_except info, closure1, w1⟩ := by
  induction h with
  | ret fuel statement_ info closure closure1 w w1 value =>
    rw [Execute, Return.Execute]
    simp only [value]
  | compound fuel before command after values info closure closure1 closure2 w w1 w2 run inner
      ih =>
    rw [Execute]
    exact Compound_Execute_unwinds (Execute fuel) context before closure w values closure1 w1
      run command after info closure2 w2 ih
  | if_body fuel condition_ if_body_ else_body_ condit_obj info closure closure1 closure2 w w1 w2
      condition truthy inner ih =>
    rw [Execute, IfElse.Execute]
    simp only [condition, truthy, if_true]
    exact ih
  | else_body fuel condition_ if_body_ else_body condit_obj info closure closure1 closure2 w w1
      w2 condition falsy inner ih =>
    rw [Execute, IfElse.Execute]
    simp only [condition, falsy, Bool.false_eq_true, if_false]
    exact ih

/-- C21: after the object expression returned a value, `MethodCall::Execute` returns the empty
holder, in the closure and the memory that the object expression left (so no argument is
evaluated), when that value is not a class instance.  When it is a class instance and the
arguments are evaluated one after the other to values, the node returns the empty holder
whenever `Call` ends with an exception (a runtime error, as for a method that the class does
not provide with that number of parameters, or any other exception out of the body), and the
value that `Call` returns otherwise. -/
theorem MethodCall_Execute (exec : Executor Statement) (object_ : Statement) (method_ : String)
    (args_ : List Statement) (closure closure1 : Closure) (context : Context)
    (w w1 : World Statement) (inst_holder : ObjectHolder)
    (hobj : exec object_ closure context w = ⟨.value inst_holder, closure1, w1⟩) :
    (is_instance inst_holder = false →
      MethodCall.Execute exec object_ method_ args_ closure context w =
        ⟨.value .None, closure1, w1⟩) ∧
    (∀ (inst_ptr : Nat) (args_holders : List ObjectHolder) (closure2 : Closure)
      (w2 : World Statement), inst_holder = .ClassInstance inst_ptr →
      EvaluatesTo exec context args_ closure1 w1 args_holders closure2 w2 →
      (∀ (what : String) (w3 : World Statement),
        ClassInstance.Call exec inst_ptr method_ args_holders context w2 =
          (.runtime_error what, w3) →
        MethodCall.Execute exec object_ method_ args_ closure context w =
          ⟨.value .None, closure2, w3⟩) ∧
      (∀ (info : ObjectHolder) (w3 : World Statement),
        ClassInstance.Call exec inst_ptr method_ args_holders context w2 =
          (.return_except info, w3) →
        MethodCall.Execute exec object_ method_ args_ closure context w =
          ⟨.value .None, closure2, w3⟩) ∧
      (∀ (this : ClassInstance), w2.instances[inst_ptr]? = some this →
        this.HasMethod w2 method_ args_holders.length = false →
        MethodCall.Execute exec object_ method_ args_ closure context w =
          ⟨.value .None, closure2, w2⟩) ∧
      (∀ (result : ObjectHolder) (w3 : World Statement),
        ClassInstance.Call exec inst_ptr method_ args_holders context w2 = (.value result, w3) →
        MethodCall.Execute exec object_ method_ args_ closure context w =
          ⟨.value result, closure2, w3⟩)) := by
  refine ⟨?_, ?_⟩
  · intro hinst
    rw [MethodCall.Execute]
    simp only [hobj]
    cases inst_holder <;> first | rfl | (solve | simp [is_instance] at hinst)
  · intro inst_ptr args_holders closure2 w2 hinst hargs
    subst hinst
    have hex := execute_args_of_EvaluatesTo exec context args_ closure1 w1 args_holders closure2
      w2 hargs []
    rw [List.nil_append] at hex
    refine ⟨?_, ?_, ?_, ?_⟩
    · intro what w3 hcall
      rw [MethodCall.Execute]
      simp only [hobj, hex, hcall]
    · intro info w3 hcall
      rw [MethodCall.Execute]
      simp only [hobj, hex, hcall]
    · intro this hthis hhas
      have hcall : ClassInstance.Call exec inst_ptr method_ args_holders context w2 =
          (.runtime_error "Incorrect call", w2) := by
        unfold ClassInstance.Call
        rw [hthis]
        simp only [hhas, Bool.false_eq_true, if_false]
      rw [MethodCall.Execute]
      simp only [hobj, hex, hcall]
    · intro result w3 hcall
      rw [MethodCall.Execute]
      simp only [hobj, hex, hcall]

/-- C21, instances: in the sample memory, with `p` an instance of `P`, the call `p.get(3)`
returns 3, the calls `p.boom()` (a division by zero in the body), `p.nope()` (no such method)
and `p.get()` (wrong number of arguments) return the empty holder, and a call on the `Number` 1
returns the empty holder without running the assignment in its argument. -/
theorem MethodCall_Execute_witness :
    Execute 1 (.VariableValue ⟨"p", []⟩) [("p", .ClassInstance 0)] .driver sample_memory =
      ⟨.value (.ClassInstance 0), [("p", .ClassInstance 0)], sample_memory⟩ ∧
    MethodCall.Execute (Execute 1) (.VariableValue ⟨"p", []⟩) "nope" []
        [("p", .ClassInstance 0)] .driver sample_memory =
      ⟨.value .None, [("p", .ClassInstance 0)], sample_memory⟩ ∧
    Execute 6 (.MethodCall (.VariableValue ⟨"p", []⟩) "get" [.NumericConst 3])
        [("p", .ClassInstance 0)] .driver sample_memory =
      ⟨.value (.Number 3), [("p", .ClassInstance 0)], sample_memory⟩ ∧
    Execute 6 (.MethodCall (.VariableValue ⟨"p", []⟩) "boom" [])
        [("p", .ClassInstance 0)] .driver sample_memory =
      ⟨.value .None, [("p", .ClassInstance 0)], sample_memory⟩ ∧
    Execute 6 (.MethodCall (.VariableValue ⟨"p", []⟩) "get" [])
        [("p", .ClassInstance 0)] .driver sample_memory =
      ⟨.value .None, [("p", .ClassInstance 0)], sample_memory⟩ ∧
    Execute 6 (.MethodCall (.NumericConst 1) "get" [.Assignment "x" (.NumericConst 3)])
        [] .driver sample_memory =
      ⟨.value .None, [], sample_memory⟩ :=
  ⟨rfl,
    ((MethodCall_Execute (Execute 1) (.VariableValue ⟨"p", []⟩) "nope" []
      [("p", .ClassInstance 0)] [("p", .ClassInstance 0)] .driver sample_memory sample_memory
      (.ClassInstance 0) rfl).2 0 [] [("p", .ClassInstance 0)] sample_memory rfl
        (.nil _ _)).2.2.1 ⟨0, []⟩ rfl rfl,
    rfl, rfl, rfl, rfl⟩

/-- C22: `MethodBody::Execute` returns the value carried by the `Return` that the execution of
its body reaches under `Compound` and `IfElse` nodes, however deep, in the closure and the
memory that the expression of that `Return` left, so that no statement after it in an enclosing
`Compound` is executed; and it returns the empty holder when the body returns a value, whatever
that value is. -/
theorem MethodBody_Execute (fuel : Nat) (body_ : Statement) (closure : Closure)
    (context : Context) (w : World Statement) :
    (∀ (info : ObjectHolder) (closure1 : Closure) (w1 : World Statement),
      Unwinds context fuel body_ closure w info closure1 w1 →
      Execute (fuel + 1) (.MethodBody body_) closure context w = ⟨.value info, closure1, w1⟩) ∧
    (∀ (value : ObjectHolder) (closure1 : Closure) (w1 : World Statement),
      Execute fuel body_ closure context w = ⟨.value value, closure1, w1⟩ →
      Execute (fuel + 1) (.MethodBody body_) closure context w =
        ⟨.value .None, closure1, w1⟩) := by
  refine ⟨?_, ?_⟩
  · intro info closure1 w1 h
    rw [Execute, MethodBody.Execute]
    simp only [Execute_of_Unwinds context fuel body_ closure w info closure1 w1 h]
  · intro value closure1 w1 h
    rw [Execute, MethodBody.Execute]
    simp only [h]

/-- C22, instances: the body `x = 1; if True: (return 7; x = 2); x = 3` returns 7 and leaves
`x` bound to 1; the body `x = 1; 5` returns the empty holder. -/
theorem MethodBody_Execute_witness :
    Execute 6 (.MethodBody (.Compound [.Assignment "x" (.NumericConst 1),
        .IfElse (.BoolConst true)
          (.Compound [.Return (.NumericConst 7), .Assignment "x" (.NumericConst 2)]) none,
        .Assignment "x" (.NumericConst 3)])) [] .driver sample_memory =
      ⟨.value (.Number 7), [("x", .Number 1)], sample_memory⟩ ∧
    Execute 6 (.MethodBody (.Compound [.Assignment "x" (.NumericConst 1), .NumericConst 5])) []
        .driver sample_memory =
      ⟨.value .None, [("x", .Number 1)], sample_memory⟩ :=
  ⟨(MethodBody_Execute 5 _ [] .driver sample_memory).1 (.Number 7) [("x", .Number 1)]
      sample_memory
      (.compound 4 [.Assignment "x" (.NumericConst 1)] _ [.Assignment "x" (.NumericConst 3)]
        [.Number 1] _ [] [("x", .Number 1)] _ _ sample_memory _
        (.cons _ _ _ _ _ _ _ _ _ _ rfl (.nil _ _))
        (.if_body 3 _ _ none (.Bool true) _ _ [("x", .Number 1)] _ _ sample_memory _ rfl rfl
          (.compound 2 [] _ [.Assignment "x" (.NumericConst 2)] [] _ _ _ _ _ _ _ (.nil _ _)
            (.ret 1 _ _ _ _ _ _ rfl)))),
    (MethodBody_Execute 5 _ [] .driver sample_memory).2 .None [("x", .Number 1)] sample_memory
      rfl⟩

/-- Two writes to the stream of a context are one write of the two texts. -/
theorem write_write (w : World Statement) (context : Context) (a b : String) :
    (w.write context a).write context b = w.write context (a ++ b) := by
  cases context
  · simp [World.write, String.append_assoc]
  · rfl

/-- On a plain value `PrintObj` writes its printed form and leaves the memory as it is. -/
theorem PrintObj_plain (exec : Executor Statement) (budget : Nat) (value : ObjectHolder)
    (closure : Closure) (context : Context) (w : World Statement)
    (h : plain_value closure value = true) :
    PrintObj exec (budget + 1) value closure context w = (.value (printed_form value), w) := by
  cases value with
  | String value =>
    simp only [plain_value, Option.isNone_iff_eq_none] at h
    simp only [PrintObj, h, printed_form]
  | Number value => rfl
  | Bool value => rfl
  | None => rfl
  | Class cls => simp [plain_value] at h
  | ClassInstance inst => simp [plain_value] at h

/-- A quiet argument is evaluated in the same way after a write to the stream of the context. -/
theorem Quiet_write (exec : Executor Statement) (context : Context) (closure : Closure)
    (w : World Statement) (arg : Statement) (value : ObjectHolder)
    (hq : Quiet exec context closure w arg value) (text : String) :
    exec arg closure context (w.write context text) =
      ⟨.value value, closure, w.write context text⟩ := by
  cases context
  · exact hq (w.output ++ text)
  · exact hq w.output

/-- On an argument that is evaluated to a plain value `PrintArgument` writes the printed form to
the stream, after the evaluation of the argument. -/
theorem PrintArgument_plain (exec : Executor Statement) (budget : Nat) (arg : Statement)
    (value : ObjectHolder) (closure closure1 : Closure) (context : Context)
    (w w1 : World Statement)
    (harg : exec arg closure context w = ⟨.value value, closure1, w1⟩)
    (h : plain_value closure1 value = true) :
    PrintArgument exec (budget + 1) (some arg) closure context w =
      (.value (), closure1, w1.write context (printed_form value)) := by
  simp only [PrintArgument, harg, PrintObj_plain exec budget value closure1 context w1 h]

/-- The loop of `PrintArgs` after its first argument writes each printed form with one space
before it. -/
theorem PrintArgs_rest (exec : Executor Statement) (budget : Nat) (closure : Closure)
    (context : Context) (w : World Statement) (args_ : List Statement)
    (values : List ObjectHolder)
    (h : List.Forall₂
      (fun arg value =>
        Quiet exec context closure w arg value ∧ plain_value closure value = true)
      args_ values) :
    ∀ text : String,
      PrintArgs exec (budget + 1) args_ false closure context (w.write context text) =
        (.value (), closure,
          w.write context (text ++ space_before (values.map printed_form))) := by
  induction h with
  | nil =>
    intro text
    simp [PrintArgs, space_before]
  | cons hd _ ih =>
    intro text
    rw [PrintArgs]
    simp only [Bool.false_eq_true, if_false, write_write,
      PrintArgument_plain exec budget _ _ closure closure context _ _
        (Quiet_write exec context closure w _ _ hd.1 _) hd.2,
      ih, List.map_cons, space_before, String.append_assoc]

/-- The empty text written to a stream leaves the memory as it is. -/
theorem write_empty (w : World Statement) (context : Context) : w.write context "" = w := by
  cases context
  · simp [World.write]
  · rfl

/-- C23: with at least one argument, each of which is evaluated (from the closure and the
memory of the call, and without writing itself) to a `Number`, a `Bool`, the empty holder or a
`String` that is no key of the closure, `Print::Execute` writes to the stream of the context the
printed forms of the values in order, separated by one space and followed by one newline, and
nothing else; it returns the empty holder and leaves the closure as it is.  The same holds for
the `Print` node built with a single argument.  Whatever the arguments do besides: once the
first one is evaluated to such a value, `Print::Execute` writes its printed form right after, and
then the newline if it is the only argument, and otherwise one space and what the `Print` of the
other arguments writes. -/
theorem Print_Execute (exec : Executor Statement) (budget : Nat) (closure : Closure)
    (context : Context) (w : World Statement) :
    (∀ (argument_ : Option Statement) (args_ : List Statement) (values : List ObjectHolder),
      args_ ≠ [] →
      List.Forall₂
        (fun arg value =>
          Quiet exec context closure w arg value ∧ plain_value closure value = true)
        args_ values →
      Print.Execute exec (budget + 1) argument_ args_ closure context w =
        ⟨.value .None, closure,
          w.write context (spaced (values.map printed_form) ++ "\n")⟩) ∧
    (∀ (arg : Statement) (value : ObjectHolder), Quiet exec context closure w arg value →
      plain_value closure value = true →
      Print.Execute exec (budget + 1) (some arg) [] closure context w =
        ⟨.value .None, closure, w.write context (printed_form value ++ "\n")⟩) ∧
    (∀ (argument_ : Option Statement) (arg : Statement) (value : ObjectHolder)
      (closure1 : Closure) (w1 : World Statement),
      exec arg closure context w = ⟨.value value, closure1, w1⟩ →
      plain_value closure1 value = true →
      Print.Execute exec (budget + 1) argument_ [arg] closure context w =
          ⟨.value .None, closure1, w1.write context (printed_form value ++ "\n")⟩ ∧
        Print.Execute exec (budget + 1) (some arg) [] closure context w =
          ⟨.value .None, closure1, w1.write context (printed_form value ++ "\n")⟩ ∧
        ∀ (next : Statement) (args_ : List Statement),
          Print.Execute exec (budget + 1) argument_ (arg :: next :: args_) closure context w =
            Print.Execute exec (budget + 1) argument_ (next :: args_) closure1 context
              (w1.write context (printed_form value ++ " "))) ∧
    (∀ text : String, (w.write .driver text).output = w.output ++ text) := by
  refine ⟨?_, ?_, ?_, fun _ => rfl⟩
  · intro argument_ args_ values hne h
    cases h with
    | nil => exact absurd rfl hne
    | cons hd tl =>
      have hq := Quiet_write exec context closure w _ _ hd.1 ""
      rw [write_empty] at hq
      rw [Print.Execute]
      simp only [List.isEmpty_cons, Bool.not_false, if_true, PrintArgs,
        PrintArgument_plain exec budget _ _ closure closure context _ _ hq hd.2,
        PrintArgs_rest exec budget closure context w _ _ tl, write_write, List.map_cons, spaced,
        String.append_assoc]
  · intro arg value hq h
    have hq1 := Quiet_write exec context closure w _ _ hq ""
    rw [write_empty] at hq1
    rw [Print.Execute]
    simp only [List.isEmpty_nil, Bool.not_true, Bool.false_eq_true, if_false,
      PrintArgument_plain exec budget arg value closure closure context w w hq1 h, write_write]
  · intro argument_ arg value closure1 w1 harg h
    refine ⟨?_, ?_, ?_⟩
    · rw [Print.Execute]
      simp only [List.isEmpty_cons, Bool.not_false, if_true, PrintArgs,
        PrintArgument_plain exec budget arg value closure closure1 context w w1 harg h,
        write_write]
    · rw [Print.Execute]
      simp only [List.isEmpty_nil, Bool.not_true, Bool.false_eq_true, if_false,
        PrintArgument_plain exec budget arg value closure closure1 context w w1 harg h,
        write_write]
    · intro next args_
      rw [Print.Execute, Print.Execute]
      simp only [List.isEmpty_cons, Bool.not_false, if_true, PrintArgs, Bool.false_eq_true,
        if_false,
        PrintArgument_plain exec budget arg value closure closure1 context w w1 harg h,
        write_write]

/-- C23, instances: `print "hello"` writes `hello` and a newline; `print a.x, "hi"`, where the
field `x` of the instance `a` holds 2, writes `2 hi` and a newline; `print 1, "a", True, None`
writes `1 a True None` and a newline. -/
theorem Print_Execute_witness :
    Execute 2 (.Print none [.StringConst "hello"]) [] .driver sample_memory =
      ⟨.value .None, [], sample_memory.write .driver "hello\n"⟩ ∧
    (Execute 2 (.Print none [.StringConst "hello"]) [] .driver sample_memory).world.output =
      "hello\n" ∧
    Execute 2 (.Print none [.VariableValue ⟨"", ["a", "x"]⟩, .StringConst "hi"]) sample_closure
        .driver sample_world =
      ⟨.value .None, sample_closure, sample_world.write .driver "2 hi\n"⟩ ∧
    (Execute 2 (.Print none [.NumericConst 1, .StringConst "a", .BoolConst true, .None]) []
        .driver sample_memory).world.output =
      "1 a True None\n" :=
  ⟨(Print_Execute (Execute 1) 0 [] .driver sample_memory).1 none [.StringConst "hello"]
      [.String "hello"] (by simp) (.cons ⟨fun _ => rfl, rfl⟩ .nil),
    rfl,
    (Print_Execute (Execute 1) 1 sample_closure .driver sample_world).1 none
      [.VariableValue ⟨"", ["a", "x"]⟩, .StringConst "hi"] [.Number 2, .String "hi"] (by simp)
      (.cons ⟨fun _ => rfl, rfl⟩ (.cons ⟨fun _ => rfl, rfl⟩ .nil)),
    rfl⟩

/-- The loop over the dotted ids raises a runtime error exactly when some id that is looked up
is missing. -/
theorem dotted_loop_error_iff (w : World Statement) : ∀ (ids : List String) (closure : Closure)
    (result : ObjectHolder), ids ≠ [] →
    (dotted_loop w ids closure result =
        .runtime_error "Unable to evaluate a variable with the given name" ↔
      LooksUpMissing w closure ids)
  | [], _, _, h => absurd rfl h
  | id :: ids, closure, result, _ => by
    rw [dotted_loop]
    cases hf : closure.find id with
    | none =>
      simp only [true_iff]
      exact .here closure id ids hf
    | some field =>
      have hno : ¬ LooksUpMissing w closure (id :: ids) → ((Outcome.value field :
          Outcome ObjectHolder) = .runtime_error
            "Unable to evaluate a variable with the given name" ↔
          LooksUpMissing w closure (id :: ids)) := fun h =>
        ⟨fun e => (by cases e), fun e => absurd e h⟩
      cases field with
      | ClassInstance inst =>
        simp only
        cases hi : w.instances[inst]? with
        | none =>
          simp only
          constructor
          · intro e
            cases e
          · intro e
            cases e with
            | here _ _ _ missing => rw [hf] at missing; cases missing
            | deeper _ _ _ _ inst2 this bound valid missing =>
              rw [hf] at bound
              injection bound with bound
              injection bound with bound
              subst bound
              rw [hi] at valid
              cases valid
        | some this =>
          simp only
          cases ids with
          | nil =>
            rw [dotted_loop]
            constructor
            · intro e
              cases e
            · intro e
              cases e with
              | here _ _ _ missing => rw [hf] at missing; cases missing
          | cons next rest =>
            rw [dotted_loop_error_iff w (next :: rest) this.fields_ _ (by simp)]
            constructor
            · intro e
              exact .deeper closure id next rest inst this hf hi e
            · intro e
              cases e with
              | here _ _ _ missing => rw [hf] at missing; cases missing
              | deeper _ _ _ _ inst2 this2 bound valid missing =>
                rw [hf] at bound
                injection bound with bound
                injection bound with bound
                subst bound
                rw [hi] at valid
                injection valid with valid
                subst valid
                exact missing
      | None =>
        apply hno
        intro e
        cases e with
        | here _ _ _ missing => rw [hf] at missing; cases missing
        | deeper _ _ _ _ _ _ bound _ _ => rw [hf] at bound; cases bound
      | Number value =>
        apply hno
        intro e
        cases e with
        | here _ _ _ missing => rw [hf] at missing; cases missing
        | deeper _ _ _ _ _ _ bound _ _ => rw [hf] at bound; cases bound
      | String value =>
        apply hno
        intro e
        cases e with
        | here _ _ _ missing => rw [hf] at missing; cases missing
        | deeper _ _ _ _ _ _ bound _ _ => rw [hf] at bound; cases bound
      | Bool value =>
        apply hno
        intro e
        cases e with
        | here _ _ _ missing => rw [hf] at missing; cases missing
        | deeper _ _ _ _ _ _ bound _ _ => rw [hf] at bound; cases bound
      | Class cls =>
        apply hno
        intro e
        cases e with
        | here _ _ _ missing => rw [hf] at missing; cases missing
        | deeper _ _ _ _ _ _ bound _ _ => rw [hf] at bound; cases bound

/-- The evaluation of a `VariableValue` node leaves the closure and the memory as they are. -/
theorem VariableValue_frame (node : VariableValue) (closure : Closure) (w : World Statement) :
    (node.Execute closure w).closure = closure ∧ (node.Execute closure w).world = w := by
  unfold VariableValue.Execute
  split
  · exact ⟨rfl, rfl⟩
  · split <;> exact ⟨rfl, rfl⟩

/-- C24: `VariableValue::Execute` leaves the closure and the memory as they are.  With a single
name it returns the value that the closure binds to the name and raises a runtime error when
the name is not bound.  With dotted ids it looks the first id up in the closure: a missing id
raises a runtime error; a value that is no class instance is returned at once, whatever ids
follow; a class instance is returned when no id follows, and otherwise the ids that follow are
resolved in the same way in the fields of that instance.  So a runtime error is raised exactly
when some id that is looked up is missing. -/
theorem VariableValue_Execute (closure : Closure) (w : World Statement) :
    (∀ node : VariableValue,
      (node.Execute closure w).closure = closure ∧ (node.Execute closure w).world = w) ∧
    (∀ (name : String) (value : ObjectHolder), closure.find name = some value →
      (VariableValue.Execute ⟨name, []⟩ closure w).outcome = .value value) ∧
    (∀ name : String, closure.find name = none →
      (VariableValue.Execute ⟨name, []⟩ closure w).outcome =
        .runtime_error "Unable to evaluate a variable with the given name") ∧
    (∀ (name id : String) (ids : List String), closure.find id = none →
      (VariableValue.Execute ⟨name, id :: ids⟩ closure w).outcome =
        .runtime_error "Unable to evaluate a variable with the given name") ∧
    (∀ (name id : String) (ids : List String) (value : ObjectHolder),
      closure.find id = some value → is_instance value = false →
      (VariableValue.Execute ⟨name, id :: ids⟩ closure w).outcome = .value value) ∧
    (∀ (name id : String) (inst : Nat) (this : ClassInstance),
      closure.find id = some (.ClassInstance inst) → w.instances[inst]? = some this →
      (VariableValue.Execute ⟨name, [id]⟩ closure w).outcome = .value (.ClassInstance inst)) ∧
    (∀ (name id next : String) (ids : List String) (inst : Nat) (this : ClassInstance),
      closure.find id = some (.ClassInstance inst) → w.instances[inst]? = some this →
      (VariableValue.Execute ⟨name, id :: next :: ids⟩ closure w).outcome =
        (VariableValue.Execute ⟨name, next :: ids⟩ this.fields_ w).outcome) ∧
    (∀ (name : String) (ids : List String), ids ≠ [] →
      ((VariableValue.Execute ⟨name, ids⟩ closure w).outcome =
          .runtime_error "Unable to evaluate a variable with the given name" ↔
        LooksUpMissing w closure ids)) := by
  refine ⟨?_, ?_, ?_, ?_, ?_, ?_, ?_, ?_⟩
  · intro node
    exact VariableValue_frame node closure w
  · intro name value h
    simp [VariableValue.Execute, h]
  · intro name h
    simp [VariableValue.Execute, h]
  · intro name id ids h
    simp [VariableValue.Execute, dotted_loop, h]
  · intro name id ids value h hinst
    simp only [VariableValue.Execute, List.isEmpty_cons, Bool.not_false, if_true, dotted_loop, h]
    cases value <;> first | rfl | (solve | simp [is_instance] at hinst)
  · intro name id inst this h hthis
    simp [VariableValue.Execute, dotted_loop, h, hthis]
  · intro name id next ids inst this h hthis
    simp only [VariableValue.Execute, List.isEmpty_cons, Bool.not_false, if_true]
    rw [dotted_loop]
    simp only [h, hthis]
    cases hn : this.fields_.find next with
    | none => simp [dotted_loop, hn]
    | some value => simp [dotted_loop, hn]
  · intro name ids hne
    have hemp : ids.isEmpty = false := by cases ids <;> simp at hne ⊢
    simp only [VariableValue.Execute, hemp, Bool.not_false, if_true]
    exact dotted_loop_error_iff w ids closure .None hne

/-- C24, instances: in the sample memory, where the fields of the first instance are `x = 2`,
the path `a.x` gives 2, the path `a.y` raises, the path `n.y.z` on a `Number` `n` gives that
`Number`, the single name `a` gives the instance and the single name `z` raises. -/
theorem VariableValue_Execute_witness :
    (VariableValue.Execute ⟨"", ["a", "x"]⟩ [("a", .ClassInstance 0), ("n", .Number 1)]
        sample_world).outcome =
      (VariableValue.Execute ⟨"", ["x"]⟩ [("x", .Number 2)] sample_world).outcome ∧
    (VariableValue.Execute ⟨"", ["a", "x"]⟩ [("a", .ClassInstance 0), ("n", .Number 1)]
        sample_world).outcome = .value (.Number 2) ∧
    (VariableValue.Execute ⟨"", ["a", "y"]⟩ [("a", .ClassInstance 0), ("n", .Number 1)]
        sample_world).outcome =
      .runtime_error "Unable to evaluate a variable with the given name" ∧
    (VariableValue.Execute ⟨"", ["n", "y", "z"]⟩ [("a", .ClassInstance 0), ("n", .Number 1)]
        sample_world).outcome = .value (.Number 1) ∧
    (VariableValue.Execute ⟨"a", []⟩ [("a", .ClassInstance 0), ("n", .Number 1)]
        sample_world).outcome = .value (.ClassInstance 0) ∧
    (VariableValue.Execute ⟨"z", []⟩ [("a", .ClassInstance 0), ("n", .Number 1)]
        sample_world).outcome =
      .runtime_error "Unable to evaluate a variable with the given name" :=
  ⟨(VariableValue_Execute [("a", .ClassInstance 0), ("n", .Number 1)] sample_world).2.2.2.2.2.2.1
      "" "a" "x" [] 0 ⟨0, [("x", .Number 2)]⟩ rfl rfl,
    rfl, rfl,
    (VariableValue_Execute [("a", .ClassInstance 0), ("n", .Number 1)] sample_world).2.2.2.2.1
      "" "n" ["y", "z"] (.Number 1) rfl rfl,
    rfl, rfl⟩

/-- The instance at the index of a field assignment after it: the same class, the fields with
the key assigned. -/
theorem set_field_same (w : World Statement) (inst : Nat) (key : String) (value : ObjectHolder)
    (this : ClassInstance) (h : w.instances[inst]? = some this) :
    (w.set_field inst key value).instances[inst]? =
      some ⟨this.cls_, this.fields_.assign key value⟩ := by
  simp only [World.set_field, List.getElem?_modify_eq, h, Option.map_eq_map, Option.map_some']

/-- A field assignment leaves the instances at the other indices as they are. -/
theorem set_field_other (w : World Statement) (inst : Nat) (key : String) (value : ObjectHolder)
    (i : Nat) (h : i ≠ inst) :
    (w.set_field inst key value).instances[i]? = w.instances[i]? := by
  simp only [World.set_field]
  exact List.getElem?_modify_ne _ _ (fun e => h e.symm)

/-- Binding a name other than the one a `VariableValue` node looks up in the closure does not
change what the node resolves to. -/
theorem VariableValue_Execute_assign (object_ : VariableValue) (closure : Closure)
    (w : World Statement) (key : String) (value : ObjectHolder)
    (h : object_.first_name ≠ key) :
    (object_.Execute (closure.assign key value) w).outcome = (object_.Execute closure w).outcome := by
  obtain ⟨var_name_, dotted_ids_⟩ := object_
  cases dotted_ids_ with
  | nil =>
    have h1 : ¬ var_name_ = key := h
    simp only [VariableValue.Execute, List.isEmpty_nil, Bool.not_true, Bool.false_eq_true,
      if_false, find_assign, if_neg h1]
    cases closure.find var_name_ <;> rfl
  | cons id ids =>
    have h1 : ¬ id = key := h
    simp only [VariableValue.Execute, List.isEmpty_cons, Bool.not_false, if_true, dotted_loop,
      find_assign, if_neg h1]

/-- C25, counterexample: in the sample memory, with `obj` bound to the first instance and
`other` to the second, the target path `obj` resolves to the first instance; the statement
`obj.obj = other` returns the second instance, the value of its right side, but the fields of
the first instance are as before, with no field `obj`: the field is set in the second instance,
to which the statement has bound `obj` before it resolved the target. -/
theorem FieldAssignment_counterexample :
    (VariableValue.Execute ⟨"", ["obj"]⟩ [("obj", .ClassInstance 0), ("other", .ClassInstance 1)]
        sample_world).outcome = .value (.ClassInstance 0) ∧
    sample_world.instances[0]? = some ⟨0, [("x", .Number 2)]⟩ ∧
    Execute 3 (.FieldAssignment ⟨"", ["obj"]⟩ "obj" (.VariableValue ⟨"other", []⟩))
        [("obj", .ClassInstance 0), ("other", .ClassInstance 1)] .driver sample_world =
      ⟨.value (.ClassInstance 1), [("obj", .ClassInstance 1), ("other", .ClassInstance 1)],
        ⟨[sample_V, sample_E],
          [⟨0, [("x", .Number 2)]⟩, ⟨0, [("x", .Number 3), ("obj", .ClassInstance 1)]⟩,
            ⟨1, []⟩], ""⟩⟩ ∧
    Closure.find [("x", .Number 2)] "obj" = none :=
  ⟨rfl, rfl, rfl, rfl⟩

/-- C25, amended: when the right side is evaluated to a value and the target path, resolved in
the closure in which the field name has then been bound to that value, gives the class instance
`t`, `FieldAssignment::Execute` returns that value, and afterwards the fields of `t` map the
field name to it and every other key to what they mapped it to before; the class of `t`, the
other instances, the classes and the output are as the right side left them.  The target
resolves in that closure as in the closure that the right side left whenever the field name is
not the name that the path looks up in the closure. -/
theorem FieldAssignment_Execute (exec : Executor Statement) (object_ : VariableValue)
    (field_name : String) (rv : Statement) (closure closure1 : Closure) (context : Context)
    (w w1 : World Statement) (value : ObjectHolder) (t : Nat) (this : ClassInstance)
    (hrv : exec rv closure context w = ⟨.value value, closure1, w1⟩)
    (htarget : (object_.Execute (closure1.assign field_name value) w1).outcome =
      .value (.ClassInstance t))
    (hthis : w1.instances[t]? = some this) :
    (∃ (w2 : World Statement) (that : ClassInstance),
      FieldAssignment.Execute exec object_ field_name rv closure context w =
        ⟨.value value, closure1.assign field_name value, w2⟩ ∧
      w2.instances[t]? = some that ∧ that.cls_ = this.cls_ ∧
      that.fields_.find field_name = some value ∧
      (∀ key : String, key ≠ field_name → that.fields_.find key = this.fields_.find key) ∧
      (∀ i : Nat, i ≠ t → w2.instances[i]? = w1.instances[i]?) ∧
      w2.classes = w1.classes ∧ w2.output = w1.output) ∧
    (object_.first_name ≠ field_name →
      (object_.Execute (closure1.assign field_name value) w1).outcome =
        (object_.Execute closure1 w1).outcome) := by
  refine ⟨⟨w1.set_field t field_name value, ⟨this.cls_, this.fields_.assign field_name value⟩,
    ?_, set_field_same w1 t field_name value this hthis, rfl, ?_, ?_,
    fun i hi => set_field_other w1 t field_name value i hi, rfl, rfl⟩,
    VariableValue_Execute_assign object_ closure1 w1 field_name value⟩
  · have hframe := VariableValue_frame object_ (closure1.assign field_name value) w1
    have hlt : t < w1.instances.length := by
      by_contra hge
      rw [List.getElem?_eq_none (by omega)] at hthis
      cases hthis
    have hobj : object_.Execute (closure1.assign field_name value) w1 =
        ⟨.value (.ClassInstance t), closure1.assign field_name value, w1⟩ := by
      cases hres : object_.Execute (closure1.assign field_name value) w1 with
      | mk outcome closure2 w2 =>
        rw [hres] at htarget hframe
        simp only at htarget hframe
        rw [htarget, hframe.1, hframe.2]
    rw [FieldAssignment.Execute, Assignment.Execute]
    simp only [hrv, hobj, hlt, if_true]
  · rw [find_assign, if_pos rfl]
  · intro key hkey
    rw [find_assign, if_neg hkey]

/-- C25, instance of the amended claim: in the sample memory, with `a` bound to the first
instance, `a.y = 5` returns 5 and sets the field `y` of the first instance, next to its field
`x`. -/
theorem FieldAssignment_Execute_witness :
    Execute 1 (.NumericConst 5) [("a", .ClassInstance 0)] .driver sample_world =
      ⟨.value (.Number 5), [("a", .ClassInstance 0)], sample_world⟩ ∧
    (∃ (w2 : World Statement) (that : ClassInstance),
      FieldAssignment.Execute (Execute 1) ⟨"", ["a"]⟩ "y" (.NumericConst 5)
          [("a", .ClassInstance 0)] .driver sample_world =
        ⟨.value (.Number 5), Closure.assign [("a", .ClassInstance 0)] "y" (.Number 5), w2⟩ ∧
      w2.instances[0]? = some that ∧ that.cls_ = 0 ∧
      that.fields_.find "y" = some (.Number 5) ∧
      (∀ key : String, key ≠ "y" →
        that.fields_.find key = Closure.find [("x", .Number 2)] key) ∧
      (∀ i : Nat, i ≠ 0 → w2.instances[i]? = sample_world.instances[i]?) ∧
      w2.classes = sample_world.classes ∧ w2.output = sample_world.output) ∧
    (Execute 2 (.FieldAssignment ⟨"", ["a"]⟩ "y" (.NumericConst 5)) [("a", .ClassInstance 0)]
        .driver sample_world).world.instances =
      [⟨0, [("x", .Number 2), ("y", .Number 5)]⟩, ⟨0, [("x", .Number 3)]⟩, ⟨1, []⟩] :=
  ⟨rfl,
    (FieldAssignment_Execute (Execute 1) ⟨"", ["a"]⟩ "y" (.NumericConst 5)
      [("a", .ClassInstance 0)] [("a", .ClassInstance 0)] .driver sample_world sample_world
      (.Number 5) 0 ⟨0, [("x", .Number 2)]⟩ rfl rfl rfl).1,
    rfl⟩

/-- Reading a closure after `insert`: a key that was bound keeps its value; the inserted key,
if it was not bound, gives the inserted value. -/
theorem find_insert (closure : Closure) (key : String) (value : ObjectHolder) (k : String) :
    (closure.insert key value).find k =
      match closure.find k with
      | some old => some old
      | none => if k = key then some value else none := by
  unfold Closure.insert
  cases hk : closure.find key with
  | some old =>
    simp only
    cases hf : closure.find k with
    | some v => rfl
    | none =>
      have hne : ¬ k = key := by
        intro e
        rw [e, hk] at hf
        cases hf
      simp only [if_neg hne]
  | none =>
    simp only [Closure.find] at hk ⊢
    rw [List.lookup_append, lookup_cons_ite, List.lookup_nil]
    cases List.lookup k closure <;> rfl

/-- C26, counterexample: in the sample memory, whose first class has the name `P`, the
execution of the class definition in a closure that binds `P` to the `Number` 1 returns the
class and leaves `P` bound to the `Number` 1. -/
theorem ClassDefinition_counterexample :
    (sample_memory.classes[0]?).map Class.name_ = some "P" ∧
    Execute 1 (.ClassDefinition (.Class 0)) [("P", .Number 1)] .driver sample_memory =
      ⟨.value (.Class 0), [("P", .Number 1)], sample_memory⟩ ∧
    Closure.find [("P", .Number 1)] "P" = some (.Number 1) ∧
    (ObjectHolder.Number 1 ≠ ObjectHolder.Class 0) :=
  ⟨rfl, rfl, rfl, by decide⟩

/-- C26, amended: for every closure, `ClassDefinition::Execute` returns the holder of the class
and leaves the memory as it is; afterwards the closure maps the name of the class to that
holder when the name was not bound before, and is the closure of before when the name was
bound; every other name is bound as before. -/
theorem ClassDefinition_Execute (cls_ptr : Nat) (cls : Class Statement) (closure : Closure)
    (w : World Statement) (hcls : w.classes[cls_ptr]? = some cls) :
    ∃ closure1 : Closure,
      ClassDefinition.Execute (.Class cls_ptr) closure w = ⟨.value (.Class cls_ptr), closure1, w⟩ ∧
      (closure.find cls.name_ = none → closure1.find cls.name_ = some (.Class cls_ptr)) ∧
      (∀ old : ObjectHolder, closure.find cls.name_ = some old → closure1 = closure) ∧
      (∀ key : String, key ≠ cls.name_ → closure1.find key = closure.find key) := by
  refine ⟨closure.insert cls.name_ (.Class cls_ptr), ?_, ?_, ?_, ?_⟩
  · simp only [ClassDefinition.Execute, hcls]
  · intro h
    rw [find_insert, h, if_pos rfl]
  · intro old h
    simp only [Closure.insert, h]
  · intro key hkey
    rw [find_insert, if_neg hkey]
    cases closure.find key <;> rfl

/-- C26, instance of the amended claim: in the empty closure the definition of the sample class
`P` binds `P` to the class. -/
theorem ClassDefinition_Execute_witness :
    sample_memory.classes[0]? = some sample_P ∧
    Execute 1 (.ClassDefinition (.Class 0)) [] .driver sample_memory =
      ⟨.value (.Class 0), [("P", .Class 0)], sample_memory⟩ ∧
    ∃ closure1 : Closure,
      ClassDefinition.Execute (.Class 0) [] sample_memory =
        ⟨.value (.Class 0), closure1, sample_memory⟩ ∧
      (Closure.find [] sample_P.name_ = none →
        closure1.find sample_P.name_ = some (.Class 0)) ∧
      (∀ old : ObjectHolder, Closure.find [] sample_P.name_ = some old → closure1 = []) ∧
      (∀ key : String, key ≠ sample_P.name_ → closure1.find key = Closure.find [] key) :=
  ⟨rfl, rfl, ClassDefinition_Execute 0 sample_P [] sample_memory rfl⟩

/-- Whether an instance has a method depends on its class and on the classes of the memory
only. -/
theorem HasMethod_congr (w w1 : World Statement) (this that : ClassInstance) (method : String)
    (argument_count : Nat) (hc : w1.classes = w.classes) (hi : that.cls_ = this.cls_) :
    that.HasMethod w1 method argument_count = this.HasMethod w method argument_count := by
  unfold ClassInstance.HasMethod
  rw [hc, hi]

/-- C28: every execution of a `NewInstance` node that returns gives the holder of the one
instance `inst_` of the node, whatever the closure and the memory.  When the instance has no
`__init__` with as many parameters as the node has arguments, no argument is evaluated and no
error is raised: the closure and the memory stay as they are, so no instance is created and a
field written to the instance before is still read through the holder.  When it has one, the
arguments are evaluated in order and `__init__` is called with their values: the holder is
returned when the call returns, with the memory that the call leaves, and an exception of the
call goes up. -/
theorem NewInstance_Execute (exec : Executor Statement) (inst_ : Nat) (args_ : List Statement)
    (closure : Closure) (context : Context) (w : World Statement) (this : ClassInstance)
    (hthis : w.instances[inst_]? = some this) :
    (this.HasMethod w "__init__" args_.length = false →
      NewInstance.Execute exec inst_ args_ closure context w =
          ⟨.value (.ClassInstance inst_), closure, w⟩ ∧
        ∀ (key : String) (value : ObjectHolder),
          NewInstance.Execute exec inst_ args_ closure context (w.set_field inst_ key value) =
              ⟨.value (.ClassInstance inst_), closure, w.set_field inst_ key value⟩ ∧
            (w.set_field inst_ key value).instances.length = w.instances.length ∧
            (w.set_field inst_ key value).instances[inst_]? =
              some ⟨this.cls_, this.fields_.assign key value⟩ ∧
            (this.fields_.assign key value).find key = some value) ∧
    (this.HasMethod w "__init__" args_.length = true →
      ∀ (arg_holders : List ObjectHolder) (closure1 : Closure) (w1 : World Statement),
        EvaluatesTo exec context args_ closure w arg_holders closure1 w1 →
        (∀ (result : ObjectHolder) (w2 : World Statement),
          ClassInstance.Call exec inst_ "__init__" arg_holders context w1 = (.value result, w2) →
          NewInstance.Execute exec inst_ args_ closure context w =
            ⟨.value (.ClassInstance inst_), closure1, w2⟩) ∧
        (∀ (failure : Outcome ObjectHolder) (w2 : World Statement),
          ClassInstance.Call exec inst_ "__init__" arg_holders context w1 = (failure, w2) →
          (∀ result : ObjectHolder, failure ≠ .value result) →
          NewInstance.Execute exec inst_ args_ closure context w =
            ⟨failure, closure1, w2⟩)) ∧
    (∀ (closure0 closure1 : Closure) (w0 w1 : World Statement) (holder : ObjectHolder),
      NewInstance.Execute exec inst_ args_ closure0 context w0 = ⟨.value holder, closure1, w1⟩ →
      holder = .ClassInstance inst_) := by
  refine ⟨?_, ?_, ?_⟩
  · intro hhas
    refine ⟨?_, ?_⟩
    · simp only [NewInstance.Execute, hthis, hhas, Bool.false_eq_true, if_false]
    · intro key value
      have hsame := set_field_same w inst_ key value this hthis
      have hhas2 : ClassInstance.HasMethod (w.set_field inst_ key value)
          ⟨this.cls_, this.fields_.assign key value⟩ "__init__" args_.length = false := by
        exact (HasMethod_congr w (w.set_field inst_ key value) this
          ⟨this.cls_, this.fields_.assign key value⟩ "__init__" args_.length rfl rfl).trans hhas
      refine ⟨?_, ?_, hsame, ?_⟩
      · simp only [NewInstance.Execute, hsame, hhas2, Bool.false_eq_true, if_false]
      · simp only [World.set_field, List.length_modify]
      · rw [find_assign, if_pos rfl]
  · intro hhas arg_holders closure1 w1 hargs
    have hex := execute_args_of_EvaluatesTo exec context args_ closure w arg_holders closure1 w1
      hargs []
    rw [List.nil_append] at hex
    refine ⟨?_, ?_⟩
    · intro result w2 hcall
      simp only [NewInstance.Execute, hthis, hhas, if_true, hex, hcall]
    · intro failure w2 hcall hfail
      cases failure with
      | value result => exact absurd rfl (hfail result)
      | runtime_error what => simp only [NewInstance.Execute, hthis, hhas, if_true, hex, hcall]
      | return_except info => simp only [NewInstance.Execute, hthis, hhas, if_true, hex, hcall]
      | undefined => simp only [NewInstance.Execute, hthis, hhas, if_true, hex, hcall]
      | no_fuel => simp only [NewInstance.Execute, hthis, hhas, if_true, hex, hcall]
  · intro closure0 closure1 w0 w1 holder h
    unfold NewInstance.Execute at h
    cases hi : w0.instances[inst_]? with
    | none =>
      rw [hi] at h
      cases h
    | some this0 =>
      rw [hi] at h
      by_cases hh : this0.HasMethod w0 "__init__" args_.length = true
      · simp only [hh, if_true] at h
        rcases hex : execute_args exec args_ [] closure0 context w0 with ⟨o, c, ww⟩
        rw [hex] at h
        cases o with
        | value arg_holders =>
          rcases hcall : ClassInstance.Call exec inst_ "__init__" arg_holders context ww with
            ⟨o2, w2⟩
          simp only [hcall] at h
          cases o2 <;> first
            | (cases h; rfl)
            | (simp at h)
        | runtime_error what => simp [Outcome.map] at h
        | return_except info => simp [Outcome.map] at h
        | undefined => simp [Outcome.map] at h
        | no_fuel => simp [Outcome.map] at h
      · simp only [hh, if_false] at h
        cases h
        rfl

/-- C28, instances.  In the sample memory of a factory, the program `a = f.make(7)`, `a.y = 1`,
`b = f.make(8)` executes the one `NewInstance` node of `make`, whose class `P` has
`__init__(v)`, twice.  After the first two statements the instance of the node has the fields
`x`, set to 7 by `__init__`, and `y`, set to 1 through the holder `a`.  The second execution of
the node, in the closure of the call `make(8)`, evaluates the argument, calls `__init__` and
returns the holder of the same instance, whose field `y` is still there.  After the program `a`
and `b` hold that one instance, the memory has as many instances as before, and `b.y` reads 1
and `a.x` reads 8.  In the other sample memory the node `P()`, for which there is no `__init__`
without parameters, returns the holder at once. -/
theorem NewInstance_Execute_witness :
    Execute 12 (.Compound
        [.Assignment "a" (.MethodCall (.VariableValue ⟨"f", []⟩) "make" [.NumericConst 7]),
          .FieldAssignment ⟨"", ["a"]⟩ "y" (.NumericConst 1)])
        [("f", .ClassInstance 1)] .driver sample_factory =
      ⟨.value .None,
        [("f", .ClassInstance 1), ("a", .ClassInstance 0), ("y", .Number 1)],
        ⟨[sample_P, sample_F], [⟨0, [("x", .Number 7), ("y", .Number 1)]⟩, ⟨1, []⟩], ""⟩⟩ ∧
    ClassInstance.HasMethod
        ⟨[sample_P, sample_F], [⟨0, [("x", .Number 7), ("y", .Number 1)]⟩, ⟨1, []⟩], ""⟩
        ⟨0, [("x", .Number 7), ("y", .Number 1)]⟩ "__init__" 1 = true ∧
    NewInstance.Execute (Execute 5) 0 [.VariableValue ⟨"v", []⟩]
        [("v", .Number 8), ("self", .ClassInstance 1)] .driver
        ⟨[sample_P, sample_F], [⟨0, [("x", .Number 7), ("y", .Number 1)]⟩, ⟨1, []⟩], ""⟩ =
      ⟨.value (.ClassInstance 0), [("v", .Number 8), ("self", .ClassInstance 1)],
        ⟨[sample_P, sample_F], [⟨0, [("x", .Number 8), ("y", .Number 1)]⟩, ⟨1, []⟩], ""⟩⟩ ∧
    Execute 12 sample_twice [("f", .ClassInstance 1)] .driver sample_factory =
      ⟨.value .None,
        [("f", .ClassInstance 1), ("a", .ClassInstance 0), ("y", .Number 1),
          ("b", .ClassInstance 0)],
        ⟨[sample_P, sample_F], [⟨0, [("x", .Number 8), ("y", .Number 1)]⟩, ⟨1, []⟩], ""⟩⟩ ∧
    (Execute 12 sample_twice [("f", .ClassInstance 1)] .driver
        sample_factory).world.instances.length = sample_factory.instances.length ∧
    (Execute 1 (.VariableValue ⟨"", ["b", "y"]⟩)
        (Execute 12 sample_twice [("f", .ClassInstance 1)] .driver sample_factory).closure
        .driver
        (Execute 12 sample_twice [("f", .ClassInstance 1)] .driver
          sample_factory).world).outcome = .value (.Number 1) ∧
    (Execute 1 (.VariableValue ⟨"", ["a", "x"]⟩)
        (Execute 12 sample_twice [("f", .ClassInstance 1)] .driver sample_factory).closure
        .driver
        (Execute 12 sample_twice [("f", .ClassInstance 1)] .driver
          sample_factory).world).outcome = .value (.Number 8) ∧
    ClassInstance.HasMethod sample_memory ⟨0, []⟩ "__init__" 0 = false ∧
    NewInstance.Execute (Execute 1) 0 [] [] .driver sample_memory =
      ⟨.value (.ClassInstance 0), [], sample_memory⟩ :=
  ⟨rfl, rfl,
    ((NewInstance_Execute (Execute 5) 0 [.VariableValue ⟨"v", []⟩]
      [("v", .Number 8), ("self", .ClassInstance 1)] .driver
      ⟨[sample_P, sample_F], [⟨0, [("x", .Number 7), ("y", .Number 1)]⟩, ⟨1, []⟩], ""⟩
      ⟨0, [("x", .Number 7), ("y", .Number 1)]⟩ rfl).2.1 rfl [.Number 8]
      [("v", .Number 8), ("self", .ClassInstance 1)]
      ⟨[sample_P, sample_F], [⟨0, [("x", .Number 7), ("y", .Number 1)]⟩, ⟨1, []⟩], ""⟩
      (.cons _ _ _ _ _ _ _ _ _ _ rfl (.nil _ _))).1 .None
      ⟨[sample_P, sample_F], [⟨0, [("x", .Number 8), ("y", .Number 1)]⟩, ⟨1, []⟩], ""⟩ rfl,
    rfl, rfl, rfl, rfl, rfl,
    ((NewInstance_Execute (Execute 1) 0 [] [] .driver sample_memory ⟨0, []⟩ rfl).1 rfl).1⟩

/-- What `ClassInstance::Print` writes for an instance that has `__str__` without parameters,
when the call of `__str__` returns: the raw text of a `String`, the decimal form of a `Number`,
and `1` or `0` for a `Bool`. -/
theorem ClassInstance_Print_of_str (exec : Executor Statement) (self : Nat)
    (this : ClassInstance) (context : Context) (w w1 : World Statement)
    (str_res : ObjectHolder) (hthis : w.instances[self]? = some this)
    (hhas : this.HasMethod w "__str__" 0 = true)
    (hcall : ClassInstance.Call exec self "__str__" [] context w = (.value str_res, w1)) :
    (∀ value : String, str_res = .String value →
      ClassInstance.Print exec self context w = (.value value, w1)) ∧
    (∀ value : Int, str_res = .Number value →
      ClassInstance.Print exec self context w = (.value (toString value), w1)) ∧
    (∀ value : Bool, str_res = .Bool value →
      ClassInstance.Print exec self context w = (.value (if value then "1" else "0"), w1)) := by
  refine ⟨?_, ?_, ?_⟩ <;>
  · intro value hv
    subst hv
    simp only [ClassInstance.Print, hthis, hhas, if_true, hcall, Outcome.map]

/-- What `Stringify::Execute` returns for an instance, when the call of `__str__` returns: the
`String` with the raw text of a `String`, with the decimal form of a `Number`, and with `True`
or `False` for a `Bool`. -/
theorem Stringify_of_str (exec : Executor Statement) (budget : Nat) (arg_ : Statement)
    (closure closure1 : Closure) (context : Context) (w w1 w2 : World Statement) (var : Nat)
    (result_of_str : ObjectHolder)
    (harg : exec arg_ closure context w = ⟨.value (.ClassInstance var), closure1, w1⟩)
    (hcall : ClassInstance.Call exec var "__str__" [] .dummy w1 = (.value result_of_str, w2)) :
    (∀ value : String, result_of_str = .String value →
      Stringify.Execute exec (budget + 1) arg_ closure context w =
        ⟨.value (.String value), closure1, w2⟩) ∧
    (∀ value : Int, result_of_str = .Number value →
      Stringify.Execute exec (budget + 1) arg_ closure context w =
        ⟨.value (.String (toString value)), closure1, w2⟩) ∧
    (∀ value : Bool, result_of_str = .Bool value →
      Stringify.Execute exec (budget + 1) arg_ closure context w =
        ⟨.value (.String (if value then "True" else "False")), closure1, w2⟩) := by
  refine ⟨?_, ?_, ?_⟩ <;>
  · intro value hv
    subst hv
    simp only [Stringify.Execute, harg, hcall, ConverResultStrToObjectHolder]

/-- C30, the code at a failing input: in the sample memory the first instance is of the class
`P`, whose `__str__()` returns `True`.  `ClassInstance::Print` writes `1` for it, while
`Stringify` returns the `String` `True`, and `Print::PrintObj` writes `True` for the `Bool`
itself.  For the instances whose `__str__()` returns the `String` `text` and the `Number` -42
the two agree.  In general `ClassInstance::Print` writes `1` or `0` whenever `__str__()`
returns a `Bool`. -/
theorem ClassInstance_Print_failing_input :
    ClassInstance.HasMethod sample_memory ⟨0, []⟩ "__str__" 0 = true ∧
    ClassInstance.Call (Execute 5) 0 "__str__" [] .driver sample_memory =
      (.value (.Bool true), sample_memory) ∧
    ClassInstance.Print (Execute 5) 0 .driver sample_memory = (.value "1", sample_memory) ∧
    Execute 6 (.Stringify (.VariableValue ⟨"p", []⟩)) [("p", .ClassInstance 0)] .driver
        sample_memory =
      ⟨.value (.String "True"), [("p", .ClassInstance 0)], sample_memory⟩ ∧
    PrintObj (Execute 5) 1 (.Bool true) [] .driver sample_memory =
      (.value "True", sample_memory) ∧
    (Execute 6 (.Print none [.VariableValue ⟨"p", []⟩]) [("p", .ClassInstance 0)] .driver
        sample_memory).world.output = "1\n" ∧
    ClassInstance.Print (Execute 5) 1 .driver sample_memory = (.value "text", sample_memory) ∧
    Execute 6 (.Stringify (.VariableValue ⟨"s", []⟩)) [("s", .ClassInstance 1)] .driver
        sample_memory =
      ⟨.value (.String "text"), [("s", .ClassInstance 1)], sample_memory⟩ ∧
    ClassInstance.Print (Execute 5) 2 .driver sample_memory = (.value "-42", sample_memory) ∧
    Execute 6 (.Stringify (.VariableValue ⟨"n", []⟩)) [("n", .ClassInstance 2)] .driver
        sample_memory =
      ⟨.value (.String "-42"), [("n", .ClassInstance 2)], sample_memory⟩ ∧
    (∀ (exec : Executor Statement) (self : Nat) (this : ClassInstance) (context : Context)
      (w w1 : World Statement) (value : Bool), w.instances[self]? = some this →
      this.HasMethod w "__str__" 0 = true →
      ClassInstance.Call exec self "__str__" [] context w = (.value (.Bool value), w1) →
      ClassInstance.Print exec self context w = (.value (if value then "1" else "0"), w1)) :=
  ⟨rfl, rfl, rfl, rfl, rfl, rfl, rfl, rfl, rfl, rfl,
    fun exec self this context w w1 value hthis hhas hcall =>
      (ClassInstance_Print_of_str exec self this context w w1 (.Bool value) hthis hhas
        hcall).2.2 value rfl⟩

/-- A `VariableValue` node whose looked-up name is bound to a value that is no class instance
resolves to that value, whatever ids follow. -/
theorem VariableValue_Execute_first (object_ : VariableValue) (closure : Closure)
    (w : World Statement) (value : ObjectHolder)
    (hfind : closure.find object_.first_name = some value) (hinst : is_instance value = false) :
    object_.Execute closure w = ⟨.value value, closure, w⟩ := by
  obtain ⟨var_name_, dotted_ids_⟩ := object_
  cases dotted_ids_ with
  | nil =>
    have h1 : closure.find var_name_ = some value := hfind
    simp only [VariableValue.Execute, List.isEmpty_nil, Bool.not_true, Bool.false_eq_true,
      if_false, h1]
  | cons id ids =>
    have h1 : closure.find id = some value := hfind
    simp only [VariableValue.Execute, List.isEmpty_cons, Bool.not_false, if_true, dotted_loop,
      h1]
    cases value <;> first | rfl | (solve | simp [is_instance] at hinst)

/-- C31: once its right side has returned a value, `FieldAssignment::Execute` ends, however it
ends, with the closure that the right side left and in which the field name is bound to that
value: the closure maps the field name to the value and every other name to what the right
side left.  The target is resolved in that closure: when it gives there a class instance, the
statement returns the value and sets the field of that instance.  So, when the field name is
the name that the target path looks up in the closure and the value is no class instance, the
target resolves to that value, the statement ends by dereferencing a null pointer, and the
memory, with the fields of every instance, is as the right side left it. -/
theorem FieldAssignment_closure (exec : Executor Statement) (object_ : VariableValue)
    (field_name : String) (rv : Statement) (closure closure1 : Closure) (context : Context)
    (w w1 : World Statement) (value : ObjectHolder)
    (hrv : exec rv closure context w = ⟨.value value, closure1, w1⟩) :
    (FieldAssignment.Execute exec object_ field_name rv closure context w).closure =
      closure1.assign field_name value ∧
    (closure1.assign field_name value).find field_name = some value ∧
    (∀ key : String, key ≠ field_name →
      (closure1.assign field_name value).find key = closure1.find key) ∧
    (∀ (t : Nat) (this : ClassInstance),
      (object_.Execute (closure1.assign field_name value) w1).outcome =
        .value (.ClassInstance t) →
      w1.instances[t]? = some this →
      FieldAssignment.Execute exec object_ field_name rv closure context w =
        ⟨.value value, closure1.assign field_name value, w1.set_field t field_name value⟩) ∧
    (object_.first_name = field_name → is_instance value = false →
      object_.Execute (closure1.assign field_name value) w1 =
          ⟨.value value, closure1.assign field_name value, w1⟩ ∧
        FieldAssignment.Execute exec object_ field_name rv closure context w =
          ⟨.undefined, closure1.assign field_name value, w1⟩) := by
  have hframe := VariableValue_frame object_ (closure1.assign field_name value) w1
  refine ⟨?_, ?_, ?_, ?_, ?_⟩
  · rw [FieldAssignment.Execute, Assignment.Execute]
    simp only [hrv]
    cases hres : object_.Execute (closure1.assign field_name value) w1 with
    | mk outcome closure2 w2 =>
      rw [hres] at hframe
      simp only at hframe
      obtain ⟨hc, _⟩ := hframe
      subst hc
      cases outcome with
      | value obj_holder =>
        cases obj_holder with
        | ClassInstance instance_ =>
          simp only
          split <;> rfl
        | None => rfl
        | Number v => rfl
        | String v => rfl
        | Bool v => rfl
        | Class c => rfl
      | runtime_error what => rfl
      | return_except info => rfl
      | undefined => rfl
      | no_fuel => rfl
  · rw [find_assign, if_pos rfl]
  · intro key hkey
    rw [find_assign, if_neg hkey]
  · intro t this htarget hthis
    have hlt : t < w1.instances.length := by
      by_contra hge
      rw [List.getElem?_eq_none (by omega)] at hthis
      cases hthis
    have hobj : object_.Execute (closure1.assign field_name value) w1 =
        ⟨.value (.ClassInstance t), closure1.assign field_name value, w1⟩ := by
      cases hres : object_.Execute (closure1.assign field_name value) w1 with
      | mk outcome closure2 w2 =>
        rw [hres] at htarget hframe
        simp only at htarget hframe
        rw [htarget, hframe.1, hframe.2]
    rw [FieldAssignment.Execute, Assignment.Execute]
    simp only [hrv, hobj, hlt, if_true]
  · intro hname hinst
    have hfind : (closure1.assign field_name value).find object_.first_name = some value := by
      rw [hname, find_assign, if_pos rfl]
    have hobj := VariableValue_Execute_first object_ (closure1.assign field_name value) w1 value
      hfind hinst
    refine ⟨hobj, ?_⟩
    rw [FieldAssignment.Execute, Assignment.Execute]
    simp only [hrv, hobj]
    cases value <;> first | rfl | (solve | simp [is_instance] at hinst)

/-- C31, instances: in the sample memory, with `obj` bound to the first instance, whose only
field is `x`, the statement `obj.obj = 5` ends by dereferencing a null pointer with `obj` bound
to 5 and the memory as before; with `a` bound to the first instance, `a.y = 5` returns 5, sets
the field `y` and also binds `y` to 5 in the closure, next to `a`. -/
theorem FieldAssignment_closure_witness :
    Execute 1 (.NumericConst 5) [("obj", .ClassInstance 0)] .driver sample_world =
      ⟨.value (.Number 5), [("obj", .ClassInstance 0)], sample_world⟩ ∧
    FieldAssignment.Execute (Execute 1) ⟨"", ["obj"]⟩ "obj" (.NumericConst 5)
        [("obj", .ClassInstance 0)] .driver sample_world =
      ⟨.undefined, Closure.assign [("obj", .ClassInstance 0)] "obj" (.Number 5), sample_world⟩ ∧
    Execute 2 (.FieldAssignment ⟨"", ["obj"]⟩ "obj" (.NumericConst 5))
        [("obj", .ClassInstance 0)] .driver sample_world =
      ⟨.undefined, [("obj", .Number 5)], sample_world⟩ ∧
    sample_world.instances[0]? = some ⟨0, [("x", .Number 2)]⟩ ∧
    Execute 2 (.FieldAssignment ⟨"", ["a"]⟩ "y" (.NumericConst 5)) [("a", .ClassInstance 0)]
        .driver sample_world =
      ⟨.value (.Number 5), [("a", .ClassInstance 0), ("y", .Number 5)],
        ⟨[sample_V, sample_E],
          [⟨0, [("x", .Number 2), ("y", .Number 5)]⟩, ⟨0, [("x", .Number 3)]⟩, ⟨1, []⟩],
          ""⟩⟩ :=
  ⟨rfl,
    ((FieldAssignment_closure (Execute 1) ⟨"", ["obj"]⟩ "obj" (.NumericConst 5)
      [("obj", .ClassInstance 0)] [("obj", .ClassInstance 0)] .driver sample_world sample_world
      (.Number 5) rfl).2.2.2.2 rfl rfl).2,
    rfl, rfl, rfl⟩

end ast
